import Mathlib

/-!
# Bezier curve / ray intersection kernel (`kernels/xeon/geometry/bezier1i_intersector1.h`)

A shallow embedding of the curve segment (`BezierCurve3D`), of the box test
`intersect_box`, and of the two `Bezier1iIntersector1` variants of the header
(the batched 8-lane one and the recursive, stack-driven one), followed by the
theorems about them.

Arithmetic: in the first part every `float` of the source is a rational
number and every operation is exact (no rounding, no infinities). The one NaN
of the code, the quotient `0/0` of the cone blocks, is modelled by `clampQuot`.
The section "Binary32 arithmetic" repeats the arithmetic source lines with every
operation rounded to binary32; it is used where rounding changes the outcome.
-/

namespace embree

/-! ## Vectors -/

/-- Four-lane vector `Vec3fa` of the source: a position `x y z` and the
fourth lane `w`, which the curve code uses as the radius. -/
structure Vec3fa where
  x : ℚ
  y : ℚ
  z : ℚ
  w : ℚ
  deriving DecidableEq

namespace Vec3fa

/-- Broadcast constructor `Vec3fa(a)`. -/
def broadcast (a : ℚ) : Vec3fa := ⟨a, a, a, a⟩

/-- The vector `Vec3fa(zero)`. -/
def zero : Vec3fa := broadcast 0

/-- Lane-wise `a + b`. -/
def add (a b : Vec3fa) : Vec3fa := ⟨a.x + b.x, a.y + b.y, a.z + b.z, a.w + b.w⟩

/-- Lane-wise `a - b`. -/
def sub (a b : Vec3fa) : Vec3fa := ⟨a.x - b.x, a.y - b.y, a.z - b.z, a.w - b.w⟩

/-- Lane-wise `-a`. -/
def neg (a : Vec3fa) : Vec3fa := ⟨-a.x, -a.y, -a.z, -a.w⟩

/-- Scaling `a * s` of a vector by a float. -/
def scale (a : Vec3fa) (s : ℚ) : Vec3fa := ⟨a.x * s, a.y * s, a.z * s, a.w * s⟩

/-- Scaling `s * a` of a vector by a float written on the left. -/
def lscale (s : ℚ) (a : Vec3fa) : Vec3fa := ⟨s * a.x, s * a.y, s * a.z, s * a.w⟩

/-- Lane-wise minimum. -/
def vmin (a b : Vec3fa) : Vec3fa := ⟨min a.x b.x, min a.y b.y, min a.z b.z, min a.w b.w⟩

/-- Lane-wise maximum. -/
def vmax (a b : Vec3fa) : Vec3fa := ⟨max a.x b.x, max a.y b.y, max a.z b.z, max a.w b.w⟩

/-- Modelled from the spec: `operator==` of `Vec3fa` is declared outside this
header; the comparison `T == Vec3fa(zero)` asks whether the tangent is the zero
vector, that is whether the three spatial lanes agree (the fourth lane is not a
coordinate). -/
def eq3 (a b : Vec3fa) : Bool :=
  decide (a.x = b.x) && decide (a.y = b.y) && decide (a.z = b.z)

/-- Lane `k` of a vector: `0, 1, 2, 3` for `x, y, z, w`. -/
def get (a : Vec3fa) (k : Fin 4) : ℚ :=
  match k with
  | 0 => a.x
  | 1 => a.y
  | 2 => a.z
  | 3 => a.w

end Vec3fa

/-! ## Curve segments -/

/-- The struct `BezierCurve3D`: four control points, the parameter interval
`[t0, t1]` and the remaining subdivision depth. -/
structure BezierCurve3D where
  v0 : Vec3fa
  v1 : Vec3fa
  v2 : Vec3fa
  v3 : Vec3fa
  t0 : ℚ
  t1 : ℚ
  depth : Int
  deriving DecidableEq

namespace BezierCurve3D

/-- Method `BezierCurve3D::subdivide`: one de Casteljau step at the midpoint; the
result is the pair `(left, right)`. -/
def subdivide (c : BezierCurve3D) : BezierCurve3D × BezierCurve3D :=
  let p00 := c.v0
  let p01 := c.v1
  let p02 := c.v2
  let p03 := c.v3
  let p10 := (p00.add p01).scale (1/2)
  let p11 := (p01.add p02).scale (1/2)
  let p12 := (p02.add p03).scale (1/2)
  let p20 := (p10.add p11).scale (1/2)
  let p21 := (p11.add p12).scale (1/2)
  let p30 := (p20.add p21).scale (1/2)
  let t01 := (c.t0 + c.t1) * (1/2)
  (⟨p00, p10, p20, p30, c.t0, t01, c.depth - 1⟩,
   ⟨p30, p21, p12, p03, t01, c.t1, c.depth - 1⟩)

/-- Method `BezierCurve3D::eval(t, point, tangent)`: the two outputs are returned as
the pair `(point, tangent)`. -/
def eval (c : BezierCurve3D) (t : ℚ) : Vec3fa × Vec3fa :=
  let t0 := 1 - t
  let t1 := t
  let p00 := c.v0
  let p01 := c.v1
  let p02 := c.v2
  let p03 := c.v3
  let p10 := (p00.scale t0).add (p01.scale t1)
  let p11 := (p01.scale t0).add (p02.scale t1)
  let p12 := (p02.scale t0).add (p03.scale t1)
  let p20 := (p10.scale t0).add (p11.scale t1)
  let p21 := (p11.scale t0).add (p12.scale t1)
  let p30 := (p20.scale t0).add (p21.scale t1)
  (p30, p21.sub p20)

end BezierCurve3D

/-! ## Bounding boxes -/

/-- The box type `BBox3fa`: a lower and an upper corner. -/
structure BBox3fa where
  lower : Vec3fa
  upper : Vec3fa
  deriving DecidableEq

namespace BBox3fa

/-- Modelled from the spec: the constructor `BBox3fa(v)` is declared outside
this header; the bound of one control point is the box whose two corners are
that point. -/
def ofPoint (v : Vec3fa) : BBox3fa := ⟨v, v⟩

/-- Modelled from the spec: `merge` is declared outside this header; the
union of two boxes takes the lane-wise minimum of the lower corners and the
lane-wise maximum of the upper corners. -/
def merge (a b : BBox3fa) : BBox3fa := ⟨a.lower.vmin b.lower, a.upper.vmax b.upper⟩

/-- Modelled from the spec: the four-argument `merge`, the union of four boxes. -/
def merge4 (a b c d : BBox3fa) : BBox3fa := merge (merge a b) (merge c d)

/-- Modelled from the spec: `enlarge` is declared outside this header; the
box grows by `v` on both sides. -/
def enlarge (b : BBox3fa) (v : Vec3fa) : BBox3fa := ⟨b.lower.sub v, b.upper.add v⟩

end BBox3fa

/-- Method `BezierCurve3D::bounds`: the merged box of the four control points,
enlarged by the fourth lane of its upper corner (the largest radius). -/
def BezierCurve3D.bounds (c : BezierCurve3D) : BBox3fa :=
  let b := BBox3fa.merge4 (BBox3fa.ofPoint c.v0) (BBox3fa.ofPoint c.v1)
    (BBox3fa.ofPoint c.v2) (BBox3fa.ofPoint c.v3)
  b.enlarge (Vec3fa.broadcast b.upper.w)

/-! ## Eight-lane values -/

/-- Eight floats, one per lane (`avxf`). -/
abbrev avxf := Fin 8 → ℚ

/-- Eight booleans, one per lane (`avxb`). -/
abbrev avxb := Fin 8 → Bool

/-- Four `avxf` components (`avx4f`): eight four-lane vectors stored
component by component. -/
structure avx4f where
  x : avxf
  y : avxf
  z : avxf
  w : avxf

namespace avx4f

/-- The constructor `avx4f(v)`: every lane holds the vector `v`. -/
def broadcast (v : Vec3fa) : avx4f := ⟨fun _ => v.x, fun _ => v.y, fun _ => v.z, fun _ => v.w⟩

/-- Lane-wise `a + b`. -/
def add (a b : avx4f) : avx4f :=
  ⟨fun i => a.x i + b.x i, fun i => a.y i + b.y i, fun i => a.z i + b.z i, fun i => a.w i + b.w i⟩

/-- Lane-wise `a - b`. -/
def sub (a b : avx4f) : avx4f :=
  ⟨fun i => a.x i - b.x i, fun i => a.y i - b.y i, fun i => a.z i - b.z i, fun i => a.w i - b.w i⟩

/-- Lane-wise `-a`. -/
def neg (a : avx4f) : avx4f :=
  ⟨fun i => -a.x i, fun i => -a.y i, fun i => -a.z i, fun i => -a.w i⟩

/-- The product `s * a` of an `avxf` with an `avx4f`: lane `i` of every
component is multiplied by lane `i` of `s`. -/
def lscale (s : avxf) (a : avx4f) : avx4f :=
  ⟨fun i => s i * a.x i, fun i => s i * a.y i, fun i => s i * a.z i, fun i => s i * a.w i⟩

/-- The vector held in lane `i`. -/
def lane (a : avx4f) (i : Fin 8) : Vec3fa := ⟨a.x i, a.y i, a.z i, a.w i⟩

end avx4f

/-- Method `BezierCurve3D::eval(c0, c1, c2, c3)`, the batched evaluation
`c0*p00 + c1*p01 + c2*p02 + c3*p03`. -/
def BezierCurve3D.eval_avx (c : BezierCurve3D) (c0 c1 c2 c3 : avxf) : avx4f :=
  let p00 := avx4f.broadcast c.v0
  let p01 := avx4f.broadcast c.v1
  let p02 := avx4f.broadcast c.v2
  let p03 := avx4f.broadcast c.v3
  (((avx4f.lscale c0 p00).add (avx4f.lscale c1 p01)).add (avx4f.lscale c2 p02)).add
    (avx4f.lscale c3 p03)

/-- The four cubic Bernstein polynomials `B_0 .. B_3` at `t`. -/
def bernstein (k : Fin 4) (t : ℚ) : ℚ :=
  match k with
  | 0 => (1 - t) * (1 - t) * (1 - t)
  | 1 => 3 * t * (1 - t) * (1 - t)
  | 2 => 3 * t * t * (1 - t)
  | 3 => t * t * t

/-- Modelled from the spec: the table `coeff0` is declared outside this
header; it holds the Bernstein weights at the left ends `i/8` of the eight
sub-segments, `coeff0[k][i] = B_k(i/8)`. -/
def coeff0 (k : Fin 4) : avxf := fun i => bernstein k ((i.val : ℚ) / 8)

/-- Modelled from the spec: the table `coeff1` is declared outside this
header; it holds the Bernstein weights at the right ends `(i+1)/8` of the eight
sub-segments, `coeff1[k][i] = B_k((i+1)/8)`. -/
def coeff1 (k : Fin 4) : avxf := fun i => bernstein k (((i.val : ℚ) + 1) / 8)

/-- Modelled from the spec: `clamp` is declared outside this header; the
value is forced into `[lower, upper]`. -/
def clamp (x lower upper : ℚ) : ℚ := max lower (min x upper)

/-- The expression `clamp(d0/d1, 0, 1)` of the cone blocks, with
`d0 = w.x*v.x + w.y*v.y` and `d1 = v.x*v.x + v.y*v.y`. When `d1` is zero both
`v.x` and `v.y` are zero, so `d0` is zero as well and the source divides `0/0`,
which is NaN; `clamp` is `max(lower, min(x, upper))` and `min` answers its
second argument when the first one is NaN, so the value is `upper = 1`. -/
def clampQuot (d0 d1 : ℚ) : ℚ := if d1 = 0 then 1 else clamp (d0 / d1) 0 1

/-- Modelled from the spec: `none` on an `avxb` is declared outside this
header; it holds when no lane is set. -/
def avxb_none (valid : avxb) : Bool := decide (∀ i : Fin 8, valid i = false)

/-- Modelled from the spec: `select_min` is declared outside this header; it
picks a set lane of minimum value, the one of lowest index when several lanes
share the minimum (lane 0 when no lane is set, a case the callers exclude). -/
def select_min (valid : avxb) (t : avxf) : Fin 8 :=
  ((List.finRange 8).find? (fun i =>
    valid i && decide (∀ j : Fin 8, valid j = true → t i ≤ t j))).getD 0

/-- The assignment `valid[i] = 0`. -/
def clearLane (valid : avxb) (i : Fin 8) : avxb := fun j => if j = i then false else valid j

/-! ## Rays and primitives -/

/-- The fields of `Ray` that this header reads or writes. -/
structure Ray where
  org : Vec3fa
  dir : Vec3fa
  tnear : ℚ
  tfar : ℚ
  Ng : Vec3fa
  u : ℚ
  v : ℚ
  geomID : Int
  primID : Int
  deriving DecidableEq

/-- The primitive `Bezier1i`: the four control points `p[0] .. p[3]` and
the two identifiers. -/
structure Bezier1i where
  p : Fin 4 → Vec3fa
  geomID : Int
  primID : Int

/-- A three-lane vector `Vec3f`. -/
structure Vec3f where
  x : ℚ
  y : ℚ
  z : ℚ
  deriving DecidableEq

/-- The matrix type `LinearSpace3f`, given by its three columns. -/
structure LinearSpace3f where
  vx : Vec3f
  vy : Vec3f
  vz : Vec3f

/-- Modelled from the spec: `xfmVector` is declared outside this header; it
applies the linear map, `a.x*vx + a.y*vy + a.z*vz`. -/
def xfmVector (s : LinearSpace3f) (a : Vec3fa) : Vec3f :=
  ⟨a.x * s.vx.x + a.y * s.vy.x + a.z * s.vz.x,
   a.x * s.vx.y + a.y * s.vy.y + a.z * s.vz.y,
   a.x * s.vx.z + a.y * s.vy.z + a.z * s.vz.z⟩

/-- The struct `Precalculations`: the ray-space matrix. The constructor
computes it as `rcp(frame(ray.dir))`; the intersector receives it as an
argument, so it is an input here. -/
structure Precalculations where
  ray_space : LinearSpace3f

/-- The statements `Vec3fa w = xfmVector(ray_space, v - ray.org); w.w = v.w`:
a control point moved into ray space, its radius copied. -/
def toRaySpace (ray_space : LinearSpace3f) (ray : Ray) (v : Vec3fa) : Vec3fa :=
  let r := xfmVector ray_space (v.sub ray.org)
  ⟨r.x, r.y, r.z, v.w⟩

/-- Function `intersect_box` (the branch that is compiled): the point `(0,0)` lies in
the `x,y` extent of the box. The ray argument is not read. -/
def intersect_box (box : BBox3fa) (_ray : Ray) : Bool :=
  decide (max box.lower.x box.lower.y ≤ 0) && decide (0 ≤ min box.upper.x box.upper.y)

/-! ## The batched intersector (the variant that is compiled) -/

/-- The ray-space curve `curve2D` built at the start of `intersect` and of
`occluded`: the four control points moved into ray space, interval `[0,1]`,
depth `4`. -/
def curve2D (pre : Precalculations) (ray : Ray) (curve_in : Bezier1i) : BezierCurve3D :=
  let v0 := curve_in.p 0
  let v1 := curve_in.p 1
  let v2 := curve_in.p 2
  let v3 := curve_in.p 3
  let w0 := toRaySpace pre.ray_space ray v0
  let w1 := toRaySpace pre.ray_space ray v1
  let w2 := toRaySpace pre.ray_space ray v2
  let w3 := toRaySpace pre.ray_space ray v3
  ⟨w0, w1, w2, w3, 0, 1, 4⟩

/-- The wide value `p0 = curve2D.eval(coeff0[0], .., coeff0[3])`. -/
def lanes_p0 (c : BezierCurve3D) : avx4f :=
  c.eval_avx (coeff0 0) (coeff0 1) (coeff0 2) (coeff0 3)

/-- The wide value `p1 = curve2D.eval(coeff1[0], .., coeff1[3])`. -/
def lanes_p1 (c : BezierCurve3D) : avx4f :=
  c.eval_avx (coeff1 0) (coeff1 1) (coeff1 2) (coeff1 3)

/-- The wide values of the block "approximative intersection with cone". -/
structure Cone where
  u : avxf
  p : avx4f
  t : avxf
  d2 : avxf
  r : avxf
  valid : avxb

/-- The cone block of `intersect`, with radius `max(p.w, ray.org.w + ray.dir.w*t)`. -/
def coneIntersect (ray : Ray) (p0 p1 : avx4f) : Cone :=
  let v := p1.sub p0
  let w := p0.neg
  let d0 : avxf := fun i => w.x i * v.x i + w.y i * v.y i
  let d1 : avxf := fun i => v.x i * v.x i + v.y i * v.y i
  let u : avxf := fun i => clampQuot (d0 i) (d1 i)
  let p := p0.add (avx4f.lscale u v)
  let t : avxf := p.z
  let d2 : avxf := fun i => p.x i * p.x i + p.y i * p.y i
  let r : avxf := fun i => max (p.w i) (ray.org.w + ray.dir.w * t i)
  let r2 : avxf := fun i => r i * r i
  let valid : avxb := fun i =>
    decide (d2 i ≤ r2 i) && decide (ray.tnear < t i) && decide (t i < ray.tfar)
  ⟨u, p, t, d2, r, valid⟩

/-- The cone block of `occluded`, with radius `p.w + ray.org.w + ray.dir.w*t`. -/
def coneOccluded (ray : Ray) (p0 p1 : avx4f) : Cone :=
  let v := p1.sub p0
  let w := p0.neg
  let d0 : avxf := fun i => w.x i * v.x i + w.y i * v.y i
  let d1 : avxf := fun i => v.x i * v.x i + v.y i * v.y i
  let u : avxf := fun i => clampQuot (d0 i) (d1 i)
  let p := p0.add (avx4f.lscale u v)
  let t : avxf := p.z
  let d2 : avxf := fun i => p.x i * p.x i + p.y i * p.y i
  let r : avxf := fun i => p.w i + ray.org.w + ray.dir.w * t i
  let r2 : avxf := fun i => r i * r i
  let valid : avxb := fun i =>
    decide (d2 i ≤ r2 i) && decide (ray.tnear < t i) && decide (t i < ray.tfar)
  ⟨u, p, t, d2, r, valid⟩

/-- The hit parameter `uu = (float(i) + u[i]) * one_over_8` of lane `i`. -/
def hitParam (u : avxf) (i : Fin 8) : ℚ := ((i.val : ℚ) + u i) * (1 / 8)

/-- The tangent `T` of `curve3D(v0,v1,v2,v3,0,1,0).eval(uu,P,T)`: the
untransformed curve of the primitive evaluated at `uu`. -/
def tangentAt (curve_in : Bezier1i) (uu : ℚ) : Vec3fa :=
  let curve3D : BezierCurve3D :=
    ⟨curve_in.p 0, curve_in.p 1, curve_in.p 2, curve_in.p 3, 0, 1, 0⟩
  (curve3D.eval uu).2

/-- The block "update hit information" of the batched `intersect`. -/
def commitHit (ray : Ray) (uu t : ℚ) (T : Vec3fa) (curve_in : Bezier1i) : Ray :=
  { ray with u := uu, v := 0, tfar := t, Ng := T,
             geomID := curve_in.geomID, primID := curve_in.primID }

/-- The loop formed by the label `retry` when the geometry has no
intersection filter. Every pass either returns or clears one lane; `fuel`
bounds the number of passes and the result is `none` when it runs out. -/
def retryLoop (curve_in : Bezier1i) (u t : avxf) (ray : Ray) : ℕ → avxb → Option Ray
  | fuel, valid =>
    if avxb_none valid then some ray
    else match fuel with
      | 0 => none
      | fuel + 1 =>
        let i := select_min valid t
        let uu := hitParam u i
        let T := tangentAt curve_in uu
        if T.eq3 Vec3fa.zero then retryLoop curve_in u t ray fuel (clearLane valid i)
        else some (commitHit ray uu (t i) T curve_in)

/-- A filter callback: called with the ray and the candidate
`(u, v, t, Ng, geomID, primID)`, it answers accept (`true`) or reject. -/
abbrev Filter := Ray → ℚ → ℚ → ℚ → Vec3fa → Int → Int → Bool

/-- Modelled from the spec: `runIntersectionFilter1` is declared outside this
header; when the filter accepts the candidate the hit is committed to the ray,
when it rejects the ray keeps its value. The result is the ray and the answer. -/
def runIntersectionFilter1 (f : Filter) (ray : Ray) (uu t : ℚ) (T : Vec3fa)
    (curve_in : Bezier1i) : Ray × Bool :=
  if f ray uu 0 t T curve_in.geomID curve_in.primID then
    (commitHit ray uu t T curve_in, true)
  else (ray, false)

/-- The `while (true)` loop of `intersect` taken when the geometry has an
intersection filter; `i` is the lane selected before the pass. -/
def filterLoop (f : Filter) (curve_in : Bezier1i) (u t : avxf) (ray : Ray) :
    ℕ → Fin 8 → avxb → Option Ray
  | 0, _, _ => none
  | fuel + 1, i, valid =>
    let uu := hitParam u i
    let T := tangentAt curve_in uu
    let res := runIntersectionFilter1 f ray uu (t i) T curve_in
    if res.2 then some res.1
    else
      let valid1 := clearLane valid i
      if avxb_none valid1 then some ray
      else filterLoop f curve_in u t ray fuel (select_min valid1 t) valid1

/-- Function `Bezier1iIntersector1::intersect` for one curve. `filter` is `none` when
the geometry has no intersection filter (or filters are compiled out). The
result is the ray after the call; `none` would mean the loop bound of 8 passes
was not enough. -/
def intersect (pre : Precalculations) (ray : Ray) (curve_in : Bezier1i)
    (filter : Option Filter) : Option Ray :=
  let c := curve2D pre ray curve_in
  let cone := coneIntersect ray (lanes_p0 c) (lanes_p1 c)
  match filter with
  | none => retryLoop curve_in cone.u cone.t ray 8 cone.valid
  | some f =>
    if avxb_none cone.valid then some ray
    else filterLoop f curve_in cone.u cone.t ray 8 (select_min cone.valid cone.t) cone.valid

/-- Function `Bezier1iIntersector1::intersect` for an array of curves: the curves are
intersected one after the other, each with the ray left by the previous one. -/
def intersectN (pre : Precalculations) (filter : Option Filter) :
    Ray → List Bezier1i → Option Ray
  | ray, [] => some ray
  | ray, c :: cs =>
    match intersect pre ray c filter with
    | none => none
    | some ray1 => intersectN pre filter ray1 cs

/-- The `while (true)` loop of `occluded` taken when the geometry has an
occlusion filter. The filter answer alone is modelled (`runOcclusionFilter1`
is declared outside this header). -/
def occludedLoop (f : Filter) (curve_in : Bezier1i) (u t : avxf) (ray : Ray) :
    ℕ → Fin 8 → avxb → Option Bool
  | 0, _, _ => none
  | fuel + 1, i, valid =>
    let uu := hitParam u i
    let T := tangentAt curve_in uu
    if f ray uu 0 (t i) T curve_in.geomID curve_in.primID then some true
    else
      let valid1 := clearLane valid i
      if avxb_none valid1 then some false
      else occludedLoop f curve_in u t ray fuel (select_min valid1 t) valid1

/-- Function `Bezier1iIntersector1::occluded` for one curve. `filter` is `none` when
the geometry has no occlusion filter (or filters are compiled out). -/
def occluded (pre : Precalculations) (ray : Ray) (curve_in : Bezier1i)
    (filter : Option Filter) : Option Bool :=
  let c := curve2D pre ray curve_in
  let cone := coneOccluded ray (lanes_p0 c) (lanes_p1 c)
  if avxb_none cone.valid then some false
  else match filter with
    | none => some true
    | some f =>
      occludedLoop f curve_in cone.u cone.t ray 8 (select_min cone.valid cone.t) cone.valid

/-- Function `Bezier1iIntersector1::occluded` for an array of curves: the first curve
that occludes ends the scan. -/
def occludedN (pre : Precalculations) (ray : Ray) (filter : Option Filter) :
    List Bezier1i → Option Bool
  | [] => some false
  | c :: cs =>
    match occluded pre ray c filter with
    | none => none
    | some true => some true
    | some false => occludedN pre ray filter cs

/-! ## The recursive intersector (the variant behind `#else`) -/

/-- The ways a run of the stack traversal can fail to produce a result. -/
inductive Fault where
  | outOfFuel
  | stackOverflow
  deriving DecidableEq

/-- The three locals `ray_u`, `ray_tfar`, `hit` of the recursive `intersect`. -/
structure HitState where
  ray_u : ℚ
  ray_tfar : ℚ
  hit : Bool
  deriving DecidableEq

/-- The inner loop `while (curve.depth)`: the result is the segment that
left the loop with depth `0` (or `none` after `goto pop`) and the stack.
A push onto a stack that already holds 32 entries is a fault. -/
def descend (ray : Ray) :
    ℕ → BezierCurve3D → List BezierCurve3D →
      Except Fault (Option BezierCurve3D × List BezierCurve3D)
  | fuel, curve, stack =>
    if curve.depth = 0 then Except.ok (some curve, stack)
    else match fuel with
      | 0 => Except.error Fault.outOfFuel
      | fuel + 1 =>
        let curve0 := curve.subdivide.1
        let curve1 := curve.subdivide.2
        let hit0 := intersect_box curve0.bounds ray
        let hit1 := intersect_box curve1.bounds ray
        if !hit0 && !hit1 then Except.ok (none, stack)
        else if hit0 != hit1 then
          if hit0 then descend ray fuel curve0 stack
          else descend ray fuel curve1 stack
        else if 32 ≤ stack.length then Except.error Fault.stackOverflow
        else descend ray fuel curve0 (curve1 :: stack)

/-- The block "approximative intersection with cone" of the recursive
`intersect`, applied to a segment of depth `0`: the new values of the locals. -/
def leafTest (ray : Ray) (curve : BezierCurve3D) (st : HitState) : HitState :=
  let v := curve.v3.sub curve.v0
  let w := curve.v0.neg
  let d0 := w.x * v.x + w.y * v.y
  let d1 := v.x * v.x + v.y * v.y
  let u := clampQuot d0 d1
  let p := curve.v0.add (Vec3fa.lscale u v)
  let d2 := p.x * p.x + p.y * p.y
  let r2 := p.w * p.w
  if d2 > r2 then st
  else
    let t := p.z
    if t < ray.tnear ∨ t > st.ray_tfar then st
    else ⟨curve.t0 + u * (curve.t1 - curve.t0), t, true⟩

/-- The outer loop `while (true)` with the label `pop`: the head of the list
is the top of the stack. `fuel` bounds the number of pops and `inner` the
passes of each inner loop. -/
def traverse (ray : Ray) (inner : ℕ) :
    ℕ → List BezierCurve3D → HitState → Except Fault HitState
  | _, [], st => Except.ok st
  | 0, _ :: _, _ => Except.error Fault.outOfFuel
  | fuel + 1, curve :: stack, st =>
    match descend ray inner curve stack with
    | Except.error e => Except.error e
    | Except.ok (none, stack1) => traverse ray inner fuel stack1 st
    | Except.ok (some leaf, stack1) => traverse ray inner fuel stack1 (leafTest ray leaf st)

/-- The recursive `Bezier1iIntersector1::intersect` for one curve.
`ray_space` stands for `rcp(frame(ray.dir))`, which is declared outside this
header. The final block evaluates the tangent at `ray.u` before `ray.u` is
assigned, as the source does. -/
def intersect_recursive (ray_space : LinearSpace3f) (ray : Ray) (curve_in : Bezier1i) :
    Except Fault Ray :=
  let v0 := curve_in.p 0
  let v1 := curve_in.p 1
  let v2 := curve_in.p 2
  let v3 := curve_in.p 3
  let w0 := toRaySpace ray_space ray v0
  let w1 := toRaySpace ray_space ray v1
  let w2 := toRaySpace ray_space ray v2
  let w3 := toRaySpace ray_space ray v3
  match traverse ray 32 32 [⟨w0, w1, w2, w3, 0, 1, 4⟩] ⟨0, ray.tfar, false⟩ with
  | Except.error e => Except.error e
  | Except.ok st =>
    if st.hit then
      let curve : BezierCurve3D := ⟨v0, v1, v2, v3, 0, 1, 0⟩
      let T := (curve.eval ray.u).2
      Except.ok { ray with u := st.ray_u, v := 1, tfar := st.ray_tfar, Ng := T,
                           geomID := curve_in.geomID, primID := curve_in.primID }
    else Except.ok ray

/-! ## Reference notions used by the statements -/

/-- The segments obtained by applying `subdivide` recursively `n` times,
taken left to right. -/
def leaves : ℕ → BezierCurve3D → List BezierCurve3D
  | 0, c => [c]
  | n + 1, c => leaves n c.subdivide.1 ++ leaves n c.subdivide.2

/-- The largest of the four control-point radii of a segment, the amount
by which `bounds` enlarges the merged box. -/
def maxRadius (c : BezierCurve3D) : ℚ := max (max c.v0.w c.v1.w) (max c.v2.w c.v3.w)

/-- The position `x, y, z` of `p` lies in the box `b`. -/
def inside (p : Vec3fa) (b : BBox3fa) : Prop :=
  (b.lower.x ≤ p.x ∧ p.x ≤ b.upper.x) ∧ (b.lower.y ≤ p.y ∧ p.y ≤ b.upper.y) ∧
    (b.lower.z ≤ p.z ∧ p.z ≤ b.upper.z)

instance (p : Vec3fa) (b : BBox3fa) : Decidable (inside p b) := by
  unfold inside; infer_instance

/-- Sample segment for C4: radii `-10, -10, -10, 1` along a straight line. -/
def sampleTaper : BezierCurve3D :=
  ⟨⟨0, 0, 0, -10⟩, ⟨1, 0, 0, -10⟩, ⟨2, 0, 0, -10⟩, ⟨3, 0, 0, 1⟩, 0, 1, 4⟩

/-- Sample segment with radius `1` at every control point. -/
def sampleTube : BezierCurve3D :=
  ⟨⟨0, 0, 0, 1⟩, ⟨1, 2, 0, 1⟩, ⟨2, -1, 3, 1⟩, ⟨3, 0, 1, 1⟩, 0, 1, 4⟩

/-- Number of set lanes. -/
def laneCount (valid : avxb) : ℕ := (Finset.univ.filter (fun i : Fin 8 => valid i = true)).card

/-- Lane `i` is set in `valid` and the tangent of the untransformed curve at
the hit parameter of the lane is not the zero vector. -/
def goodLane (curve_in : Bezier1i) (u : avxf) (valid : avxb) (i : Fin 8) : Prop :=
  valid i = true ∧ (tangentAt curve_in (hitParam u i)).eq3 Vec3fa.zero = false

/-- The cone values computed by the batched `intersect` for a ray and a curve. -/
def intersectCone (pre : Precalculations) (ray : Ray) (curve_in : Bezier1i) : Cone :=
  coneIntersect ray (lanes_p0 (curve2D pre ray curve_in)) (lanes_p1 (curve2D pre ray curve_in))

/-- The identity matrix as ray space: the ray direction is the `z` axis. -/
def identitySpace : LinearSpace3f := ⟨⟨1, 0, 0⟩, ⟨0, 1, 0⟩, ⟨0, 0, 1⟩⟩

/-- Sample ray from the origin along `z`, interval `(0, 100)`, no footprint. -/
def sampleRay : Ray :=
  ⟨⟨0, 0, 0, 0⟩, ⟨0, 0, 1, 0⟩, 0, 100, ⟨0, 0, 0, 0⟩, 0, 0, -1, -1⟩

/-- Sample primitive: four control points at `(0, 0, 5)` with radius `1`. -/
def samplePointCurve : Bezier1i := ⟨fun _ => ⟨0, 0, 5, 1⟩, 7, 3⟩

/-- Sample primitive: a straight curve along `x` at depth `5`, radius `1`,
crossing the `z` axis. -/
def straightCurve : Bezier1i :=
  ⟨fun k => match k with
    | 0 => ⟨-3, 0, 5, 1⟩
    | 1 => ⟨-1, 0, 5, 1⟩
    | 2 => ⟨1, 0, 5, 1⟩
    | 3 => ⟨3, 0, 5, 1⟩, 7, 3⟩

/-- Sample ray with a footprint: base radius `10` in `org.w`. -/
def wideRay : Ray :=
  ⟨⟨0, 0, 0, 10⟩, ⟨0, 0, 1, 0⟩, 0, 100, ⟨0, 0, 0, 0⟩, 0, 0, -1, -1⟩

/-- Sample primitive: a straight curve from `(5, 0, 5)` to `(8, 0, 8)`,
radius `1`, away from the `z` axis. -/
def farCurve : Bezier1i :=
  ⟨fun k => match k with
    | 0 => ⟨5, 0, 5, 1⟩
    | 1 => ⟨6, 0, 6, 1⟩
    | 2 => ⟨7, 0, 7, 1⟩
    | 3 => ⟨8, 0, 8, 1⟩, 7, 3⟩

/-- The cone values computed by the batched `occluded` for a ray and a curve. -/
def occludedCone (pre : Precalculations) (ray : Ray) (curve_in : Bezier1i) : Cone :=
  coneOccluded ray (lanes_p0 (curve2D pre ray curve_in)) (lanes_p1 (curve2D pre ray curve_in))

/-- Sample primitive: a straight curve from `(-3, 0, 4)` to `(3, 0, 7)`,
radius `1`, crossing the `z` axis at depth `11/2`. -/
def slopeCurve : Bezier1i :=
  ⟨fun k => match k with
    | 0 => ⟨-3, 0, 4, 1⟩
    | 1 => ⟨-1, 0, 5, 1⟩
    | 2 => ⟨1, 0, 6, 1⟩
    | 3 => ⟨3, 0, 7, 1⟩, 7, 3⟩

/-- Sample filter that accepts every candidate. -/
def acceptAll : Filter := fun _ _ _ _ _ _ _ => true

/-- The number `x` is the depth of a lane of some curve of the list that is
valid against `ray` and has a non-zero tangent. -/
def candidateDepth (pre : Precalculations) (ray : Ray) (cs : List Bezier1i) (x : ℚ) : Prop :=
  ∃ c ∈ cs, ∃ i, goodLane c (intersectCone pre ray c).u (intersectCone pre ray c).valid i ∧
    x = (intersectCone pre ray c).t i

/-- The answer of the filter `f` to the candidate of lane `i`, as the filter
loops of `intersect` and `occluded` call it. -/
def acceptLane (f : Filter) (ray : Ray) (curve_in : Bezier1i) (u t : avxf) (i : Fin 8) : Bool :=
  f ray (hitParam u i) 0 (t i) (tangentAt curve_in (hitParam u i))
    curve_in.geomID curve_in.primID

/-- The filter loops of `intersect` and `occluded` with their result replaced
by a log: the lane the filter accepted (if any) and the lanes offered to the
filter, in the order of the calls. The control flow is that of the two
loops: offer lane `i`; stop if accepted; otherwise clear the lane, stop if no
lane is left, else select the next lane. -/
def offerLoop (accept : Fin 8 → Bool) (t : avxf) :
    ℕ → Fin 8 → avxb → Option (Option (Fin 8) × List (Fin 8))
  | 0, _, _ => none
  | fuel + 1, i, valid =>
    if accept i then some (some i, [i])
    else
      let valid1 := clearLane valid i
      if avxb_none valid1 then some (none, [i])
      else
        match offerLoop accept t fuel (select_min valid1 t) valid1 with
        | none => none
        | some r => some (r.1, i :: r.2)

/-- The log of a whole filtered call: nothing is offered when no lane is
valid, otherwise the loop starts with the lane of least depth. -/
def offered (accept : Fin 8 → Bool) (t : avxf) (valid : avxb) :
    Option (Option (Fin 8) × List (Fin 8)) :=
  if avxb_none valid then some (none, [])
  else offerLoop accept t 8 (select_min valid t) valid

/-- What the log of a filtered call must satisfy: the offered lanes are
valid, pairwise different and in non-decreasing depth order; when a lane was
accepted it is the last one offered and all lanes before were rejected; when
none was accepted every valid lane was offered and rejected. -/
def OfferOrder (accept : Fin 8 → Bool) (t : avxf) (valid : avxb)
    (acc : Option (Fin 8)) (tr : List (Fin 8)) : Prop :=
  tr.Nodup ∧ (∀ j ∈ tr, valid j = true) ∧ tr.Pairwise (fun a b => t a ≤ t b) ∧
  tr.length ≤ 8 ∧
  (∀ j, acc = some j →
    ∃ before, tr = before ++ [j] ∧ (∀ k ∈ before, accept k = false) ∧ accept j = true) ∧
  (acc = none → (∀ k ∈ tr, accept k = false) ∧ ∀ k, valid k = true → k ∈ tr)

/-- Equality of results of fallible runs is decidable. -/
instance exceptDecEq {ε α : Type} [DecidableEq ε] [DecidableEq α] : DecidableEq (Except ε α)
  | Except.ok a, Except.ok b =>
    if h : a = b then isTrue (by rw [h]) else isFalse (fun h1 => h (Except.ok.inj h1))
  | Except.error a, Except.error b =>
    if h : a = b then isTrue (by rw [h]) else isFalse (fun h1 => h (Except.error.inj h1))
  | Except.ok _, Except.error _ => isFalse (fun h => Except.noConfusion h)
  | Except.error _, Except.ok _ => isFalse (fun h => Except.noConfusion h)

/-- The local parameter `u` of the leaf block of the recursive `intersect`. -/
def leafU (curve : BezierCurve3D) : ℚ :=
  let v := curve.v3.sub curve.v0
  let w := curve.v0.neg
  clampQuot (w.x * v.x + w.y * v.y) (v.x * v.x + v.y * v.y)

/-- The closest point `p = curve.v0 + u*v` of the leaf block of the
recursive `intersect`. -/
def leafPoint (curve : BezierCurve3D) : Vec3fa :=
  curve.v0.add (Vec3fa.lscale (leafU curve) (curve.v3.sub curve.v0))

/-- The squared distance `d2` of the leaf block. -/
def leafD2 (curve : BezierCurve3D) : ℚ :=
  (leafPoint curve).x * (leafPoint curve).x + (leafPoint curve).y * (leafPoint curve).y

/-- The squared radius `r2 = p.w*p.w` of the leaf block. -/
def leafR2 (curve : BezierCurve3D) : ℚ := (leafPoint curve).w * (leafPoint curve).w

/-- The final block "compute final hit data" of the recursive `intersect`,
applied to the locals left by the traversal. -/
def commitRecursive (ray : Ray) (curve_in : Bezier1i) (st : HitState) : Ray :=
  if st.hit then
    { ray with u := st.ray_u, v := 1, tfar := st.ray_tfar, Ng := tangentAt curve_in ray.u,
               geomID := curve_in.geomID, primID := curve_in.primID }
  else ray

/-- Sample primitive: a curve from `(-4, 0, 4)` to `(4, 0, 7)` whose tangent
varies along the curve, radius `1`. -/
def bendCurve : Bezier1i :=
  ⟨fun k => match k with
    | 0 => ⟨-4, 0, 4, 1⟩
    | 1 => ⟨0, 0, 5, 1⟩
    | 2 => ⟨0, 0, 6, 1⟩
    | 3 => ⟨4, 0, 7, 1⟩, 7, 3⟩

/-- Sample ray from the origin along `z` whose interval ends at depth `5`. -/
def shortRay : Ray :=
  ⟨⟨0, 0, 0, 0⟩, ⟨0, 0, 1, 0⟩, 0, 5, ⟨0, 0, 0, 0⟩, 0, 0, -1, -1⟩

/-- Sample leaf segment: the chord from `(-1, 0, 5)` to `(1, 0, 5)`, radius
`1`, depth `0`. -/
def sampleLeaf : BezierCurve3D :=
  ⟨⟨-1, 0, 5, 1⟩, ⟨-1/3, 0, 5, 1⟩, ⟨1/3, 0, 5, 1⟩, ⟨1, 0, 5, 1⟩, 0, 1, 0⟩

/-- The inner loop `while (curve.depth)` with a log added to its result: the
stack index written by each push (`sptr` before the increment), in order. The
control flow is that of `descend`. -/
def descendLog (ray : Ray) :
    ℕ → BezierCurve3D → List BezierCurve3D →
      Except Fault (Option BezierCurve3D × List BezierCurve3D × List ℕ)
  | fuel, curve, stack =>
    if curve.depth = 0 then Except.ok (some curve, stack, [])
    else match fuel with
      | 0 => Except.error Fault.outOfFuel
      | fuel + 1 =>
        let curve0 := curve.subdivide.1
        let curve1 := curve.subdivide.2
        let hit0 := intersect_box curve0.bounds ray
        let hit1 := intersect_box curve1.bounds ray
        if !hit0 && !hit1 then Except.ok (none, stack, [])
        else if hit0 != hit1 then
          if hit0 then descendLog ray fuel curve0 stack
          else descendLog ray fuel curve1 stack
        else if 32 ≤ stack.length then Except.error Fault.stackOverflow
        else
          match descendLog ray fuel curve0 (curve1 :: stack) with
          | Except.error e => Except.error e
          | Except.ok r => Except.ok (r.1, r.2.1, stack.length :: r.2.2)

/-- The outer loop with a log added to its result: the segments given to the
leaf block, in order, and the stack indices written by the pushes. The control
flow is that of `traverse`. -/
def traverseLog (ray : Ray) (inner : ℕ) :
    ℕ → List BezierCurve3D → HitState →
      Except Fault (HitState × List BezierCurve3D × List ℕ)
  | _, [], st => Except.ok (st, [], [])
  | 0, _ :: _, _ => Except.error Fault.outOfFuel
  | fuel + 1, curve :: stack, st =>
    match descendLog ray inner curve stack with
    | Except.error e => Except.error e
    | Except.ok (none, stack1, ps) =>
      match traverseLog ray inner fuel stack1 st with
      | Except.error e => Except.error e
      | Except.ok r => Except.ok (r.1, r.2.1, ps ++ r.2.2)
    | Except.ok (some leaf, stack1, ps) =>
      match traverseLog ray inner fuel stack1 (leafTest ray leaf st) with
      | Except.error e => Except.error e
      | Except.ok r => Except.ok (r.1, leaf :: r.2.1, ps ++ r.2.2)

/-- All four control-point radii of a segment are non-negative. -/
def nonnegRadii (c : BezierCurve3D) : Prop :=
  0 ≤ c.v0.w ∧ 0 ≤ c.v1.w ∧ 0 ≤ c.v2.w ∧ 0 ≤ c.v3.w

/-- The number of depth-0 segments below the segments of a stack: `2^depth`
for each entry. -/
def stackWeight (stack : List BezierCurve3D) : ℕ :=
  (stack.map (fun q => 2 ^ q.depth.toNat)).sum

/-- The leaf block applied, left to right, to all depth-0 descendants of the
segments of a stack, the top of the stack first. -/
def stackFold (ray : Ray) (st : HitState) (stack : List BezierCurve3D) : HitState :=
  stack.foldl (fun s q => (leaves q.depth.toNat q).foldl (fun s1 l => leafTest ray l s1) s) st

/-- The leaf block applied to the segment that left the inner loop, if any. -/
def optLeafTest (ray : Ray) (leaf : Option BezierCurve3D) (st : HitState) : HitState :=
  match leaf with
  | some l => leafTest ray l st
  | none => st

/-- The recursive `intersect` without pruning: the leaf block is applied to
all 16 depth-0 segments of the ray-space curve, left to right, and the final
block commits the result. -/
def intersect_unpruned (ray_space : LinearSpace3f) (ray : Ray) (curve_in : Bezier1i) : Ray :=
  commitRecursive ray curve_in
    ((leaves 4 (curve2D ⟨ray_space⟩ ray curve_in)).foldl (fun s l => leafTest ray l s)
      ⟨0, ray.tfar, false⟩)

/-- The point `A + lam * D` of the straight line through `A` with direction
`D`, carrying the radius `r` in its fourth lane. -/
def axisPoint (A D : Vec3fa) (r lam : ℚ) : Vec3fa :=
  ⟨A.x + lam * D.x, A.y + lam * D.y, A.z + lam * D.z, r⟩

/-- The point `org + s * dir` of a ray. -/
def rayPoint (ray : Ray) (s : ℚ) : Vec3fa := ray.org.add (Vec3fa.lscale s ray.dir)

/-- The point `q` lies in the tube of radius `r` around the straight line
through `a` with direction `d`: its squared distance from the line is at most
`r^2` (the inequality is multiplied by `|d|^2`). -/
def inTube (a d : Vec3fa) (r : ℚ) (q : Vec3fa) : Prop :=
  ((q.x - a.x) * (q.x - a.x) + (q.y - a.y) * (q.y - a.y) + (q.z - a.z) * (q.z - a.z)) *
      (d.x * d.x + d.y * d.y + d.z * d.z) -
    ((q.x - a.x) * d.x + (q.y - a.y) * d.y + (q.z - a.z) * d.z) *
      ((q.x - a.x) * d.x + (q.y - a.y) * d.y + (q.z - a.z) * d.z) ≤
  r * r * (d.x * d.x + d.y * d.y + d.z * d.z)

/-- The de Casteljau value at `t` of four numbers. -/
def bez1 (l : Fin 4 → ℚ) (t : ℚ) : ℚ :=
  ((l 0 * (1 - t) + l 1 * t) * (1 - t) + (l 1 * (1 - t) + l 2 * t) * t) * (1 - t)
    + ((l 1 * (1 - t) + l 2 * t) * (1 - t) + (l 2 * (1 - t) + l 3 * t) * t) * t

/-- The tangent coefficient at `t` of four numbers: a third of the
derivative of `bez1`. -/
def dbez (l : Fin 4 → ℚ) (t : ℚ) : ℚ :=
  (1 - t) ^ 2 * (l 1 - l 0) + 2 * (1 - t) * t * (l 2 - l 1) + t ^ 2 * (l 3 - l 2)

/-! ## Binary32 arithmetic

The source computes in `float`. The definitions of this section repeat the
arithmetic source lines with every operation rounded to binary32 (round to
nearest, ties to even, gradual underflow). Values beyond the largest finite
binary32 number are not modelled (they stay finite here); no input used below
comes near them. Comparisons, `min`, `max` and negation are exact in binary32
and are taken over unchanged; there is no fused multiply-add. -/

/-- The power `2^e` for an integer exponent. -/
def pow2 (e : Int) : ℚ := if 0 ≤ e then (2 : ℚ) ^ e.toNat else 1 / (2 : ℚ) ^ (-e).toNat

/-- The exponent `e` with `2^e <= a < 2^(e+1)` of a positive number, searched
from the start value in steps of one; `fuel` bounds the number of steps. -/
def floorLog2 (a : ℚ) : ℕ → Int → Int
  | 0, e => e
  | fuel + 1, e =>
    if a < pow2 e then floorLog2 a fuel (e - 1)
    else if pow2 (e + 1) ≤ a then floorLog2 a fuel (e + 1)
    else e

/-- The binary32 number nearest to `x`: the significand has 24 bits, the
spacing below `2^-126` is `2^-149`, and a tie goes to the even significand. -/
def fl (x : ℚ) : ℚ :=
  if x = 0 then 0
  else
    let a := |x|
    let e : Int := floorLog2 a 300 0
    let q : ℚ := pow2 (max e (-126) - 23)
    let m : ℚ := a / q
    let f : Int := ⌊m⌋
    let r : ℚ := m - f
    let k : Int :=
      if r < 1 / 2 then f
      else if 1 / 2 < r then f + 1
      else if f % 2 = 0 then f else f + 1
    if x < 0 then -((k : ℚ) * q) else (k : ℚ) * q

/-- Lane-wise `a + b` in binary32. -/
def Vec3fa.add32 (a b : Vec3fa) : Vec3fa :=
  ⟨fl (a.x + b.x), fl (a.y + b.y), fl (a.z + b.z), fl (a.w + b.w)⟩

/-- Lane-wise `a - b` in binary32. -/
def Vec3fa.sub32 (a b : Vec3fa) : Vec3fa :=
  ⟨fl (a.x - b.x), fl (a.y - b.y), fl (a.z - b.z), fl (a.w - b.w)⟩

/-- Scaling `a * s` in binary32. -/
def Vec3fa.scale32 (a : Vec3fa) (s : ℚ) : Vec3fa :=
  ⟨fl (a.x * s), fl (a.y * s), fl (a.z * s), fl (a.w * s)⟩

/-- Scaling `s * a` in binary32. -/
def Vec3fa.lscale32 (s : ℚ) (a : Vec3fa) : Vec3fa :=
  ⟨fl (s * a.x), fl (s * a.y), fl (s * a.z), fl (s * a.w)⟩

/-- Method `BezierCurve3D::subdivide` in binary32. -/
def BezierCurve3D.subdivide32 (c : BezierCurve3D) : BezierCurve3D × BezierCurve3D :=
  let p00 := c.v0
  let p01 := c.v1
  let p02 := c.v2
  let p03 := c.v3
  let p10 := (p00.add32 p01).scale32 (1/2)
  let p11 := (p01.add32 p02).scale32 (1/2)
  let p12 := (p02.add32 p03).scale32 (1/2)
  let p20 := (p10.add32 p11).scale32 (1/2)
  let p21 := (p11.add32 p12).scale32 (1/2)
  let p30 := (p20.add32 p21).scale32 (1/2)
  let t01 := fl (fl (c.t0 + c.t1) * (1/2))
  (⟨p00, p10, p20, p30, c.t0, t01, c.depth - 1⟩,
   ⟨p30, p21, p12, p03, t01, c.t1, c.depth - 1⟩)

/-- Method `BezierCurve3D::eval(t, point, tangent)` in binary32. -/
def BezierCurve3D.eval32 (c : BezierCurve3D) (t : ℚ) : Vec3fa × Vec3fa :=
  let t0 := fl (1 - t)
  let t1 := t
  let p00 := c.v0
  let p01 := c.v1
  let p02 := c.v2
  let p03 := c.v3
  let p10 := (p00.scale32 t0).add32 (p01.scale32 t1)
  let p11 := (p01.scale32 t0).add32 (p02.scale32 t1)
  let p12 := (p02.scale32 t0).add32 (p03.scale32 t1)
  let p20 := (p10.scale32 t0).add32 (p11.scale32 t1)
  let p21 := (p11.scale32 t0).add32 (p12.scale32 t1)
  let p30 := (p20.scale32 t0).add32 (p21.scale32 t1)
  (p30, p21.sub32 p20)

/-- Modelled from the spec: `enlarge` in binary32, the box grows by `v` on
both sides. -/
def BBox3fa.enlarge32 (b : BBox3fa) (v : Vec3fa) : BBox3fa := ⟨b.lower.sub32 v, b.upper.add32 v⟩

/-- Method `BezierCurve3D::bounds` in binary32 (the merge takes minima and maxima,
which do not round). -/
def BezierCurve3D.bounds32 (c : BezierCurve3D) : BBox3fa :=
  let b := BBox3fa.merge4 (BBox3fa.ofPoint c.v0) (BBox3fa.ofPoint c.v1)
    (BBox3fa.ofPoint c.v2) (BBox3fa.ofPoint c.v3)
  b.enlarge32 (Vec3fa.broadcast b.upper.w)

/-- Lane-wise `a + b` of wide vectors in binary32. -/
def avx4f.add32 (a b : avx4f) : avx4f :=
  ⟨fun i => fl (a.x i + b.x i), fun i => fl (a.y i + b.y i), fun i => fl (a.z i + b.z i),
   fun i => fl (a.w i + b.w i)⟩

/-- Lane-wise `a - b` of wide vectors in binary32. -/
def avx4f.sub32 (a b : avx4f) : avx4f :=
  ⟨fun i => fl (a.x i - b.x i), fun i => fl (a.y i - b.y i), fun i => fl (a.z i - b.z i),
   fun i => fl (a.w i - b.w i)⟩

/-- The product `s * a` of an `avxf` with an `avx4f` in binary32. -/
def avx4f.lscale32 (s : avxf) (a : avx4f) : avx4f :=
  ⟨fun i => fl (s i * a.x i), fun i => fl (s i * a.y i), fun i => fl (s i * a.z i),
   fun i => fl (s i * a.w i)⟩

/-- Method `BezierCurve3D::eval(c0, c1, c2, c3)` in binary32: four products and
three sums, from left to right. -/
def BezierCurve3D.eval_avx32 (c : BezierCurve3D) (c0 c1 c2 c3 : avxf) : avx4f :=
  let p00 := avx4f.broadcast c.v0
  let p01 := avx4f.broadcast c.v1
  let p02 := avx4f.broadcast c.v2
  let p03 := avx4f.broadcast c.v3
  (((avx4f.lscale32 c0 p00).add32 (avx4f.lscale32 c1 p01)).add32 (avx4f.lscale32 c2 p02)).add32
    (avx4f.lscale32 c3 p03)

/-- The wide value `p0` in binary32. The weights `B_k(i/8)` are multiples of
`1/512` in `[0, 1]` and so are binary32 numbers. -/
def lanes_p0_32 (c : BezierCurve3D) : avx4f :=
  c.eval_avx32 (coeff0 0) (coeff0 1) (coeff0 2) (coeff0 3)

/-- The wide value `p1` in binary32. -/
def lanes_p1_32 (c : BezierCurve3D) : avx4f :=
  c.eval_avx32 (coeff1 0) (coeff1 1) (coeff1 2) (coeff1 3)

/-- The segments obtained by applying `subdivide` recursively `n` times in
binary32, taken left to right. -/
def leaves32 : ℕ → BezierCurve3D → List BezierCurve3D
  | 0, c => [c]
  | n + 1, c => leaves32 n c.subdivide32.1 ++ leaves32 n c.subdivide32.2

/-- Modelled from the spec: `xfmVector` in binary32, `a.x*vx + a.y*vy + a.z*vz`
summed from left to right. -/
def xfmVector32 (s : LinearSpace3f) (a : Vec3fa) : Vec3f :=
  ⟨fl (fl (fl (a.x * s.vx.x) + fl (a.y * s.vy.x)) + fl (a.z * s.vz.x)),
   fl (fl (fl (a.x * s.vx.y) + fl (a.y * s.vy.y)) + fl (a.z * s.vz.y)),
   fl (fl (fl (a.x * s.vx.z) + fl (a.y * s.vy.z)) + fl (a.z * s.vz.z))⟩

/-- The statements `Vec3fa w = xfmVector(ray_space, v - ray.org); w.w = v.w`
in binary32. -/
def toRaySpace32 (ray_space : LinearSpace3f) (ray : Ray) (v : Vec3fa) : Vec3fa :=
  let r := xfmVector32 ray_space (v.sub32 ray.org)
  ⟨r.x, r.y, r.z, v.w⟩

/-- The ray-space curve `curve2D` in binary32. -/
def curve2D32 (pre : Precalculations) (ray : Ray) (curve_in : Bezier1i) : BezierCurve3D :=
  let v0 := curve_in.p 0
  let v1 := curve_in.p 1
  let v2 := curve_in.p 2
  let v3 := curve_in.p 3
  let w0 := toRaySpace32 pre.ray_space ray v0
  let w1 := toRaySpace32 pre.ray_space ray v1
  let w2 := toRaySpace32 pre.ray_space ray v2
  let w3 := toRaySpace32 pre.ray_space ray v3
  ⟨w0, w1, w2, w3, 0, 1, 4⟩

/-- The expression `clamp(d0/d1, 0, 1)` in binary32. With a zero denominator
the quotient is NaN for `d0 = 0` and infinite otherwise (`d1` can be zero with
`d0` non-zero when both squares underflow); `max(lower, min(x, upper))` is then
`1` for NaN and for `+inf`, and `0` for `-inf`. -/
def clampQuot32 (d0 d1 : ℚ) : ℚ :=
  if d1 = 0 then (if d0 < 0 then 0 else 1) else clamp (fl (d0 / d1)) 0 1

/-- The cone block of `intersect` in binary32. -/
def coneIntersect32 (ray : Ray) (p0 p1 : avx4f) : Cone :=
  let v := p1.sub32 p0
  let w := p0.neg
  let d0 : avxf := fun i => fl (fl (w.x i * v.x i) + fl (w.y i * v.y i))
  let d1 : avxf := fun i => fl (fl (v.x i * v.x i) + fl (v.y i * v.y i))
  let u : avxf := fun i => clampQuot32 (d0 i) (d1 i)
  let p := p0.add32 (avx4f.lscale32 u v)
  let t : avxf := p.z
  let d2 : avxf := fun i => fl (fl (p.x i * p.x i) + fl (p.y i * p.y i))
  let r : avxf := fun i => max (p.w i) (fl (ray.org.w + fl (ray.dir.w * t i)))
  let r2 : avxf := fun i => fl (r i * r i)
  let valid : avxb := fun i =>
    decide (d2 i ≤ r2 i) && decide (ray.tnear < t i) && decide (t i < ray.tfar)
  ⟨u, p, t, d2, r, valid⟩

/-- The hit parameter `uu = (float(i) + u[i]) * one_over_8` in binary32. -/
def hitParam32 (u : avxf) (i : Fin 8) : ℚ := fl (fl ((i.val : ℚ) + u i) * (1 / 8))

/-- The tangent `T` of `curve3D(v0,v1,v2,v3,0,1,0).eval(uu,P,T)` in binary32. -/
def tangentAt32 (curve_in : Bezier1i) (uu : ℚ) : Vec3fa :=
  let curve3D : BezierCurve3D :=
    ⟨curve_in.p 0, curve_in.p 1, curve_in.p 2, curve_in.p 3, 0, 1, 0⟩
  (curve3D.eval32 uu).2

/-- The loop formed by the label `retry`, in binary32. -/
def retryLoop32 (curve_in : Bezier1i) (u t : avxf) (ray : Ray) : ℕ → avxb → Option Ray
  | fuel, valid =>
    if avxb_none valid then some ray
    else match fuel with
      | 0 => none
      | fuel + 1 =>
        let i := select_min valid t
        let uu := hitParam32 u i
        let T := tangentAt32 curve_in uu
        if T.eq3 Vec3fa.zero then retryLoop32 curve_in u t ray fuel (clearLane valid i)
        else some (commitHit ray uu (t i) T curve_in)

/-- The batched `Bezier1iIntersector1::intersect` for one curve of a geometry
without intersection filter, in binary32. -/
def intersect32 (pre : Precalculations) (ray : Ray) (curve_in : Bezier1i) : Option Ray :=
  let c := curve2D32 pre ray curve_in
  let cone := coneIntersect32 ray (lanes_p0_32 c) (lanes_p1_32 c)
  retryLoop32 curve_in cone.u cone.t ray 8 cone.valid

/-- The inner loop `while (curve.depth)` in binary32. -/
def descend32 (ray : Ray) :
    ℕ → BezierCurve3D → List BezierCurve3D →
      Except Fault (Option BezierCurve3D × List BezierCurve3D)
  | fuel, curve, stack =>
    if curve.depth = 0 then Except.ok (some curve, stack)
    else match fuel with
      | 0 => Except.error Fault.outOfFuel
      | fuel + 1 =>
        let curve0 := curve.subdivide32.1
        let curve1 := curve.subdivide32.2
        let hit0 := intersect_box curve0.bounds32 ray
        let hit1 := intersect_box curve1.bounds32 ray
        if !hit0 && !hit1 then Except.ok (none, stack)
        else if hit0 != hit1 then
          if hit0 then descend32 ray fuel curve0 stack
          else descend32 ray fuel curve1 stack
        else if 32 ≤ stack.length then Except.error Fault.stackOverflow
        else descend32 ray fuel curve0 (curve1 :: stack)

/-- The leaf block of the recursive `intersect` in binary32. -/
def leafTest32 (ray : Ray) (curve : BezierCurve3D) (st : HitState) : HitState :=
  let v := curve.v3.sub32 curve.v0
  let w := curve.v0.neg
  let d0 := fl (fl (w.x * v.x) + fl (w.y * v.y))
  let d1 := fl (fl (v.x * v.x) + fl (v.y * v.y))
  let u := clampQuot32 d0 d1
  let p := curve.v0.add32 (Vec3fa.lscale32 u v)
  let d2 := fl (fl (p.x * p.x) + fl (p.y * p.y))
  let r2 := fl (p.w * p.w)
  if d2 > r2 then st
  else
    let t := p.z
    if t < ray.tnear ∨ t > st.ray_tfar then st
    else ⟨fl (curve.t0 + fl (u * fl (curve.t1 - curve.t0))), t, true⟩

/-- The outer loop `while (true)` with the label `pop`, in binary32. -/
def traverse32 (ray : Ray) (inner : ℕ) :
    ℕ → List BezierCurve3D → HitState → Except Fault HitState
  | _, [], st => Except.ok st
  | 0, _ :: _, _ => Except.error Fault.outOfFuel
  | fuel + 1, curve :: stack, st =>
    match descend32 ray inner curve stack with
    | Except.error e => Except.error e
    | Except.ok (none, stack1) => traverse32 ray inner fuel stack1 st
    | Except.ok (some leaf, stack1) => traverse32 ray inner fuel stack1 (leafTest32 ray leaf st)

/-- The final block "compute final hit data" of the recursive `intersect` in
binary32; the tangent is evaluated at `ray.u` as in the source. -/
def commitRecursive32 (ray : Ray) (curve_in : Bezier1i) (st : HitState) : Ray :=
  if st.hit then
    { ray with u := st.ray_u, v := 1, tfar := st.ray_tfar, Ng := tangentAt32 curve_in ray.u,
               geomID := curve_in.geomID, primID := curve_in.primID }
  else ray

/-- The recursive `Bezier1iIntersector1::intersect` for one curve in binary32. -/
def intersect_recursive32 (ray_space : LinearSpace3f) (ray : Ray) (curve_in : Bezier1i) :
    Except Fault Ray :=
  match traverse32 ray 32 32 [curve2D32 ⟨ray_space⟩ ray curve_in] ⟨0, ray.tfar, false⟩ with
  | Except.error e => Except.error e
  | Except.ok st => Except.ok (commitRecursive32 ray curve_in st)

/-- The recursive `intersect` without pruning in binary32: the leaf block is
applied to all 16 depth-0 segments of the ray-space curve, left to right. -/
def intersect_unpruned32 (ray_space : LinearSpace3f) (ray : Ray) (curve_in : Bezier1i) : Ray :=
  commitRecursive32 ray curve_in
    ((leaves32 4 (curve2D32 ⟨ray_space⟩ ray curve_in)).foldl (fun s l => leafTest32 ray l s)
      ⟨0, ray.tfar, false⟩)

/-- Sample segment whose `x` coordinate is the constant `3`, radius `0`. -/
def sampleConstX : BezierCurve3D :=
  ⟨⟨3, 0, 0, 0⟩, ⟨3, 0, 0, 0⟩, ⟨3, 0, 0, 0⟩, ⟨3, 0, 0, 0⟩, 0, 1, 4⟩

/-- Sample segment with the `x` coordinates `0.1f, 0.2f, 0.3f, 0.7f`. -/
def sampleTenths : BezierCurve3D :=
  ⟨⟨fl (1 / 10), 0, 0, 1⟩, ⟨fl (2 / 10), 0, 0, 1⟩, ⟨fl (3 / 10), 0, 0, 1⟩,
   ⟨fl (7 / 10), 0, 0, 1⟩, 0, 1, 4⟩

/-- Sample primitive: a curve at depth `5`, radius `1`, that ends at
`x = 1 + 2^-23`, just outside the radius around the `z` axis. -/
def grazeCurve : Bezier1i :=
  ⟨fun k => match k with
    | 0 => ⟨65, 0, 5, 1⟩
    | 1 => ⟨44, 0, 5, 1⟩
    | 2 => ⟨23, 0, 5, 1⟩
    | 3 => ⟨1 + 1 / 8388608, 0, 5, 1⟩, 7, 3⟩

/-! ## Theorems -/

open BezierCurve3D

/-- C1: over exact arithmetic, for every segment `c` and parameter `s`, the
children of `subdivide` satisfy `eval(left, s).point = eval(c, s/2).point` and
`eval(right, s).point = eval(c, (1+s)/2).point` in all four lanes; moreover
`left.v0 = c.v0`, `right.v3 = c.v3` and `left.v3 = right.v0 = eval(c, 1/2).point`. -/
theorem subdivide_reproduces_parent (c : BezierCurve3D) (s : ℚ) :
    ((subdivide c).1.eval s).1 = (c.eval (s / 2)).1 ∧
    ((subdivide c).2.eval s).1 = (c.eval ((1 + s) / 2)).1 ∧
    (subdivide c).1.v0 = c.v0 ∧
    (subdivide c).2.v3 = c.v3 ∧
    (subdivide c).1.v3 = (subdivide c).2.v0 ∧
    (subdivide c).2.v0 = (c.eval (1 / 2)).1 := by
  refine ⟨?_, ?_, rfl, rfl, rfl, ?_⟩
  all_goals
    simp only [subdivide, eval, Vec3fa.add, Vec3fa.scale, Vec3fa.mk.injEq]
    refine ⟨?_, ?_, ?_, ?_⟩ <;> ring


/-- C2 (amended, over exact arithmetic): for every curve with control points
`v0..v3` and every parameter `t`, `eval(t)` returns, in each of the four lanes, the point
`(1-t)^3 v0 + 3(1-t)^2 t v1 + 3(1-t) t^2 v2 + t^3 v3` and the tangent
`(1-t)^2 (v1-v0) + 2(1-t)t (v2-v1) + t^2 (v3-v2)`, and three times that tangent
is the derivative at `t` of the point polynomial. -/
theorem eval_point_tangent (c : BezierCurve3D) (t : ℚ) (k : Fin 4) :
    ((c.eval t).1.get k =
        (1 - t) ^ 3 * c.v0.get k + 3 * (1 - t) ^ 2 * t * c.v1.get k
          + 3 * (1 - t) * t ^ 2 * c.v2.get k + t ^ 3 * c.v3.get k) ∧
    ((c.eval t).2.get k =
        (1 - t) ^ 2 * (c.v1.get k - c.v0.get k)
          + 2 * (1 - t) * t * (c.v2.get k - c.v1.get k)
          + t ^ 2 * (c.v3.get k - c.v2.get k)) ∧
    (Polynomial.eval t (Polynomial.derivative
        ((1 - Polynomial.X) ^ 3 * Polynomial.C (c.v0.get k)
          + 3 * (1 - Polynomial.X) ^ 2 * Polynomial.X * Polynomial.C (c.v1.get k)
          + 3 * (1 - Polynomial.X) * Polynomial.X ^ 2 * Polynomial.C (c.v2.get k)
          + Polynomial.X ^ 3 * Polynomial.C (c.v3.get k)))
      = 3 * (c.eval t).2.get k) := by
  refine ⟨?_, ?_, ?_⟩
  · fin_cases k <;> simp [eval, Vec3fa.get, Vec3fa.add, Vec3fa.scale] <;> ring
  · fin_cases k <;> simp [eval, Vec3fa.get, Vec3fa.add, Vec3fa.sub, Vec3fa.scale] <;> ring
  · fin_cases k <;>
      simp [eval, Vec3fa.get, Vec3fa.add, Vec3fa.sub, Vec3fa.scale,
        Polynomial.derivative_mul, Polynomial.derivative_pow] <;> ring

set_option maxHeartbeats 1600000 in
/-- C3 (amended, over exact arithmetic): with the Bernstein weight tables
`coeff0[k][i] = B_k(i/8)` and
`coeff1[k][i] = B_k((i+1)/8)`, lane `i` of the batched `eval(coeff0)` is the
first control point and lane `i` of the batched `eval(coeff1)` is the last
control point of the `i`-th of the 8 segments that three recursive
subdivisions produce (leaves taken left to right), in all four lanes of the
vectors. -/
theorem eval_avx_eq_three_subdivisions (c : BezierCurve3D) :
    (leaves 3 c).map (fun s => s.v0) = List.ofFn (fun i => (lanes_p0 c).lane i) ∧
    (leaves 3 c).map (fun s => s.v3) = List.ofFn (fun i => (lanes_p1 c).lane i) := by
  constructor
  · simp only [leaves, subdivide, lanes_p0, eval_avx, coeff0, bernstein, avx4f.lane, avx4f.add,
      avx4f.lscale, avx4f.broadcast, Vec3fa.add, Vec3fa.scale, List.ofFn_succ, List.ofFn_zero,
      List.map_cons, List.map_nil, List.cons_append, List.nil_append, List.cons.injEq,
      Vec3fa.mk.injEq, and_true]
    norm_num
    repeat' apply And.intro
    all_goals ring
  · simp only [leaves, subdivide, lanes_p1, eval_avx, coeff1, bernstein, avx4f.lane, avx4f.add,
      avx4f.lscale, avx4f.broadcast, Vec3fa.add, Vec3fa.scale, List.ofFn_succ, List.ofFn_zero,
      List.map_cons, List.map_nil, List.cons_append, List.nil_append, List.cons.injEq,
      Vec3fa.mk.injEq, and_true]
    norm_num
    repeat' apply And.intro
    all_goals ring

/-! ### Bounds -/

lemma lerp_ge {m a b t : ℚ} (ha : m ≤ a) (hb : m ≤ b) (h0 : 0 ≤ t) (h1 : t ≤ 1) :
    m ≤ a * (1 - t) + b * t := by
  nlinarith [mul_nonneg (sub_nonneg.2 ha) (sub_nonneg.2 h1), mul_nonneg (sub_nonneg.2 hb) h0]

lemma lerp_le {m a b t : ℚ} (ha : a ≤ m) (hb : b ≤ m) (h0 : 0 ≤ t) (h1 : t ≤ 1) :
    a * (1 - t) + b * t ≤ m := by
  nlinarith [mul_nonneg (sub_nonneg.2 ha) (sub_nonneg.2 h1), mul_nonneg (sub_nonneg.2 hb) h0]

/-- The de Casteljau value of four numbers stays above a common lower bound. -/
lemma casteljau_ge {m a b c d t : ℚ} (ha : m ≤ a) (hb : m ≤ b) (hc : m ≤ c) (hd : m ≤ d)
    (h0 : 0 ≤ t) (h1 : t ≤ 1) :
    m ≤ ((a * (1 - t) + b * t) * (1 - t) + (b * (1 - t) + c * t) * t) * (1 - t)
      + ((b * (1 - t) + c * t) * (1 - t) + (c * (1 - t) + d * t) * t) * t :=
  lerp_ge (lerp_ge (lerp_ge ha hb h0 h1) (lerp_ge hb hc h0 h1) h0 h1)
    (lerp_ge (lerp_ge hb hc h0 h1) (lerp_ge hc hd h0 h1) h0 h1) h0 h1

/-- The de Casteljau value of four numbers stays below a common upper bound. -/
lemma casteljau_le {m a b c d t : ℚ} (ha : a ≤ m) (hb : b ≤ m) (hc : c ≤ m) (hd : d ≤ m)
    (h0 : 0 ≤ t) (h1 : t ≤ 1) :
    ((a * (1 - t) + b * t) * (1 - t) + (b * (1 - t) + c * t) * t) * (1 - t)
      + ((b * (1 - t) + c * t) * (1 - t) + (c * (1 - t) + d * t) * t) * t ≤ m :=
  lerp_le (lerp_le (lerp_le ha hb h0 h1) (lerp_le hb hc h0 h1) h0 h1)
    (lerp_le (lerp_le hb hc h0 h1) (lerp_le hc hd h0 h1) h0 h1) h0 h1

lemma min4_le (a b c d : ℚ) :
    min (min a b) (min c d) ≤ a ∧ min (min a b) (min c d) ≤ b ∧
    min (min a b) (min c d) ≤ c ∧ min (min a b) (min c d) ≤ d :=
  ⟨(min_le_left _ _).trans (min_le_left _ _), (min_le_left _ _).trans (min_le_right _ _),
   (min_le_right _ _).trans (min_le_left _ _), (min_le_right _ _).trans (min_le_right _ _)⟩

lemma le_max4 (a b c d : ℚ) :
    a ≤ max (max a b) (max c d) ∧ b ≤ max (max a b) (max c d) ∧
    c ≤ max (max a b) (max c d) ∧ d ≤ max (max a b) (max c d) :=
  ⟨(le_max_left _ _).trans (le_max_left _ _), (le_max_right _ _).trans (le_max_left _ _),
   (le_max_left _ _).trans (le_max_right _ _), (le_max_right _ _).trans (le_max_right _ _)⟩

/-- A segment with non-negative largest radius lies in its own bound. -/
lemma eval_inside_bounds (c : BezierCurve3D) (t : ℚ) (hR : 0 ≤ maxRadius c)
    (h0 : 0 ≤ t) (h1 : t ≤ 1) : inside (c.eval t).1 c.bounds := by
  have hR1 : 0 ≤ max (max c.v0.w c.v1.w) (max c.v2.w c.v3.w) := hR
  obtain ⟨ax, bx, cx, dx⟩ := min4_le c.v0.x c.v1.x c.v2.x c.v3.x
  obtain ⟨ay, by1, cy, dy⟩ := min4_le c.v0.y c.v1.y c.v2.y c.v3.y
  obtain ⟨az, bz, cz, dz⟩ := min4_le c.v0.z c.v1.z c.v2.z c.v3.z
  obtain ⟨ex, fx, gx, kx⟩ := le_max4 c.v0.x c.v1.x c.v2.x c.v3.x
  obtain ⟨ey, fy, gy, ky⟩ := le_max4 c.v0.y c.v1.y c.v2.y c.v3.y
  obtain ⟨ez, fz, gz, kz⟩ := le_max4 c.v0.z c.v1.z c.v2.z c.v3.z
  simp only [inside, bounds, eval, BBox3fa.enlarge, BBox3fa.merge4, BBox3fa.merge,
    BBox3fa.ofPoint, Vec3fa.broadcast, Vec3fa.add, Vec3fa.sub, Vec3fa.scale, Vec3fa.vmin,
    Vec3fa.vmax]
  refine ⟨⟨?_, ?_⟩, ⟨?_, ?_⟩, ⟨?_, ?_⟩⟩
  · linarith [casteljau_ge ax bx cx dx h0 h1]
  · linarith [casteljau_le ex fx gx kx h0 h1]
  · linarith [casteljau_ge ay by1 cy dy h0 h1]
  · linarith [casteljau_le ey fy gy ky h0 h1]
  · linarith [casteljau_ge az bz cz dz h0 h1]
  · linarith [casteljau_le ez fz gz kz h0 h1]

lemma subdivide_eval_left (c : BezierCurve3D) (s : ℚ) :
    ((subdivide c).1.eval s).1 = (c.eval (s / 2)).1 := by
  simp only [subdivide, eval, Vec3fa.add, Vec3fa.scale, Vec3fa.mk.injEq]
  refine ⟨?_, ?_, ?_, ?_⟩ <;> ring

lemma subdivide_eval_right (c : BezierCurve3D) (s : ℚ) :
    ((subdivide c).2.eval s).1 = (c.eval ((1 + s) / 2)).1 := by
  simp only [subdivide, eval, Vec3fa.add, Vec3fa.scale, Vec3fa.mk.injEq]
  refine ⟨?_, ?_, ?_, ?_⟩ <;> ring

/-- C4 (as stated, refuted): first, the sample segment with radii
`-10, -10, -10, 1` has largest radius `1 ≥ 0`, yet the bound of its left child
does not contain the point of the parent curve at `t = 0` (all radii of the left
child are negative, so its box is shrunk to nothing). Second, in binary32 the
segment whose four control points are `(3, 0, 0)` with radius `0` has the bound
`x = 3`, but `eval` at `t = float(1/10)` returns `x = 3 - 2^-22`, outside it. -/
theorem child_bounds_counterexample :
    (0 ≤ maxRadius sampleTaper ∧ (0 : ℚ) ≤ 0 ∧ (0 : ℚ) ≤ 1 / 2 ∧
      ¬ inside (sampleTaper.eval 0).1 sampleTaper.subdivide.1.bounds) ∧
    (0 ≤ maxRadius sampleConstX ∧ 0 ≤ fl (1 / 10) ∧ fl (1 / 10) ≤ 1 ∧
      (sampleConstX.eval32 (fl (1 / 10))).1.x = 12582911 / 4194304 ∧
      sampleConstX.bounds32.lower.x = 3 ∧
      ¬ inside (sampleConstX.eval32 (fl (1 / 10))).1 sampleConstX.bounds32) := by
  decide!

/-- C4 (amended, over exact arithmetic): a segment whose largest control-point
radius is non-negative contains its curve points `eval(t)`, `t` in `[0,1]`, in
`bounds()` (in `x`, `y` and `z`); after `subdivide`, `bounds(left)` contains the
parent curve on `[0,1/2]` when the largest radius of the left child is
non-negative, and `bounds(right)` contains it on `[1/2,1]` when the largest
radius of the right child is non-negative; both conditions hold, and so both
children contain their half of the parent curve, when all four radii of the
parent are non-negative. -/
theorem bounds_contain_curve (c : BezierCurve3D) :
    (∀ t, 0 ≤ maxRadius c → 0 ≤ t → t ≤ 1 → inside (c.eval t).1 c.bounds) ∧
    (∀ t, 0 ≤ maxRadius c.subdivide.1 → 0 ≤ t → t ≤ 1 / 2 →
      inside (c.eval t).1 c.subdivide.1.bounds) ∧
    (∀ t, 0 ≤ maxRadius c.subdivide.2 → 1 / 2 ≤ t → t ≤ 1 →
      inside (c.eval t).1 c.subdivide.2.bounds) ∧
    (nonnegRadii c →
      (0 ≤ maxRadius c.subdivide.1 ∧ 0 ≤ maxRadius c.subdivide.2) ∧
      (∀ t, 0 ≤ t → t ≤ 1 / 2 → inside (c.eval t).1 c.subdivide.1.bounds) ∧
      (∀ t, 1 / 2 ≤ t → t ≤ 1 → inside (c.eval t).1 c.subdivide.2.bounds)) := by
  have hl : ∀ t, 0 ≤ maxRadius c.subdivide.1 → 0 ≤ t → t ≤ 1 / 2 →
      inside (c.eval t).1 c.subdivide.1.bounds := by
    intro t hR h0 h1
    have h := eval_inside_bounds c.subdivide.1 (2 * t) hR (by linarith) (by linarith)
    rw [subdivide_eval_left] at h
    have e : 2 * t / 2 = t := by ring
    rwa [e] at h
  have hr : ∀ t, 0 ≤ maxRadius c.subdivide.2 → 1 / 2 ≤ t → t ≤ 1 →
      inside (c.eval t).1 c.subdivide.2.bounds := by
    intro t hR h0 h1
    have h := eval_inside_bounds c.subdivide.2 (2 * t - 1) hR (by linarith) (by linarith)
    rw [subdivide_eval_right] at h
    have e : (1 + (2 * t - 1)) / 2 = t := by ring
    rwa [e] at h
  refine ⟨fun t hR h0 h1 => eval_inside_bounds c t hR h0 h1, hl, hr, fun hn => ?_⟩
  have h1 : 0 ≤ maxRadius c.subdivide.1 :=
    hn.1.trans ((le_max_left _ _).trans (le_max_left _ _))
  have h2 : 0 ≤ maxRadius c.subdivide.2 :=
    hn.2.2.2.trans ((le_max_right _ _).trans (le_max_right _ _))
  exact ⟨⟨h1, h2⟩, fun t h0 ht => hl t h1 h0 ht, fun t h0 ht => hr t h2 h0 ht⟩

/-- Witness for C4: the sample tube at `t = 1/4` and `t = 3/4`. -/
theorem bounds_contain_curve_witness :
    nonnegRadii sampleTube ∧
    inside (sampleTube.eval (1 / 4)).1 sampleTube.bounds ∧
    inside (sampleTube.eval (1 / 4)).1 sampleTube.subdivide.1.bounds ∧
    inside (sampleTube.eval (3 / 4)).1 sampleTube.subdivide.2.bounds ∧
    inside (sampleTube.eval (1 / 8)).1 sampleTube.subdivide.1.bounds ∧
    inside (sampleTube.eval (7 / 8)).1 sampleTube.subdivide.2.bounds :=
  ⟨by unfold nonnegRadii; decide!,
   (bounds_contain_curve sampleTube).1 (1 / 4) (by decide!) (by decide!) (by decide!),
   (bounds_contain_curve sampleTube).2.1 (1 / 4) (by decide!) (by decide!) (by decide!),
   (bounds_contain_curve sampleTube).2.2.1 (3 / 4) (by decide!) (by decide!) (by decide!),
   ((bounds_contain_curve sampleTube).2.2.2 (by unfold nonnegRadii; decide!)).2.1 (1 / 8)
     (by decide!) (by decide!),
   ((bounds_contain_curve sampleTube).2.2.2 (by unfold nonnegRadii; decide!)).2.2 (7 / 8)
     (by decide!) (by decide!)⟩

/-! ### Lane selection -/

lemma avxb_none_eq_false {valid : avxb} (h : avxb_none valid = false) :
    ∃ i, valid i = true := by
  by_contra hc
  have : avxb_none valid = true := by
    simp only [avxb_none, decide_eq_true_eq]
    intro i
    by_contra hi
    exact hc ⟨i, by simpa using hi⟩
  rw [this] at h
  exact Bool.noConfusion h

lemma avxb_none_eq_true {valid : avxb} (h : avxb_none valid = true) (i : Fin 8) :
    valid i = false := by
  simp only [avxb_none, decide_eq_true_eq] at h
  exact h i

/-- When some lane is set, `select_min` returns a set lane of least value. -/
lemma select_min_spec (valid : avxb) (t : avxf) (h : ∃ i, valid i = true) :
    valid (select_min valid t) = true ∧
      ∀ j, valid j = true → t (select_min valid t) ≤ t j := by
  obtain ⟨i0, hi0⟩ := h
  have hne : (Finset.univ.filter (fun i : Fin 8 => valid i = true)).Nonempty :=
    ⟨i0, by simp [hi0]⟩
  obtain ⟨m, hm, hmin⟩ := Finset.exists_min_image _ t hne
  simp only [Finset.mem_filter, Finset.mem_univ, true_and] at hm hmin
  have hfind : ∃ a, (List.finRange 8).find? (fun i =>
      valid i && decide (∀ j : Fin 8, valid j = true → t i ≤ t j)) = some a := by
    cases hf : (List.finRange 8).find? (fun i =>
      valid i && decide (∀ j : Fin 8, valid j = true → t i ≤ t j)) with
    | some a => exact ⟨a, rfl⟩
    | none =>
      rw [List.find?_eq_none] at hf
      have := hf m (List.mem_finRange m)
      simp only [hm, Bool.true_and, decide_eq_true_eq] at this
      exact absurd hmin this
  obtain ⟨a, ha⟩ := hfind
  have hp := List.find?_some ha
  simp only [Bool.and_eq_true, decide_eq_true_eq] at hp
  have : select_min valid t = a := by simp [select_min, ha]
  rw [this]
  exact hp

lemma laneCount_le (valid : avxb) : laneCount valid ≤ 8 := by
  unfold laneCount
  exact (Finset.card_filter_le _ _).trans (by simp)

lemma laneCount_clearLane {valid : avxb} {i : Fin 8} (h : valid i = true) :
    laneCount (clearLane valid i) < laneCount valid := by
  unfold laneCount
  apply Finset.card_lt_card
  constructor
  · intro j hj
    simp only [Finset.mem_filter, Finset.mem_univ, true_and, clearLane] at hj ⊢
    by_cases hji : j = i
    · simp [hji] at hj
    · simpa [hji] using hj
  · intro hsub
    have hmem : i ∈ Finset.univ.filter (fun j : Fin 8 => (clearLane valid i) j = true) :=
      hsub (by simp [h])
    simp [clearLane] at hmem

/-- The retry loop, given enough fuel for the set lanes: it returns the ray
unchanged when no set lane has a non-zero tangent, and otherwise commits a set
lane with non-zero tangent of least depth among those. -/
lemma retryLoop_spec (curve_in : Bezier1i) (u t : avxf) (ray : Ray) :
    ∀ (n : ℕ) (valid : avxb), laneCount valid ≤ n →
      ((¬ ∃ i, goodLane curve_in u valid i) ∧
          retryLoop curve_in u t ray n valid = some ray) ∨
      (∃ i, goodLane curve_in u valid i ∧
          (∀ j, goodLane curve_in u valid j → t i ≤ t j) ∧
          retryLoop curve_in u t ray n valid =
            some (commitHit ray (hitParam u i) (t i)
              (tangentAt curve_in (hitParam u i)) curve_in)) := by
  intro n
  induction n with
  | zero =>
    intro valid hc
    left
    have hnone : avxb_none valid = true := by
      by_contra hn
      obtain ⟨i, hi⟩ := avxb_none_eq_false (by simpa using hn)
      have : 0 < laneCount valid := by
        unfold laneCount
        exact Finset.card_pos.2 ⟨i, by simp [hi]⟩
      omega
    refine ⟨?_, ?_⟩
    · rintro ⟨i, hi, -⟩
      rw [avxb_none_eq_true hnone i] at hi
      exact Bool.noConfusion hi
    · rw [retryLoop, if_pos hnone]
  | succ n ih =>
    intro valid hc
    by_cases hnone : avxb_none valid = true
    · left
      refine ⟨?_, ?_⟩
      · rintro ⟨i, hi, -⟩
        rw [avxb_none_eq_true hnone i] at hi
        exact Bool.noConfusion hi
      · rw [retryLoop, if_pos hnone]
    · have hex := avxb_none_eq_false (by simpa using hnone)
      obtain ⟨hsel, hmin⟩ := select_min_spec valid t hex
      by_cases hT : (tangentAt curve_in (hitParam u (select_min valid t))).eq3 Vec3fa.zero = true
      · have hlt := laneCount_clearLane hsel
        have hrec := ih (clearLane valid (select_min valid t)) (by omega)
        have hgood : ∀ j, goodLane curve_in u (clearLane valid (select_min valid t)) j ↔
            goodLane curve_in u valid j := by
          intro j
          unfold goodLane clearLane
          by_cases hj : j = select_min valid t
          · subst hj
            simp [hT]
          · simp [hj]
        have hstep : retryLoop curve_in u t ray (n + 1) valid =
            retryLoop curve_in u t ray n (clearLane valid (select_min valid t)) := by
          rw [retryLoop, if_neg hnone]
          simp only [hT, if_true]
        rw [hstep]
        simpa only [hgood] using hrec
      · right
        have hT1 : (tangentAt curve_in (hitParam u (select_min valid t))).eq3 Vec3fa.zero
            = false := by simpa using hT
        refine ⟨select_min valid t, ⟨hsel, hT1⟩, fun j hj => hmin j hj.1, ?_⟩
        rw [retryLoop, if_neg hnone]
        simp only [hT1, Bool.false_eq_true, if_false]

/-- The batched `intersect` without filter, described through its cone values. -/
lemma intersect_spec (pre : Precalculations) (ray : Ray) (curve_in : Bezier1i) :
    ((¬ ∃ i, goodLane curve_in (intersectCone pre ray curve_in).u
          (intersectCone pre ray curve_in).valid i) ∧
        intersect pre ray curve_in none = some ray) ∨
    (∃ i, goodLane curve_in (intersectCone pre ray curve_in).u
          (intersectCone pre ray curve_in).valid i ∧
        (∀ j, goodLane curve_in (intersectCone pre ray curve_in).u
          (intersectCone pre ray curve_in).valid j →
          (intersectCone pre ray curve_in).t i ≤ (intersectCone pre ray curve_in).t j) ∧
        intersect pre ray curve_in none =
          some (commitHit ray (hitParam (intersectCone pre ray curve_in).u i)
            ((intersectCone pre ray curve_in).t i)
            (tangentAt curve_in (hitParam (intersectCone pre ray curve_in).u i)) curve_in)) :=
  retryLoop_spec curve_in (intersectCone pre ray curve_in).u (intersectCone pre ray curve_in).t
    ray 8 (intersectCone pre ray curve_in).valid (laneCount_le _)

/-- A set lane of the intersect cone has its depth strictly inside the ray interval. -/
lemma coneIntersect_valid_depth {ray : Ray} {p0 p1 : avx4f} {i : Fin 8}
    (h : (coneIntersect ray p0 p1).valid i = true) :
    ray.tnear < (coneIntersect ray p0 p1).t i ∧ (coneIntersect ray p0 p1).t i < ray.tfar := by
  simp only [coneIntersect, Bool.and_eq_true, decide_eq_true_eq] at h ⊢
  exact ⟨h.1.2, h.2⟩

/-- C6: without intersection filter, the batched `intersect` returns, and it
commits a hit (the ray changes) if and only if some valid lane has a non-zero
tangent of the untransformed curve at its parameter `(i + u_i)/8`; when it
commits, the committed lane `i` is such a lane, its depth `t_i` is at most the
depth of every valid lane with non-zero tangent, and the ray holds
`u = (i + u_i)/8`, `tfar = t_i`, `Ng =` that tangent, and the `geomID` and
`primID` of the curve. -/
theorem intersect_commits_nearest (pre : Precalculations) (ray : Ray) (curve_in : Bezier1i) :
    ∃ ray1, intersect pre ray curve_in none = some ray1 ∧
      (ray1 ≠ ray ↔ ∃ i, goodLane curve_in (intersectCone pre ray curve_in).u
          (intersectCone pre ray curve_in).valid i) ∧
      (ray1 ≠ ray →
        ∃ i, goodLane curve_in (intersectCone pre ray curve_in).u
            (intersectCone pre ray curve_in).valid i ∧
          (∀ j, goodLane curve_in (intersectCone pre ray curve_in).u
            (intersectCone pre ray curve_in).valid j →
            (intersectCone pre ray curve_in).t i ≤ (intersectCone pre ray curve_in).t j) ∧
          ray1.u = ((i.val : ℚ) + (intersectCone pre ray curve_in).u i) / 8 ∧
          ray1.tfar = (intersectCone pre ray curve_in).t i ∧
          ray1.Ng = tangentAt curve_in
            (((i.val : ℚ) + (intersectCone pre ray curve_in).u i) / 8) ∧
          ray1.geomID = curve_in.geomID ∧ ray1.primID = curve_in.primID) := by
  have hu : ∀ i : Fin 8, hitParam (intersectCone pre ray curve_in).u i =
      ((i.val : ℚ) + (intersectCone pre ray curve_in).u i) / 8 := by
    intro i; unfold hitParam; ring
  rcases intersect_spec pre ray curve_in with ⟨hno, hres⟩ | ⟨i, hgood, hmin, hres⟩
  · exact ⟨ray, hres, ⟨fun h => absurd rfl h, fun h => absurd h hno⟩, fun h => absurd rfl h⟩
  · have hlt := (coneIntersect_valid_depth hgood.1).2
    have hne : commitHit ray (hitParam (intersectCone pre ray curve_in).u i)
        ((intersectCone pre ray curve_in).t i)
        (tangentAt curve_in (hitParam (intersectCone pre ray curve_in).u i)) curve_in ≠ ray := by
      intro he
      have := congrArg Ray.tfar he
      simp only [commitHit] at this
      exact absurd this (ne_of_lt hlt)
    refine ⟨_, hres, ⟨fun _ => ⟨i, hgood⟩, fun _ => hne⟩, fun _ => ⟨i, hgood, hmin, ?_⟩⟩
    rw [← hu i]
    exact ⟨rfl, rfl, rfl, rfl, rfl⟩

/-- C7: after a single-curve batched `intersect` without filter, either the
whole ray is identical to its value before the call, or `org`, `dir` and
`tnear` are unchanged and the new `tfar` satisfies
`tnear < tfar_new < tfar_old`; in particular `tfar` never increases, `org`,
`dir` and `tnear` are never modified, and the ray is unchanged when no lane is
a valid candidate. -/
theorem intersect_frame (pre : Precalculations) (ray : Ray) (curve_in : Bezier1i) :
    ∃ ray1, intersect pre ray curve_in none = some ray1 ∧
      (ray1 = ray ∨
        (ray1.org = ray.org ∧ ray1.dir = ray.dir ∧ ray1.tnear = ray.tnear ∧
          ray.tnear < ray1.tfar ∧ ray1.tfar < ray.tfar)) ∧
      ray1.tfar ≤ ray.tfar ∧ ray1.org = ray.org ∧ ray1.dir = ray.dir ∧
      ray1.tnear = ray.tnear ∧
      ((∀ i, (intersectCone pre ray curve_in).valid i = false) → ray1 = ray) := by
  rcases intersect_spec pre ray curve_in with ⟨_, hres⟩ | ⟨i, hgood, _, hres⟩
  · exact ⟨ray, hres, Or.inl rfl, le_refl _, rfl, rfl, rfl, fun _ => rfl⟩
  · have hd := coneIntersect_valid_depth hgood.1
    refine ⟨_, hres, Or.inr ⟨rfl, rfl, rfl, hd.1, hd.2⟩, le_of_lt hd.2, rfl, rfl, rfl, ?_⟩
    intro hall
    have h1 := hgood.1
    rw [hall i] at h1
    exact Bool.noConfusion h1

/-- The tangent of a curve whose four control points share one position is
the zero vector at every parameter. -/
lemma tangentAt_coincident (curve_in : Bezier1i)
    (h : ∀ k, (curve_in.p k).x = (curve_in.p 0).x ∧ (curve_in.p k).y = (curve_in.p 0).y ∧
      (curve_in.p k).z = (curve_in.p 0).z) (uu : ℚ) :
    (tangentAt curve_in uu).eq3 Vec3fa.zero = true := by
  obtain ⟨x1, y1, z1⟩ := h 1
  obtain ⟨x2, y2, z2⟩ := h 2
  obtain ⟨x3, y3, z3⟩ := h 3
  simp only [tangentAt, eval, Vec3fa.eq3, Vec3fa.zero, Vec3fa.broadcast, Vec3fa.sub, Vec3fa.add,
    Vec3fa.scale, Bool.and_eq_true, decide_eq_true_eq, x1, y1, z1, x2, y2, z2, x3, y3, z3]
  refine ⟨⟨?_, ?_⟩, ?_⟩ <;> ring

/-- C8: for every ray and every curve whose four control points have the same
position, the batched `intersect` without filter returns the ray unchanged: it
never commits a hit. -/
theorem coincident_no_hit (pre : Precalculations) (ray : Ray) (curve_in : Bezier1i)
    (h : ∀ k, (curve_in.p k).x = (curve_in.p 0).x ∧ (curve_in.p k).y = (curve_in.p 0).y ∧
      (curve_in.p k).z = (curve_in.p 0).z) :
    intersect pre ray curve_in none = some ray := by
  rcases intersect_spec pre ray curve_in with ⟨_, hres⟩ | ⟨i, hgood, _, _⟩
  · exact hres
  · have h1 := hgood.2
    rw [tangentAt_coincident curve_in h] at h1
    exact Bool.noConfusion h1

/-- Witness for C8: the ray through a point-like curve of radius `1`. -/
theorem coincident_no_hit_witness :
    (∀ k, (samplePointCurve.p k).x = (samplePointCurve.p 0).x ∧
        (samplePointCurve.p k).y = (samplePointCurve.p 0).y ∧
        (samplePointCurve.p k).z = (samplePointCurve.p 0).z) ∧
      intersect ⟨identitySpace⟩ sampleRay samplePointCurve none = some sampleRay :=
  ⟨by decide!, coincident_no_hit ⟨identitySpace⟩ sampleRay samplePointCurve (by decide!)⟩

/-! ### Lanes of the batched evaluation -/

lemma lanes_p0_lane (c : BezierCurve3D) (i : Fin 8) :
    (lanes_p0 c).lane i = (c.eval ((i.val : ℚ) / 8)).1 := by
  simp only [lanes_p0, eval_avx, coeff0, bernstein, avx4f.lane, avx4f.add, avx4f.lscale,
    avx4f.broadcast, eval, Vec3fa.add, Vec3fa.scale, Vec3fa.mk.injEq]
  refine ⟨?_, ?_, ?_, ?_⟩ <;> ring

lemma lanes_p1_lane (c : BezierCurve3D) (i : Fin 8) :
    (lanes_p1 c).lane i = (c.eval (((i.val : ℚ) + 1) / 8)).1 := by
  simp only [lanes_p1, eval_avx, coeff1, bernstein, avx4f.lane, avx4f.add, avx4f.lscale,
    avx4f.broadcast, eval, Vec3fa.add, Vec3fa.scale, Vec3fa.mk.injEq]
  refine ⟨?_, ?_, ?_, ?_⟩ <;> ring

lemma lane_param_bounds (i : Fin 8) :
    (0 : ℚ) ≤ (i.val : ℚ) / 8 ∧ (i.val : ℚ) / 8 ≤ 1 ∧
    (0 : ℚ) ≤ ((i.val : ℚ) + 1) / 8 ∧ ((i.val : ℚ) + 1) / 8 ≤ 1 := by
  have h1 : (i.val : ℚ) ≤ 7 := by
    have : i.val ≤ 7 := by omega
    exact_mod_cast this
  have h0 : (0 : ℚ) ≤ (i.val : ℚ) := by positivity
  refine ⟨?_, ?_, ?_, ?_⟩ <;> linarith

lemma clamp_bounds (x : ℚ) : 0 ≤ clamp x 0 1 ∧ clamp x 0 1 ≤ 1 := by
  unfold clamp
  exact ⟨le_max_left _ _, max_le (by norm_num) (min_le_right _ _)⟩

/-- The local parameter of a cone block lies in `[0,1]`, also for a zero
denominator. -/
lemma clampQuot_bounds (d0 d1 : ℚ) : 0 ≤ clampQuot d0 d1 ∧ clampQuot d0 d1 ≤ 1 := by
  unfold clampQuot
  split_ifs
  · exact ⟨zero_le_one, le_refl _⟩
  · exact clamp_bounds _

/-- With a non-zero denominator the local parameter is the clamped quotient. -/
lemma clampQuot_of_ne (d0 : ℚ) {d1 : ℚ} (h : d1 ≠ 0) :
    clampQuot d0 d1 = clamp (d0 / d1) 0 1 := by
  unfold clampQuot
  rw [if_neg h]

/-- The wide point `p` of the cone block lies between the two lane end points. -/
lemma cone_point_between {lo hi u a b : ℚ} (hu0 : 0 ≤ u) (hu1 : u ≤ 1)
    (ha : lo ≤ a ∧ a ≤ hi) (hb : lo ≤ b ∧ b ≤ hi) :
    lo ≤ a + u * (b - a) ∧ a + u * (b - a) ≤ hi := by
  have e : a + u * (b - a) = a * (1 - u) + b * u := by ring
  rw [e]
  exact ⟨lerp_ge ha.1 hb.1 hu0 hu1, lerp_le ha.2 hb.2 hu0 hu1⟩

/-- Every lane of every coordinate (selected by `f`) of the curve point
`eval(t)` lies between bounds that hold for the four control points. -/
lemma eval_lane_between (c : BezierCurve3D) {t lo hi : ℚ} (h0 : 0 ≤ t) (h1 : t ≤ 1)
    (k : Fin 4)
    (hv0 : lo ≤ c.v0.get k ∧ c.v0.get k ≤ hi) (hv1 : lo ≤ c.v1.get k ∧ c.v1.get k ≤ hi)
    (hv2 : lo ≤ c.v2.get k ∧ c.v2.get k ≤ hi) (hv3 : lo ≤ c.v3.get k ∧ c.v3.get k ≤ hi) :
    lo ≤ (c.eval t).1.get k ∧ (c.eval t).1.get k ≤ hi := by
  fin_cases k <;>
  · simp only [Vec3fa.get, eval, Vec3fa.add, Vec3fa.scale] at hv0 hv1 hv2 hv3 ⊢
    exact ⟨casteljau_ge hv0.1 hv1.1 hv2.1 hv3.1 h0 h1,
      casteljau_le hv0.2 hv1.2 hv2.2 hv3.2 h0 h1⟩

/-- Lane `k`, wide lane `i`, of the point `p` of the intersect cone block
lies between bounds that hold for the four control points. -/
lemma coneIntersect_p_between (ray : Ray) (c : BezierCurve3D) (i : Fin 8) (k : Fin 4)
    (lo hi : ℚ)
    (hv0 : lo ≤ c.v0.get k ∧ c.v0.get k ≤ hi) (hv1 : lo ≤ c.v1.get k ∧ c.v1.get k ≤ hi)
    (hv2 : lo ≤ c.v2.get k ∧ c.v2.get k ≤ hi) (hv3 : lo ≤ c.v3.get k ∧ c.v3.get k ≤ hi) :
    lo ≤ ((coneIntersect ray (lanes_p0 c) (lanes_p1 c)).p.lane i).get k ∧
      ((coneIntersect ray (lanes_p0 c) (lanes_p1 c)).p.lane i).get k ≤ hi := by
  obtain ⟨a0, a1, b0, b1⟩ := lane_param_bounds i
  have hp0 := eval_lane_between c a0 a1 k hv0 hv1 hv2 hv3
  have hp1 := eval_lane_between c b0 b1 k hv0 hv1 hv2 hv3
  rw [← lanes_p0_lane] at hp0
  rw [← lanes_p1_lane] at hp1
  obtain ⟨hu0, hu1⟩ := clampQuot_bounds
    ((lanes_p0 c).neg.x i * ((lanes_p1 c).sub (lanes_p0 c)).x i +
        (lanes_p0 c).neg.y i * ((lanes_p1 c).sub (lanes_p0 c)).y i)
    (((lanes_p1 c).sub (lanes_p0 c)).x i * ((lanes_p1 c).sub (lanes_p0 c)).x i +
        ((lanes_p1 c).sub (lanes_p0 c)).y i * ((lanes_p1 c).sub (lanes_p0 c)).y i)
  have := cone_point_between hu0 hu1 hp0 hp1
  fin_cases k <;> simpa only [coneIntersect, avx4f.lane, avx4f.add, avx4f.lscale, avx4f.sub,
    Vec3fa.get] using this

lemma intersect_box_iff (b : BBox3fa) (ray : Ray) :
    intersect_box b ray = true ↔
      (b.lower.x ≤ 0 ∧ b.lower.y ≤ 0) ∧ (0 ≤ b.upper.x ∧ 0 ≤ b.upper.y) := by
  simp only [intersect_box, Bool.and_eq_true, decide_eq_true_eq, max_le_iff, le_min_iff]

/-- The box test is monotone: a box that contains (in `x` and `y`) a box
hit by the test is hit too. -/
lemma intersect_box_mono {b1 b2 : BBox3fa} (ray : Ray)
    (hlx : b2.lower.x ≤ b1.lower.x) (hly : b2.lower.y ≤ b1.lower.y)
    (hux : b1.upper.x ≤ b2.upper.x) (huy : b1.upper.y ≤ b2.upper.y)
    (h : intersect_box b1 ray = true) : intersect_box b2 ray = true := by
  rw [intersect_box_iff] at h ⊢
  obtain ⟨⟨h1, h2⟩, h3, h4⟩ := h
  exact ⟨⟨hlx.trans h1, hly.trans h2⟩, h3.trans hux, h4.trans huy⟩

lemma halfsum_between {lo hi a b : ℚ} (ha : lo ≤ a ∧ a ≤ hi) (hb : lo ≤ b ∧ b ≤ hi) :
    lo ≤ (a + b) * (1 / 2) ∧ (a + b) * (1 / 2) ≤ hi := by
  constructor <;> linarith [ha.1, ha.2, hb.1, hb.2]

/-- Lane `k` of every control point of both children lies between bounds
that hold for the four control points of the parent. -/
lemma subdivide_between (c : BezierCurve3D) (k : Fin 4) (lo hi : ℚ)
    (hv0 : lo ≤ c.v0.get k ∧ c.v0.get k ≤ hi) (hv1 : lo ≤ c.v1.get k ∧ c.v1.get k ≤ hi)
    (hv2 : lo ≤ c.v2.get k ∧ c.v2.get k ≤ hi) (hv3 : lo ≤ c.v3.get k ∧ c.v3.get k ≤ hi) :
    ((lo ≤ c.subdivide.1.v0.get k ∧ c.subdivide.1.v0.get k ≤ hi) ∧
      (lo ≤ c.subdivide.1.v1.get k ∧ c.subdivide.1.v1.get k ≤ hi) ∧
      (lo ≤ c.subdivide.1.v2.get k ∧ c.subdivide.1.v2.get k ≤ hi) ∧
      (lo ≤ c.subdivide.1.v3.get k ∧ c.subdivide.1.v3.get k ≤ hi)) ∧
    ((lo ≤ c.subdivide.2.v0.get k ∧ c.subdivide.2.v0.get k ≤ hi) ∧
      (lo ≤ c.subdivide.2.v1.get k ∧ c.subdivide.2.v1.get k ≤ hi) ∧
      (lo ≤ c.subdivide.2.v2.get k ∧ c.subdivide.2.v2.get k ≤ hi) ∧
      (lo ≤ c.subdivide.2.v3.get k ∧ c.subdivide.2.v3.get k ≤ hi)) := by
  fin_cases k <;>
  · simp only [Vec3fa.get, subdivide, Vec3fa.add, Vec3fa.scale] at hv0 hv1 hv2 hv3 ⊢
    have h10 := halfsum_between hv0 hv1
    have h11 := halfsum_between hv1 hv2
    have h12 := halfsum_between hv2 hv3
    have h20 := halfsum_between h10 h11
    have h21 := halfsum_between h11 h12
    have h30 := halfsum_between h20 h21
    exact ⟨⟨hv0, h10, h20, h30⟩, ⟨h30, h21, h12, hv3⟩⟩

/-- The `x,y` extent of `bounds` in terms of lane bounds: if lanes `x`, `y`
of the control points of `c1` lie in the merged box of `c2` and the radii of
`c1` do not exceed the largest radius of `c2`, a box hit for `c1` is one for `c2`. -/
lemma bounds_hit_mono (c1 c2 : BezierCurve3D) (ray : Ray)
    (h : ∀ k : Fin 4,
      (min (min (c2.v0.get k) (c2.v1.get k)) (min (c2.v2.get k) (c2.v3.get k)) ≤ c1.v0.get k ∧
        c1.v0.get k ≤ max (max (c2.v0.get k) (c2.v1.get k)) (max (c2.v2.get k) (c2.v3.get k))) ∧
      (min (min (c2.v0.get k) (c2.v1.get k)) (min (c2.v2.get k) (c2.v3.get k)) ≤ c1.v1.get k ∧
        c1.v1.get k ≤ max (max (c2.v0.get k) (c2.v1.get k)) (max (c2.v2.get k) (c2.v3.get k))) ∧
      (min (min (c2.v0.get k) (c2.v1.get k)) (min (c2.v2.get k) (c2.v3.get k)) ≤ c1.v2.get k ∧
        c1.v2.get k ≤ max (max (c2.v0.get k) (c2.v1.get k)) (max (c2.v2.get k) (c2.v3.get k))) ∧
      (min (min (c2.v0.get k) (c2.v1.get k)) (min (c2.v2.get k) (c2.v3.get k)) ≤ c1.v3.get k ∧
        c1.v3.get k ≤ max (max (c2.v0.get k) (c2.v1.get k)) (max (c2.v2.get k) (c2.v3.get k))))
    (hit : intersect_box c1.bounds ray = true) : intersect_box c2.bounds ray = true := by
  have hx := h 0
  have hy := h 1
  have hw := h 3
  simp only [Vec3fa.get] at hx hy hw
  have hR : max (max c1.v0.w c1.v1.w) (max c1.v2.w c1.v3.w) ≤
      max (max c2.v0.w c2.v1.w) (max c2.v2.w c2.v3.w) :=
    max_le (max_le hw.1.2 hw.2.1.2) (max_le hw.2.2.1.2 hw.2.2.2.2)
  have hmx : min (min c2.v0.x c2.v1.x) (min c2.v2.x c2.v3.x) ≤
      min (min c1.v0.x c1.v1.x) (min c1.v2.x c1.v3.x) :=
    le_min (le_min hx.1.1 hx.2.1.1) (le_min hx.2.2.1.1 hx.2.2.2.1)
  have hmy : min (min c2.v0.y c2.v1.y) (min c2.v2.y c2.v3.y) ≤
      min (min c1.v0.y c1.v1.y) (min c1.v2.y c1.v3.y) :=
    le_min (le_min hy.1.1 hy.2.1.1) (le_min hy.2.2.1.1 hy.2.2.2.1)
  have hMx : max (max c1.v0.x c1.v1.x) (max c1.v2.x c1.v3.x) ≤
      max (max c2.v0.x c2.v1.x) (max c2.v2.x c2.v3.x) :=
    max_le (max_le hx.1.2 hx.2.1.2) (max_le hx.2.2.1.2 hx.2.2.2.2)
  have hMy : max (max c1.v0.y c1.v1.y) (max c1.v2.y c1.v3.y) ≤
      max (max c2.v0.y c2.v1.y) (max c2.v2.y c2.v3.y) :=
    max_le (max_le hy.1.2 hy.2.1.2) (max_le hy.2.2.1.2 hy.2.2.2.2)
  refine intersect_box_mono ray ?_ ?_ ?_ ?_ hit <;>
  · simp only [bounds, BBox3fa.enlarge, BBox3fa.merge4, BBox3fa.merge, BBox3fa.ofPoint,
      Vec3fa.broadcast, Vec3fa.add, Vec3fa.sub, Vec3fa.vmin, Vec3fa.vmax]
    linarith

/-- A box hit for a child of `subdivide` is a box hit for the parent. -/
lemma subdivide_box_hit (c : BezierCurve3D) (ray : Ray) :
    (intersect_box c.subdivide.1.bounds ray = true → intersect_box c.bounds ray = true) ∧
    (intersect_box c.subdivide.2.bounds ray = true → intersect_box c.bounds ray = true) := by
  have hk : ∀ k : Fin 4, _ := fun k =>
    subdivide_between c k
      (min (min (c.v0.get k) (c.v1.get k)) (min (c.v2.get k) (c.v3.get k)))
      (max (max (c.v0.get k) (c.v1.get k)) (max (c.v2.get k) (c.v3.get k)))
      ⟨(min4_le _ _ _ _).1, (le_max4 _ _ _ _).1⟩ ⟨(min4_le _ _ _ _).2.1, (le_max4 _ _ _ _).2.1⟩
      ⟨(min4_le _ _ _ _).2.2.1, (le_max4 _ _ _ _).2.2.1⟩
      ⟨(min4_le _ _ _ _).2.2.2, (le_max4 _ _ _ _).2.2.2⟩
  exact ⟨bounds_hit_mono _ c ray (fun k => (hk k).1), bounds_hit_mono _ c ray (fun k => (hk k).2)⟩

/-- When the box test fails on the bound of the whole ray-space curve, the
stack traversal pops the root, discards both children and ends with no hit. -/
lemma traverse_root_miss (ray : Ray) (c : BezierCurve3D) (st : HitState) (hd : c.depth = 4)
    (hbox : intersect_box c.bounds ray = false) :
    traverse ray 32 32 [c] st = Except.ok st := by
  have h0 : intersect_box c.subdivide.1.bounds ray = false := by
    by_contra h
    have := (subdivide_box_hit c ray).1 (by simpa using h)
    rw [hbox] at this
    exact Bool.noConfusion this
  have h1 : intersect_box c.subdivide.2.bounds ray = false := by
    by_contra h
    have := (subdivide_box_hit c ray).2 (by simpa using h)
    rw [hbox] at this
    exact Bool.noConfusion this
  have hne : ¬ c.depth = 0 := by rw [hd]; decide
  have hdesc : descend ray 32 c [] = Except.ok (none, []) := by
    rw [descend, if_neg hne]
    simp only [h0, h1, Bool.not_false, Bool.and_self, if_true]
  rw [traverse, hdesc]
  simp only [traverse]

/-- A lane that passes the intersect cone test, with radii in `[0, R]` and a
footprint term at most `R`, makes the box test on the bound of the curve succeed. -/
lemma valid_lane_box_hit (ray : Ray) (c : BezierCurve3D) (i : Fin 8)
    (hrad : 0 ≤ c.v0.w ∧ 0 ≤ c.v1.w ∧ 0 ≤ c.v2.w ∧ 0 ≤ c.v3.w)
    (hfoot : ray.org.w + ray.dir.w * (coneIntersect ray (lanes_p0 c) (lanes_p1 c)).t i
      ≤ maxRadius c)
    (hv : (coneIntersect ray (lanes_p0 c) (lanes_p1 c)).valid i = true) :
    intersect_box c.bounds ray = true := by
  have hx := coneIntersect_p_between ray c i 0 _ _
    ⟨(min4_le c.v0.x c.v1.x c.v2.x c.v3.x).1, (le_max4 c.v0.x c.v1.x c.v2.x c.v3.x).1⟩
    ⟨(min4_le c.v0.x c.v1.x c.v2.x c.v3.x).2.1, (le_max4 c.v0.x c.v1.x c.v2.x c.v3.x).2.1⟩
    ⟨(min4_le c.v0.x c.v1.x c.v2.x c.v3.x).2.2.1, (le_max4 c.v0.x c.v1.x c.v2.x c.v3.x).2.2.1⟩
    ⟨(min4_le c.v0.x c.v1.x c.v2.x c.v3.x).2.2.2, (le_max4 c.v0.x c.v1.x c.v2.x c.v3.x).2.2.2⟩
  have hy := coneIntersect_p_between ray c i 1 _ _
    ⟨(min4_le c.v0.y c.v1.y c.v2.y c.v3.y).1, (le_max4 c.v0.y c.v1.y c.v2.y c.v3.y).1⟩
    ⟨(min4_le c.v0.y c.v1.y c.v2.y c.v3.y).2.1, (le_max4 c.v0.y c.v1.y c.v2.y c.v3.y).2.1⟩
    ⟨(min4_le c.v0.y c.v1.y c.v2.y c.v3.y).2.2.1, (le_max4 c.v0.y c.v1.y c.v2.y c.v3.y).2.2.1⟩
    ⟨(min4_le c.v0.y c.v1.y c.v2.y c.v3.y).2.2.2, (le_max4 c.v0.y c.v1.y c.v2.y c.v3.y).2.2.2⟩
  have hw := coneIntersect_p_between ray c i 3
    0 (max (max c.v0.w c.v1.w) (max c.v2.w c.v3.w))
    ⟨hrad.1, (le_max4 c.v0.w c.v1.w c.v2.w c.v3.w).1⟩
    ⟨hrad.2.1, (le_max4 c.v0.w c.v1.w c.v2.w c.v3.w).2.1⟩
    ⟨hrad.2.2.1, (le_max4 c.v0.w c.v1.w c.v2.w c.v3.w).2.2.1⟩
    ⟨hrad.2.2.2, (le_max4 c.v0.w c.v1.w c.v2.w c.v3.w).2.2.2⟩
  simp only [avx4f.lane, Vec3fa.get] at hx hy hw
  have hfoot1 : ray.org.w + ray.dir.w * (coneIntersect ray (lanes_p0 c) (lanes_p1 c)).p.z i
      ≤ max (max c.v0.w c.v1.w) (max c.v2.w c.v3.w) := hfoot
  have hd : (coneIntersect ray (lanes_p0 c) (lanes_p1 c)).p.x i *
        (coneIntersect ray (lanes_p0 c) (lanes_p1 c)).p.x i +
      (coneIntersect ray (lanes_p0 c) (lanes_p1 c)).p.y i *
        (coneIntersect ray (lanes_p0 c) (lanes_p1 c)).p.y i ≤
      max ((coneIntersect ray (lanes_p0 c) (lanes_p1 c)).p.w i)
          (ray.org.w + ray.dir.w * (coneIntersect ray (lanes_p0 c) (lanes_p1 c)).p.z i) *
        max ((coneIntersect ray (lanes_p0 c) (lanes_p1 c)).p.w i)
          (ray.org.w + ray.dir.w * (coneIntersect ray (lanes_p0 c) (lanes_p1 c)).p.z i) := by
    have h := hv
    simp only [coneIntersect, Bool.and_eq_true, decide_eq_true_eq] at h
    exact h.1.1
  generalize (coneIntersect ray (lanes_p0 c) (lanes_p1 c)).p.x i = px at hx hd
  generalize (coneIntersect ray (lanes_p0 c) (lanes_p1 c)).p.y i = py at hy hd
  generalize (coneIntersect ray (lanes_p0 c) (lanes_p1 c)).p.w i = pw at hw hd
  generalize ray.org.w + ray.dir.w * (coneIntersect ray (lanes_p0 c) (lanes_p1 c)).p.z i = ft
    at hfoot1 hd
  have hr0 : 0 ≤ max pw ft := hw.1.trans (le_max_left _ _)
  have hrR : max pw ft ≤ max (max c.v0.w c.v1.w) (max c.v2.w c.v3.w) := max_le hw.2 hfoot1
  generalize max pw ft = r at hd hr0 hrR
  have hxr : -r ≤ px ∧ px ≤ r := by
    constructor <;> nlinarith [mul_self_nonneg py, mul_self_nonneg px]
  have hyr : -r ≤ py ∧ py ≤ r := by
    constructor <;> nlinarith [mul_self_nonneg py, mul_self_nonneg px]
  rw [intersect_box_iff]
  simp only [bounds, BBox3fa.enlarge, BBox3fa.merge4, BBox3fa.merge, BBox3fa.ofPoint,
    Vec3fa.broadcast, Vec3fa.add, Vec3fa.sub, Vec3fa.vmin, Vec3fa.vmax]
  refine ⟨⟨?_, ?_⟩, ?_, ?_⟩ <;> linarith [hx.1, hx.2, hy.1, hy.2, hxr.1, hxr.2, hyr.1, hyr.2]

/-- C10 (as stated, refuted): first, the far sample curve has radii `1`, its
enlarged bound starts at `x = 4`, so the box test fails; the ray with base
footprint radius `10` still gets a hit committed by the batched `intersect`
(lane 0, depth `5`). Second, in binary32 and without footprint: the curve with
`x = 65, 44, 23, 1 + 2^-23` and radius `1` has a bound that starts at
`x = 2^-23`, so the box test fails, yet the batched `intersect` commits lane 7
(its point rounds to `x = 1`, so `d2 = r2`). -/
theorem outside_bound_counterexample :
    ((∀ k, 0 ≤ (farCurve.p k).w) ∧
      intersect_box (curve2D ⟨identitySpace⟩ wideRay farCurve).bounds wideRay = false ∧
      intersect ⟨identitySpace⟩ wideRay farCurve none =
        some { wideRay with u := 0, v := 0, tfar := 5, Ng := ⟨1, 0, 1, 0⟩,
                            geomID := 7, primID := 3 }) ∧
    ((∀ k, 0 ≤ (grazeCurve.p k).w) ∧ sampleRay.org.w = 0 ∧ sampleRay.dir.w = 0 ∧
      (curve2D32 ⟨identitySpace⟩ sampleRay grazeCurve).bounds32.lower.x = 1 / 8388608 ∧
      intersect_box (curve2D32 ⟨identitySpace⟩ sampleRay grazeCurve).bounds32 sampleRay = false ∧
      intersect32 ⟨identitySpace⟩ sampleRay grazeCurve =
        some { sampleRay with u := 1, v := 0, tfar := 5, Ng := ⟨-22, 0, 0, 0⟩,
                              geomID := 7, primID := 3 }) := by
  decide!

/-- C10 (amended, over exact arithmetic): for every ray and every curve with
non-negative radii, if `intersect_box` applied to `bounds()` of the ray-space
curve is false, then the recursive `intersect` returns the ray unchanged, and so
does the batched `intersect` provided the footprint term
`ray.org.w + ray.dir.w * t` of every lane is at most the largest control-point
radius (as it is when both footprint terms are zero). -/
theorem outside_bound_no_hit (pre : Precalculations) (ray : Ray) (curve_in : Bezier1i)
    (hrad : ∀ k, 0 ≤ (curve_in.p k).w)
    (hbox : intersect_box (curve2D pre ray curve_in).bounds ray = false) :
    intersect_recursive pre.ray_space ray curve_in = Except.ok ray ∧
    ((∀ i, ray.org.w + ray.dir.w * (intersectCone pre ray curve_in).t i
        ≤ maxRadius (curve2D pre ray curve_in)) →
      intersect pre ray curve_in none = some ray) ∧
    (ray.org.w = 0 → ray.dir.w = 0 → intersect pre ray curve_in none = some ray) := by
  have hA : (∀ i, ray.org.w + ray.dir.w * (intersectCone pre ray curve_in).t i
        ≤ maxRadius (curve2D pre ray curve_in)) →
      intersect pre ray curve_in none = some ray := by
    intro hfoot
    rcases intersect_spec pre ray curve_in with ⟨_, hres⟩ | ⟨i, hgood, _, _⟩
    · exact hres
    · have := valid_lane_box_hit ray (curve2D pre ray curve_in) i
        ⟨hrad 0, hrad 1, hrad 2, hrad 3⟩ (hfoot i) hgood.1
      rw [hbox] at this
      exact Bool.noConfusion this
  refine ⟨?_, hA, fun horg hdir => hA (fun i => ?_)⟩
  · have h := traverse_root_miss ray (curve2D pre ray curve_in) ⟨0, ray.tfar, false⟩ rfl hbox
    unfold intersect_recursive
    unfold curve2D at h
    simp only [h]
    rfl
  · rw [horg, hdir, zero_mul, add_zero]
    exact (hrad 0).trans (le_max4 _ _ _ _).1

/-- Witness for C10: the sample ray without footprint and the far sample curve. -/
theorem outside_bound_no_hit_witness :
    (∀ k, 0 ≤ (farCurve.p k).w) ∧
    intersect_box (curve2D ⟨identitySpace⟩ sampleRay farCurve).bounds sampleRay = false ∧
    intersect_recursive identitySpace sampleRay farCurve = Except.ok sampleRay ∧
    ((∀ i, sampleRay.org.w + sampleRay.dir.w * (intersectCone ⟨identitySpace⟩ sampleRay farCurve).t i
        ≤ maxRadius (curve2D ⟨identitySpace⟩ sampleRay farCurve)) →
      intersect ⟨identitySpace⟩ sampleRay farCurve none = some sampleRay) ∧
    (sampleRay.org.w = 0 → sampleRay.dir.w = 0 →
      intersect ⟨identitySpace⟩ sampleRay farCurve none = some sampleRay) :=
  ⟨by decide!, by decide!,
    outside_bound_no_hit ⟨identitySpace⟩ sampleRay farCurve (by decide!) (by decide!)⟩

/-! ### Hit parameters and the occlusion radius -/

/-- The local parameter of every lane is clamped to `[0,1]`. -/
lemma coneIntersect_u_bounds (ray : Ray) (p0 p1 : avx4f) (i : Fin 8) :
    0 ≤ (coneIntersect ray p0 p1).u i ∧ (coneIntersect ray p0 p1).u i ≤ 1 :=
  clampQuot_bounds _ _

/-- The value `clampQuot` picks minimises the squared distance to the origin
along the chord from `a` to `a + v`. -/
lemma clampQuot_closest (ax ay vx vy s : ℚ) (hs0 : 0 ≤ s) (hs1 : s ≤ 1) :
    (ax + clampQuot (-ax * vx + -ay * vy) (vx * vx + vy * vy) * vx) ^ 2 +
      (ay + clampQuot (-ax * vx + -ay * vy) (vx * vx + vy * vy) * vy) ^ 2 ≤
    (ax + s * vx) ^ 2 + (ay + s * vy) ^ 2 := by
  by_cases hd : vx * vx + vy * vy = 0
  · have hx : vx = 0 := by nlinarith [mul_self_nonneg vx, mul_self_nonneg vy]
    have hy : vy = 0 := by nlinarith [mul_self_nonneg vx, mul_self_nonneg vy]
    subst hx hy
    simp
  · have hpos : 0 < vx * vx + vy * vy :=
      lt_of_le_of_ne (add_nonneg (mul_self_nonneg _) (mul_self_nonneg _)) (Ne.symm hd)
    rw [clampQuot_of_ne _ hd]
    set d1 := vx * vx + vy * vy with hd1
    set q := (-ax * vx + -ay * vy) / d1 with hq
    have hd0 : -ax * vx + -ay * vy = q * d1 := by rw [hq]; field_simp
    have key : ∀ u : ℚ, (ax + s * vx) ^ 2 + (ay + s * vy) ^ 2 -
        ((ax + u * vx) ^ 2 + (ay + u * vy) ^ 2) = d1 * ((s - u) * (s + u - 2 * q)) := by
      intro u
      have : (ax + s * vx) ^ 2 + (ay + s * vy) ^ 2 - ((ax + u * vx) ^ 2 + (ay + u * vy) ^ 2) =
          (s - u) * ((s + u) * d1 - 2 * (-ax * vx + -ay * vy)) := by rw [hd1]; ring
      rw [this, hd0]; ring
    have goal : 0 ≤ d1 * ((s - clamp q 0 1) * (s + clamp q 0 1 - 2 * q)) := by
      apply mul_nonneg (le_of_lt hpos)
      unfold clamp
      rcases le_total q 0 with h | h
      · rw [min_eq_left (h.trans zero_le_one), max_eq_left h]
        nlinarith
      · rcases le_total q 1 with h1 | h1
        · rw [min_eq_left h1, max_eq_right h]
          nlinarith [mul_self_nonneg (s - q)]
        · rw [min_eq_right h1, max_eq_right zero_le_one]
          nlinarith
    have := key (clamp q 0 1)
    linarith

/-- C5 (amended, over exact arithmetic): in the batched `intersect`, for every
lane `i` with ray-space segment end points `p0 = curve2D(i/8)` and `p1 = curve2D((i+1)/8)`:
the local parameter is `u = clamp((-p0 . (p1-p0))_xy / |p1-p0|^2_xy, 0, 1)` when
`p0` and `p1` differ in `x` or `y`, and `u = 1` when they agree in both (the
quotient of the source is then `0/0`); `u` lies in `[0,1]`; the point
`p = p0 + u (p1-p0)` is a point of the chord closest to the ray axis in `x, y`,
its depth is `t = p.z`, the radius is `r = max(p.w, ray.org.w + ray.dir.w * p.z)`,
and the lane is valid exactly when `p.x^2 + p.y^2 <= r^2` and
`tnear < p.z < tfar`. -/
theorem cone_test_lane (pre : Precalculations) (ray : Ray) (curve_in : Bezier1i) (i : Fin 8) :
    (lanes_p0 (curve2D pre ray curve_in)).lane i =
      ((curve2D pre ray curve_in).eval ((i.val : ℚ) / 8)).1 ∧
    (lanes_p1 (curve2D pre ray curve_in)).lane i =
      ((curve2D pre ray curve_in).eval (((i.val : ℚ) + 1) / 8)).1 ∧
    (∀ p0 p1 : Vec3fa, p0 = (lanes_p0 (curve2D pre ray curve_in)).lane i →
      p1 = (lanes_p1 (curve2D pre ray curve_in)).lane i →
      ((p1.x ≠ p0.x ∨ p1.y ≠ p0.y) →
        (intersectCone pre ray curve_in).u i =
          max 0 (min (((-p0.x) * (p1.x - p0.x) + (-p0.y) * (p1.y - p0.y)) /
            ((p1.x - p0.x) * (p1.x - p0.x) + (p1.y - p0.y) * (p1.y - p0.y))) 1)) ∧
      ((p1.x = p0.x ∧ p1.y = p0.y) → (intersectCone pre ray curve_in).u i = 1) ∧
      (intersectCone pre ray curve_in).p.lane i =
        p0.add (Vec3fa.lscale ((intersectCone pre ray curve_in).u i) (p1.sub p0)) ∧
      (∀ s : ℚ, 0 ≤ s → s ≤ 1 →
        ((intersectCone pre ray curve_in).p.x i) ^ 2 +
            ((intersectCone pre ray curve_in).p.y i) ^ 2 ≤
          (p0.x + s * (p1.x - p0.x)) ^ 2 + (p0.y + s * (p1.y - p0.y)) ^ 2)) ∧
    (0 ≤ (intersectCone pre ray curve_in).u i ∧ (intersectCone pre ray curve_in).u i ≤ 1) ∧
    (intersectCone pre ray curve_in).t i = (intersectCone pre ray curve_in).p.z i ∧
    (intersectCone pre ray curve_in).r i =
      max ((intersectCone pre ray curve_in).p.w i)
        (ray.org.w + ray.dir.w * (intersectCone pre ray curve_in).p.z i) ∧
    ((intersectCone pre ray curve_in).valid i = true ↔
      ((intersectCone pre ray curve_in).p.x i) ^ 2 + ((intersectCone pre ray curve_in).p.y i) ^ 2
          ≤ ((intersectCone pre ray curve_in).r i) ^ 2 ∧
        ray.tnear < (intersectCone pre ray curve_in).p.z i ∧
        (intersectCone pre ray curve_in).p.z i < ray.tfar) := by
  refine ⟨lanes_p0_lane _ i, lanes_p1_lane _ i, ?_, coneIntersect_u_bounds _ _ _ i, rfl, rfl, ?_⟩
  · intro p0 p1 h0 h1
    have hu : (intersectCone pre ray curve_in).u i =
        clampQuot ((-p0.x) * (p1.x - p0.x) + (-p0.y) * (p1.y - p0.y))
          ((p1.x - p0.x) * (p1.x - p0.x) + (p1.y - p0.y) * (p1.y - p0.y)) := by
      rw [h0, h1]; rfl
    have hp : (intersectCone pre ray curve_in).p.lane i =
        p0.add (Vec3fa.lscale ((intersectCone pre ray curve_in).u i) (p1.sub p0)) := by
      rw [h0, h1]; rfl
    refine ⟨?_, ?_, hp, ?_⟩
    · intro hdiff
      have hne : (p1.x - p0.x) * (p1.x - p0.x) + (p1.y - p0.y) * (p1.y - p0.y) ≠ 0 := by
        intro h0
        have hx : p1.x - p0.x = 0 := by
          nlinarith [mul_self_nonneg (p1.x - p0.x), mul_self_nonneg (p1.y - p0.y)]
        have hy : p1.y - p0.y = 0 := by
          nlinarith [mul_self_nonneg (p1.x - p0.x), mul_self_nonneg (p1.y - p0.y)]
        rcases hdiff with h | h
        · exact h (sub_eq_zero.1 hx)
        · exact h (sub_eq_zero.1 hy)
      rw [hu, clampQuot_of_ne _ hne]; rfl
    · rintro ⟨ex, ey⟩
      rw [hu, ex, ey]
      simp [clampQuot]
    · intro s hs0 hs1
      have hx : (intersectCone pre ray curve_in).p.x i =
          p0.x + (intersectCone pre ray curve_in).u i * (p1.x - p0.x) :=
        congrArg Vec3fa.x hp
      have hy : (intersectCone pre ray curve_in).p.y i =
          p0.y + (intersectCone pre ray curve_in).u i * (p1.y - p0.y) :=
        congrArg Vec3fa.y hp
      rw [hx, hy, hu]
      exact clampQuot_closest p0.x p0.y (p1.x - p0.x) (p1.y - p0.y) s hs0 hs1
  · simp only [intersectCone, coneIntersect, Bool.and_eq_true, decide_eq_true_eq, pow_two,
      and_assoc]

/-- The hit parameter of lane `i` lies in `[i/8, (i+1)/8]`, inside `[0,1]`. -/
lemma hitParam_bounds (u : avxf) (i : Fin 8) (h0 : 0 ≤ u i) (h1 : u i ≤ 1) :
    hitParam u i = ((i.val : ℚ) + u i) / 8 ∧
    (i.val : ℚ) / 8 ≤ hitParam u i ∧ hitParam u i ≤ ((i.val : ℚ) + 1) / 8 ∧
    0 ≤ hitParam u i ∧ hitParam u i ≤ 1 := by
  obtain ⟨a0, _, _, b1⟩ := lane_param_bounds i
  have e : hitParam u i = ((i.val : ℚ) + u i) / 8 := by unfold hitParam; ring
  rw [e]
  refine ⟨rfl, ?_, ?_, ?_, ?_⟩ <;> linarith

/-- The filter loop returns the ray unchanged or with the hit of one lane committed. -/
lemma filterLoop_result (f : Filter) (curve_in : Bezier1i) (u t : avxf) (ray : Ray) :
    ∀ (n : ℕ) (i : Fin 8) (valid : avxb) (ray1 : Ray),
      filterLoop f curve_in u t ray n i valid = some ray1 →
      ray1 = ray ∨ ∃ j, ray1 = commitHit ray (hitParam u j) (t j)
        (tangentAt curve_in (hitParam u j)) curve_in := by
  intro n
  induction n with
  | zero => intro i valid ray1 h; simp [filterLoop] at h
  | succ n ih =>
    intro i valid ray1 h
    rw [filterLoop] at h
    simp only [runIntersectionFilter1] at h
    by_cases hf : f ray (hitParam u i) 0 (t i) (tangentAt curve_in (hitParam u i))
        curve_in.geomID curve_in.primID = true
    · simp only [hf, if_true] at h
      exact Or.inr ⟨i, (Option.some.inj h).symm⟩
    · simp only [hf, Bool.false_eq_true, if_false] at h
      by_cases hn : avxb_none (clearLane valid i) = true
      · simp only [hn, if_true] at h
        exact Or.inl (Option.some.inj h).symm
      · simp only [hn, Bool.false_eq_true, if_false] at h
        exact ih _ _ _ h

/-- The batched `intersect`, with or without filter, returns the ray unchanged
or with the hit of one lane committed. -/
lemma intersect_result (pre : Precalculations) (ray : Ray) (curve_in : Bezier1i)
    (filter : Option Filter) (ray1 : Ray) (h : intersect pre ray curve_in filter = some ray1) :
    ray1 = ray ∨ ∃ j, ray1 = commitHit ray (hitParam (intersectCone pre ray curve_in).u j)
      ((intersectCone pre ray curve_in).t j)
      (tangentAt curve_in (hitParam (intersectCone pre ray curve_in).u j)) curve_in := by
  cases filter with
  | none =>
    rcases intersect_spec pre ray curve_in with ⟨_, hres⟩ | ⟨i, _, _, hres⟩
    · rw [hres] at h
      exact Or.inl (Option.some.inj h).symm
    · rw [hres] at h
      exact Or.inr ⟨i, (Option.some.inj h).symm⟩
  | some f =>
    unfold intersect at h
    simp only at h
    by_cases hn : avxb_none (coneIntersect ray (lanes_p0 (curve2D pre ray curve_in))
        (lanes_p1 (curve2D pre ray curve_in))).valid = true
    · rw [if_pos hn] at h
      exact Or.inl (Option.some.inj h).symm
    · rw [if_neg hn] at h
      exact filterLoop_result f curve_in _ _ ray 8 _ _ ray1 h

/-- C18: every hit parameter committed by the batched `intersect` (with or
without filter) lies in the domain of the curve: for the committed lane `i` the
clamped local parameter satisfies `0 <= u_i <= 1`, so `ray.u = (i + u_i)/8` lies
in `[i/8, (i+1)/8]`, inside `[0,1]`, and the committed normal is the tangent of
the untransformed curve at that same value. -/
theorem committed_parameter_in_domain (pre : Precalculations) (ray : Ray)
    (curve_in : Bezier1i) (filter : Option Filter) (ray1 : Ray)
    (h : intersect pre ray curve_in filter = some ray1) (hne : ray1 ≠ ray) :
    ∃ i : Fin 8,
      0 ≤ (intersectCone pre ray curve_in).u i ∧ (intersectCone pre ray curve_in).u i ≤ 1 ∧
      ray1.u = ((i.val : ℚ) + (intersectCone pre ray curve_in).u i) / 8 ∧
      (i.val : ℚ) / 8 ≤ ray1.u ∧ ray1.u ≤ ((i.val : ℚ) + 1) / 8 ∧
      0 ≤ ray1.u ∧ ray1.u ≤ 1 ∧
      ray1.Ng = tangentAt curve_in ray1.u := by
  rcases intersect_result pre ray curve_in filter ray1 h with he | ⟨i, he⟩
  · exact absurd he hne
  · obtain ⟨hu0, hu1⟩ := coneIntersect_u_bounds ray (lanes_p0 (curve2D pre ray curve_in))
      (lanes_p1 (curve2D pre ray curve_in)) i
    obtain ⟨e, a, b, c, d⟩ := hitParam_bounds (intersectCone pre ray curve_in).u i hu0 hu1
    have hu : ray1.u = hitParam (intersectCone pre ray curve_in).u i := by rw [he]; rfl
    have hN : ray1.Ng = tangentAt curve_in (hitParam (intersectCone pre ray curve_in).u i) := by
      rw [he]; rfl
    refine ⟨i, hu0, hu1, hu.trans e, ?_, ?_, ?_, ?_, ?_⟩
    · rw [hu]; exact a
    · rw [hu]; exact b
    · rw [hu]; exact c
    · rw [hu]; exact d
    · rw [hN, hu]

/-- Witness for C18: the sample ray against the sloped sample curve, with a
filter that accepts the first candidate. -/
theorem committed_parameter_in_domain_witness :
    intersect ⟨identitySpace⟩ sampleRay slopeCurve (some acceptAll) =
        some (commitHit sampleRay (3 / 8) (41 / 8) ⟨2, 0, 1, 0⟩ slopeCurve) ∧
    commitHit sampleRay (3 / 8) (41 / 8) ⟨2, 0, 1, 0⟩ slopeCurve ≠ sampleRay ∧
    ∃ i : Fin 8,
      0 ≤ (intersectCone ⟨identitySpace⟩ sampleRay slopeCurve).u i ∧
      (intersectCone ⟨identitySpace⟩ sampleRay slopeCurve).u i ≤ 1 ∧
      (commitHit sampleRay (3 / 8) (41 / 8) ⟨2, 0, 1, 0⟩ slopeCurve).u =
        ((i.val : ℚ) + (intersectCone ⟨identitySpace⟩ sampleRay slopeCurve).u i) / 8 ∧
      (i.val : ℚ) / 8 ≤ (commitHit sampleRay (3 / 8) (41 / 8) ⟨2, 0, 1, 0⟩ slopeCurve).u ∧
      (commitHit sampleRay (3 / 8) (41 / 8) ⟨2, 0, 1, 0⟩ slopeCurve).u ≤ ((i.val : ℚ) + 1) / 8 ∧
      0 ≤ (commitHit sampleRay (3 / 8) (41 / 8) ⟨2, 0, 1, 0⟩ slopeCurve).u ∧
      (commitHit sampleRay (3 / 8) (41 / 8) ⟨2, 0, 1, 0⟩ slopeCurve).u ≤ 1 ∧
      (commitHit sampleRay (3 / 8) (41 / 8) ⟨2, 0, 1, 0⟩ slopeCurve).Ng =
        tangentAt slopeCurve (commitHit sampleRay (3 / 8) (41 / 8) ⟨2, 0, 1, 0⟩ slopeCurve).u :=
  ⟨by decide!, by decide!,
    committed_parameter_in_domain ⟨identitySpace⟩ sampleRay slopeCurve (some acceptAll) _
      (by decide!) (by decide!)⟩

/-- With non-negative radii, footprint terms and `tnear`, a lane that passes
the cone test of `intersect` passes the cone test of `occluded`. -/
lemma cone_valid_imp (ray : Ray) (c : BezierCurve3D)
    (hrad : 0 ≤ c.v0.w ∧ 0 ≤ c.v1.w ∧ 0 ≤ c.v2.w ∧ 0 ≤ c.v3.w)
    (horg : 0 ≤ ray.org.w) (hdir : 0 ≤ ray.dir.w) (hnear : 0 ≤ ray.tnear) (i : Fin 8)
    (hv : (coneIntersect ray (lanes_p0 c) (lanes_p1 c)).valid i = true) :
    (coneOccluded ray (lanes_p0 c) (lanes_p1 c)).valid i = true := by
  have hw := (coneIntersect_p_between ray c i 3
    0 (max (max c.v0.w c.v1.w) (max c.v2.w c.v3.w))
    ⟨hrad.1, (le_max4 c.v0.w c.v1.w c.v2.w c.v3.w).1⟩
    ⟨hrad.2.1, (le_max4 c.v0.w c.v1.w c.v2.w c.v3.w).2.1⟩
    ⟨hrad.2.2.1, (le_max4 c.v0.w c.v1.w c.v2.w c.v3.w).2.2.1⟩
    ⟨hrad.2.2.2, (le_max4 c.v0.w c.v1.w c.v2.w c.v3.w).2.2.2⟩).1
  simp only [coneIntersect, avx4f.lane, Vec3fa.get] at hw
  simp only [coneIntersect, coneOccluded, Bool.and_eq_true, decide_eq_true_eq] at hv ⊢
  obtain ⟨⟨hd, hn⟩, hf⟩ := hv
  refine ⟨⟨?_, hn⟩, hf⟩
  have ht : 0 ≤ ray.dir.w * ((lanes_p0 c).add (avx4f.lscale (fun i =>
      clampQuot ((lanes_p0 c).neg.x i * ((lanes_p1 c).sub (lanes_p0 c)).x i +
          (lanes_p0 c).neg.y i * ((lanes_p1 c).sub (lanes_p0 c)).y i)
        (((lanes_p1 c).sub (lanes_p0 c)).x i * ((lanes_p1 c).sub (lanes_p0 c)).x i +
          ((lanes_p1 c).sub (lanes_p0 c)).y i * ((lanes_p1 c).sub (lanes_p0 c)).y i))
      ((lanes_p1 c).sub (lanes_p0 c)))).z i :=
    mul_nonneg hdir (le_of_lt (lt_of_le_of_lt hnear hn))
  refine hd.trans ?_
  apply mul_self_le_mul_self (hw.trans (le_max_left _ _))
  apply max_le <;> linarith

/-- C19: for every curve with non-negative control-point radii and every ray
with `ray.org.w >= 0`, `ray.dir.w >= 0` and `tnear >= 0`, without filter: every
lane valid under the intersect radius `max(p.w, org.w + dir.w*t)` is valid under
the occlusion radius `p.w + org.w + dir.w*t`, and so whenever the batched
`intersect` run on the ray commits a hit the batched `occluded` returns true. -/
theorem intersect_hit_implies_occluded (pre : Precalculations) (ray : Ray)
    (curve_in : Bezier1i) (hrad : ∀ k, 0 ≤ (curve_in.p k).w)
    (horg : 0 ≤ ray.org.w) (hdir : 0 ≤ ray.dir.w) (hnear : 0 ≤ ray.tnear) :
    (∀ i, (intersectCone pre ray curve_in).valid i = true →
      (occludedCone pre ray curve_in).valid i = true) ∧
    ∃ ray1, intersect pre ray curve_in none = some ray1 ∧
      (ray1 ≠ ray → occluded pre ray curve_in none = some true) := by
  have hlane : ∀ i, (intersectCone pre ray curve_in).valid i = true →
      (occludedCone pre ray curve_in).valid i = true := fun i hv =>
    cone_valid_imp ray (curve2D pre ray curve_in) ⟨hrad 0, hrad 1, hrad 2, hrad 3⟩
      horg hdir hnear i hv
  refine ⟨hlane, ?_⟩
  rcases intersect_spec pre ray curve_in with ⟨_, hres⟩ | ⟨i, hgood, _, hres⟩
  · exact ⟨ray, hres, fun h => absurd rfl h⟩
  · refine ⟨_, hres, fun _ => ?_⟩
    have hocc := hlane i hgood.1
    have hn : avxb_none (occludedCone pre ray curve_in).valid = false := by
      by_contra hc
      have := avxb_none_eq_true (by simpa using hc) i
      rw [hocc] at this
      exact Bool.noConfusion this
    unfold occluded
    unfold occludedCone at hn
    simp only [hn, Bool.false_eq_true, if_false]

/-- Witness for C19: the ray with base footprint radius `10` against the far
sample curve; `intersect` commits a hit and `occluded` returns true. -/
theorem intersect_hit_implies_occluded_witness :
    (∀ k, 0 ≤ (farCurve.p k).w) ∧ 0 ≤ wideRay.org.w ∧ 0 ≤ wideRay.dir.w ∧ 0 ≤ wideRay.tnear ∧
    (∀ i, (intersectCone ⟨identitySpace⟩ wideRay farCurve).valid i = true →
      (occludedCone ⟨identitySpace⟩ wideRay farCurve).valid i = true) ∧
    ∃ ray1, intersect ⟨identitySpace⟩ wideRay farCurve none = some ray1 ∧
      (ray1 ≠ wideRay → occluded ⟨identitySpace⟩ wideRay farCurve none = some true) :=
  ⟨by decide!, by decide!, by decide!, by decide!,
    intersect_hit_implies_occluded ⟨identitySpace⟩ wideRay farCurve (by decide!) (by decide!)
      (by decide!) (by decide!)⟩

/-! ### The batch overload of `intersect` -/

/-- A ray that differs from `ray` only in a smaller `tfar` (and in the hit
fields) has the same cone values, and its valid lanes are the valid lanes of
`ray` whose depth is below the smaller `tfar`. -/
lemma intersectCone_same_query (pre : Precalculations) (ray ray1 : Ray) (c : Bezier1i)
    (ho : ray1.org = ray.org) (hd : ray1.dir = ray.dir) (hn : ray1.tnear = ray.tnear)
    (hf : ray1.tfar ≤ ray.tfar) :
    (intersectCone pre ray1 c).u = (intersectCone pre ray c).u ∧
    (intersectCone pre ray1 c).t = (intersectCone pre ray c).t ∧
    ∀ i, ((intersectCone pre ray1 c).valid i = true ↔
      (intersectCone pre ray c).valid i = true ∧ (intersectCone pre ray c).t i < ray1.tfar) := by
  have hc : curve2D pre ray1 c = curve2D pre ray c := by
    simp only [curve2D, toRaySpace, ho]
  unfold intersectCone
  rw [hc]
  simp only [coneIntersect, ho, hd, hn, Bool.and_eq_true, decide_eq_true_eq]
  refine ⟨trivial, trivial, fun i => ⟨fun h => ⟨⟨h.1, lt_of_lt_of_le h.2 hf⟩, h.2⟩,
    fun h => ⟨h.1.1, h.2⟩⟩⟩

/-- The batch overload, started from a ray that differs from `ray` only in a
smaller `tfar`: it returns, keeps `org`, `dir`, `tnear`, and its final `tfar` is
the least of the starting `tfar` and the candidate depths measured against `ray`. -/
lemma intersectN_nearest (pre : Precalculations) (ray : Ray) :
    ∀ (cs : List Bezier1i) (ray1 : Ray), ray1.org = ray.org → ray1.dir = ray.dir →
      ray1.tnear = ray.tnear → ray1.tfar ≤ ray.tfar →
      ∃ rayN, intersectN pre none ray1 cs = some rayN ∧
        IsLeast {x | x = ray1.tfar ∨ candidateDepth pre ray cs x} rayN.tfar := by
  intro cs
  induction cs with
  | nil =>
    intro ray1 _ _ _ _
    refine ⟨ray1, rfl, Or.inl rfl, ?_⟩
    rintro x (hx | ⟨c, hc, _⟩)
    · exact le_of_eq hx.symm
    · exact absurd hc (List.not_mem_nil c)
  | cons c cs ih =>
    intro ray1 ho hd hn hf
    obtain ⟨hu, ht, hv⟩ := intersectCone_same_query pre ray ray1 c ho hd hn hf
    have hgood : ∀ j, goodLane c (intersectCone pre ray1 c).u (intersectCone pre ray1 c).valid j ↔
        goodLane c (intersectCone pre ray c).u (intersectCone pre ray c).valid j ∧
          (intersectCone pre ray c).t j < ray1.tfar := by
      intro j
      unfold goodLane
      rw [hv j, hu]
      tauto
    rcases intersect_spec pre ray1 c with ⟨hno, hres⟩ | ⟨i, hgi, hmin, hres⟩
    · obtain ⟨rayN, hN, hmem, hlow⟩ := ih ray1 ho hd hn hf
      refine ⟨rayN, ?_, ?_, ?_⟩
      · simp only [intersectN, hres, hN]
      · rcases hmem with h | ⟨c1, hc1, hx⟩
        · exact Or.inl h
        · exact Or.inr ⟨c1, List.mem_cons_of_mem _ hc1, hx⟩
      · rintro x (hx | ⟨c1, hc1, j, hj, hx⟩)
        · exact hlow (Or.inl hx)
        · rcases List.mem_cons.1 hc1 with he | hin
          · subst he
            have hnot : ¬ (intersectCone pre ray c1).t j < ray1.tfar := fun hlt =>
              hno ⟨j, (hgood j).2 ⟨hj, hlt⟩⟩
            rw [hx]
            exact (hlow (Or.inl rfl)).trans (not_lt.1 hnot)
          · exact hlow (Or.inr ⟨c1, hin, j, hj, hx⟩)
    · have hgi1 := (hgood i).1 hgi
      have htf : (commitHit ray1 (hitParam (intersectCone pre ray1 c).u i)
          ((intersectCone pre ray1 c).t i)
          (tangentAt c (hitParam (intersectCone pre ray1 c).u i)) c).tfar =
          (intersectCone pre ray c).t i := by
        rw [← ht]; rfl
      obtain ⟨rayN, hN, hmem, hlow⟩ := ih (commitHit ray1 (hitParam (intersectCone pre ray1 c).u i)
          ((intersectCone pre ray1 c).t i)
          (tangentAt c (hitParam (intersectCone pre ray1 c).u i)) c) ho hd hn
          (by rw [htf]; exact (le_of_lt hgi1.2).trans hf)
      rw [htf] at hmem hlow
      refine ⟨rayN, ?_, ?_, ?_⟩
      · simp only [intersectN, hres, hN]
      · rcases hmem with h | ⟨c1, hc1, hx⟩
        · exact Or.inr ⟨c, List.mem_cons_self _ _, i, hgi1.1, h⟩
        · exact Or.inr ⟨c1, List.mem_cons_of_mem _ hc1, hx⟩
      · have hle : rayN.tfar ≤ (intersectCone pre ray c).t i := hlow (Or.inl rfl)
        rintro x (hx | ⟨c1, hc1, j, hj, hx⟩)
        · rw [hx]
          exact hle.trans (le_of_lt hgi1.2)
        · rcases List.mem_cons.1 hc1 with he | hin
          · subst he
            rw [hx]
            by_cases hlt : (intersectCone pre ray c1).t j < ray1.tfar
            · have := hmin j ((hgood j).2 ⟨hj, hlt⟩)
              rw [ht] at this
              exact hle.trans this
            · exact hle.trans ((le_of_lt hgi1.2).trans (not_lt.1 hlt))
          · exact hlow (Or.inr ⟨c1, hin, j, hj, hx⟩)

/-- The batch overload is the monadic left fold of the single-curve `intersect`. -/
lemma intersectN_eq_foldlM (pre : Precalculations) (filter : Option Filter) :
    ∀ (cs : List Bezier1i) (ray : Ray),
      intersectN pre filter ray cs = List.foldlM (fun r c => intersect pre r c filter) ray cs := by
  intro cs
  induction cs with
  | nil => intro ray; rfl
  | cons c cs ih =>
    intro ray
    rw [List.foldlM_cons, intersectN]
    cases h : intersect pre ray c filter with
    | none => rfl
    | some r => simp only [ih r, Option.bind_eq_bind, Option.some_bind]

/-- C11: without filter, the batch overload of `intersect` is the
left-to-right fold of the single-curve `intersect` over the whole list (no
early exit); it returns, and the final `tfar` is the least element of the
pre-call `tfar` together with the depths of all lanes, over all curves of the
list, that are valid against the pre-call ray and have a non-zero tangent; the
final `tfar` is the same for every reordering of the list. -/
theorem intersectN_global_nearest (pre : Precalculations) (ray : Ray) (cs : List Bezier1i) :
    intersectN pre none ray cs = List.foldlM (fun r c => intersect pre r c none) ray cs ∧
    ∃ rayN, intersectN pre none ray cs = some rayN ∧
      IsLeast {x | x = ray.tfar ∨ candidateDepth pre ray cs x} rayN.tfar ∧
      ∀ cs1, cs.Perm cs1 →
        ∃ rayM, intersectN pre none ray cs1 = some rayM ∧ rayM.tfar = rayN.tfar := by
  refine ⟨intersectN_eq_foldlM pre none cs ray, ?_⟩
  obtain ⟨rayN, hN, hleast⟩ := intersectN_nearest pre ray cs ray rfl rfl rfl (le_refl _)
  refine ⟨rayN, hN, hleast, fun cs1 hperm => ?_⟩
  obtain ⟨rayM, hM, hleastM⟩ := intersectN_nearest pre ray cs1 ray rfl rfl rfl (le_refl _)
  refine ⟨rayM, hM, ?_⟩
  have hset : {x | x = ray.tfar ∨ candidateDepth pre ray cs1 x} =
      {x | x = ray.tfar ∨ candidateDepth pre ray cs x} := by
    ext x
    simp only [Set.mem_setOf_eq, candidateDepth]
    constructor
    · rintro (h | ⟨c, hc, hx⟩)
      · exact Or.inl h
      · exact Or.inr ⟨c, hperm.mem_iff.2 hc, hx⟩
    · rintro (h | ⟨c, hc, hx⟩)
      · exact Or.inl h
      · exact Or.inr ⟨c, hperm.mem_iff.1 hc, hx⟩
  rw [hset] at hleastM
  exact hleastM.unique hleast

/-! ### The filter loops -/

lemma clearLane_valid {valid : avxb} {i j : Fin 8} (h : clearLane valid i j = true) :
    valid j = true ∧ j ≠ i := by
  unfold clearLane at h
  by_cases hj : j = i
  · simp [hj] at h
  · simp only [hj, if_false] at h
    exact ⟨h, hj⟩

lemma nodup_length_le_eight (tr : List (Fin 8)) (h : tr.Nodup) : tr.length ≤ 8 := by
  have := List.Nodup.length_le_card h
  simpa using this

/-- The log of the loop started at a valid lane of least depth, with fuel for
every valid lane. -/
lemma offerLoop_spec (accept : Fin 8 → Bool) (t : avxf) :
    ∀ (n : ℕ) (i : Fin 8) (valid : avxb), valid i = true →
      (∀ j, valid j = true → t i ≤ t j) → laneCount valid ≤ n →
      ∃ acc tr, offerLoop accept t n i valid = some (acc, tr) ∧ tr.head? = some i ∧
        OfferOrder accept t valid acc tr := by
  intro n
  induction n with
  | zero =>
    intro i valid hi _ hc
    have : 0 < laneCount valid := by
      unfold laneCount
      exact Finset.card_pos.2 ⟨i, by simp [hi]⟩
    omega
  | succ n ih =>
    intro i valid hi hmin hc
    by_cases ha : accept i = true
    · refine ⟨some i, [i], ?_, rfl, ?_⟩
      · rw [offerLoop, if_pos ha]
      · refine ⟨List.nodup_singleton i, ?_, List.pairwise_singleton _ _, by simp, ?_, ?_⟩
        · intro j hj
          rw [List.mem_singleton.1 hj]; exact hi
        · intro j hj
          have : i = j := Option.some.inj hj
          subst this
          exact ⟨[], rfl, fun k hk => absurd hk (List.not_mem_nil k), ha⟩
        · intro h; exact Option.noConfusion h
    · have ha1 : accept i = false := by simpa using ha
      by_cases hn : avxb_none (clearLane valid i) = true
      · refine ⟨none, [i], ?_, rfl, ?_⟩
        · rw [offerLoop, if_neg ha]
          simp only [hn, if_true]
        · refine ⟨List.nodup_singleton i, ?_, List.pairwise_singleton _ _, by simp, ?_, ?_⟩
          · intro j hj
            rw [List.mem_singleton.1 hj]; exact hi
          · intro j hj; exact Option.noConfusion hj
          · intro _
            refine ⟨fun k hk => by rw [List.mem_singleton.1 hk]; exact ha1, fun k hk => ?_⟩
            by_cases hki : k = i
            · rw [hki]; exact List.mem_singleton.2 rfl
            · have := avxb_none_eq_true hn k
              simp only [clearLane, hki, if_false] at this
              rw [hk] at this
              exact Bool.noConfusion this
      · have hex := avxb_none_eq_false (by simpa using hn)
        obtain ⟨hsel, hselmin⟩ := select_min_spec (clearLane valid i) t hex
        have hlt := laneCount_clearLane hi
        obtain ⟨acc, tr, hrun, hhead, hnd, hval, hsort, _, hacc, hnone⟩ :=
          ih (select_min (clearLane valid i) t) (clearLane valid i) hsel hselmin (by omega)
        have hnotin : i ∉ tr := fun hin => (clearLane_valid (hval i hin)).2 rfl
        have hnd1 : (i :: tr).Nodup := List.nodup_cons.2 ⟨hnotin, hnd⟩
        refine ⟨acc, i :: tr, ?_, rfl, hnd1, ?_, ?_, nodup_length_le_eight _ hnd1, ?_, ?_⟩
        · rw [offerLoop, if_neg ha]
          simp only [hn, Bool.false_eq_true, if_false, hrun]
        · intro j hj
          rcases List.mem_cons.1 hj with h | h
          · rw [h]; exact hi
          · exact (clearLane_valid (hval j h)).1
        · exact List.pairwise_cons.2
            ⟨fun j hj => hmin j (clearLane_valid (hval j hj)).1, hsort⟩
        · intro j hj
          obtain ⟨before, hb, hrej, hok⟩ := hacc j hj
          refine ⟨i :: before, by rw [hb]; rfl, fun k hk => ?_, hok⟩
          rcases List.mem_cons.1 hk with h | h
          · rw [h]; exact ha1
          · exact hrej k h
        · intro hno
          obtain ⟨hrej, hall⟩ := hnone hno
          refine ⟨fun k hk => ?_, fun k hk => ?_⟩
          · rcases List.mem_cons.1 hk with h | h
            · rw [h]; exact ha1
            · exact hrej k h
          · by_cases hki : k = i
            · rw [hki]; exact List.mem_cons_self _ _
            · refine List.mem_cons_of_mem _ (hall k ?_)
              simp only [clearLane, hki, if_false]
              exact hk

/-- The log of a whole filtered call exists and is in order. -/
lemma offered_spec (accept : Fin 8 → Bool) (t : avxf) (valid : avxb) :
    ∃ acc tr, offered accept t valid = some (acc, tr) ∧ OfferOrder accept t valid acc tr := by
  by_cases hn : avxb_none valid = true
  · refine ⟨none, [], by rw [offered, if_pos hn], List.nodup_nil, ?_, List.Pairwise.nil,
      by simp, ?_, ?_⟩
    · intro j hj; exact absurd hj (List.not_mem_nil j)
    · intro j hj; exact Option.noConfusion hj
    · intro _
      refine ⟨fun k hk => absurd hk (List.not_mem_nil k), fun k hk => ?_⟩
      rw [avxb_none_eq_true hn k] at hk
      exact Bool.noConfusion hk
  · have hex := avxb_none_eq_false (by simpa using hn)
    obtain ⟨hsel, hmin⟩ := select_min_spec valid t hex
    obtain ⟨acc, tr, hrun, _, hord⟩ :=
      offerLoop_spec accept t 8 (select_min valid t) valid hsel hmin (laneCount_le valid)
    exact ⟨acc, tr, by rw [offered, if_neg hn]; exact hrun, hord⟩

/-- The filter loop of `intersect` is the logged loop with the accepted lane
(if any) committed to the ray. -/
lemma filterLoop_eq_offer (f : Filter) (curve_in : Bezier1i) (u t : avxf) (ray : Ray) :
    ∀ (n : ℕ) (i : Fin 8) (valid : avxb),
      filterLoop f curve_in u t ray n i valid =
        (offerLoop (acceptLane f ray curve_in u t) t n i valid).map (fun r =>
          match r.1 with
          | some j => commitHit ray (hitParam u j) (t j) (tangentAt curve_in (hitParam u j))
              curve_in
          | none => ray) := by
  intro n
  induction n with
  | zero => intro i valid; rfl
  | succ n ih =>
    intro i valid
    rw [filterLoop, offerLoop]
    simp only [runIntersectionFilter1, acceptLane]
    by_cases hf : f ray (hitParam u i) 0 (t i) (tangentAt curve_in (hitParam u i))
        curve_in.geomID curve_in.primID = true
    · simp only [hf, if_true, Option.map_some']
    · simp only [hf, Bool.false_eq_true, if_false]
      by_cases hn : avxb_none (clearLane valid i) = true
      · simp only [hn, if_true, Option.map_some']
      · simp only [hn, Bool.false_eq_true, if_false]
        rw [ih]
        cases offerLoop (acceptLane f ray curve_in u t) t n
          (select_min (clearLane valid i) t) (clearLane valid i) with
        | none => rfl
        | some r => rfl

/-- The filter loop of `occluded` is the logged loop with the answer "some
lane was accepted". -/
lemma occludedLoop_eq_offer (f : Filter) (curve_in : Bezier1i) (u t : avxf) (ray : Ray) :
    ∀ (n : ℕ) (i : Fin 8) (valid : avxb),
      occludedLoop f curve_in u t ray n i valid =
        (offerLoop (acceptLane f ray curve_in u t) t n i valid).map (fun r => r.1.isSome) := by
  intro n
  induction n with
  | zero => intro i valid; rfl
  | succ n ih =>
    intro i valid
    rw [occludedLoop, offerLoop]
    simp only [acceptLane]
    by_cases hf : f ray (hitParam u i) 0 (t i) (tangentAt curve_in (hitParam u i))
        curve_in.geomID curve_in.primID = true
    · simp only [hf, if_true, Option.map_some', Option.isSome_some]
    · simp only [hf, Bool.false_eq_true, if_false]
      by_cases hn : avxb_none (clearLane valid i) = true
      · simp only [hn, if_true, Option.map_some', Option.isSome_none]
      · simp only [hn, Bool.false_eq_true, if_false]
        rw [ih]
        cases offerLoop (acceptLane f ray curve_in u t) t n
          (select_min (clearLane valid i) t) (clearLane valid i) with
        | none => rfl
        | some r => rfl

/-- C12: with a filter registered (an arbitrary accept/reject answer per
candidate), the batched `intersect` and `occluded` offer valid lanes to the
filter in non-decreasing depth order, each lane at most once (so at most 8
calls), stop at the first lane the filter accepts and give up when no valid
lane remains; `intersect` then commits the accepted lane or leaves the ray
unchanged, and `occluded` returns true if and only if the filter accepts at
least one valid lane. -/
theorem filter_offers_in_depth_order (pre : Precalculations) (ray : Ray)
    (curve_in : Bezier1i) (f : Filter) :
    (∃ acc tr,
      offered (acceptLane f ray curve_in (intersectCone pre ray curve_in).u
          (intersectCone pre ray curve_in).t) (intersectCone pre ray curve_in).t
          (intersectCone pre ray curve_in).valid = some (acc, tr) ∧
      OfferOrder (acceptLane f ray curve_in (intersectCone pre ray curve_in).u
          (intersectCone pre ray curve_in).t) (intersectCone pre ray curve_in).t
          (intersectCone pre ray curve_in).valid acc tr ∧
      intersect pre ray curve_in (some f) =
        some (match acc with
          | some j => commitHit ray (hitParam (intersectCone pre ray curve_in).u j)
              ((intersectCone pre ray curve_in).t j)
              (tangentAt curve_in (hitParam (intersectCone pre ray curve_in).u j)) curve_in
          | none => ray)) ∧
    (∃ acc tr,
      offered (acceptLane f ray curve_in (occludedCone pre ray curve_in).u
          (occludedCone pre ray curve_in).t) (occludedCone pre ray curve_in).t
          (occludedCone pre ray curve_in).valid = some (acc, tr) ∧
      OfferOrder (acceptLane f ray curve_in (occludedCone pre ray curve_in).u
          (occludedCone pre ray curve_in).t) (occludedCone pre ray curve_in).t
          (occludedCone pre ray curve_in).valid acc tr ∧
      occluded pre ray curve_in (some f) = some acc.isSome ∧
      (occluded pre ray curve_in (some f) = some true ↔
        ∃ i, (occludedCone pre ray curve_in).valid i = true ∧
          acceptLane f ray curve_in (occludedCone pre ray curve_in).u
            (occludedCone pre ray curve_in).t i = true)) := by
  constructor
  · obtain ⟨acc, tr, hrun, hord⟩ := offered_spec
      (acceptLane f ray curve_in (intersectCone pre ray curve_in).u
        (intersectCone pre ray curve_in).t) (intersectCone pre ray curve_in).t
      (intersectCone pre ray curve_in).valid
    refine ⟨acc, tr, hrun, hord, ?_⟩
    unfold offered at hrun
    unfold intersect
    simp only
    by_cases hn : avxb_none (intersectCone pre ray curve_in).valid = true
    · rw [if_pos hn] at hrun
      have hacc : acc = none := (Prod.mk.inj (Option.some.inj hrun)).1.symm
      unfold intersectCone at hn
      rw [if_pos hn, hacc]
    · rw [if_neg hn] at hrun
      have hn1 := hn
      unfold intersectCone at hn1
      rw [if_neg hn1, filterLoop_eq_offer]
      unfold intersectCone at hrun
      rw [hrun]
      rfl
  · obtain ⟨acc, tr, hrun, hord⟩ := offered_spec
      (acceptLane f ray curve_in (occludedCone pre ray curve_in).u
        (occludedCone pre ray curve_in).t) (occludedCone pre ray curve_in).t
      (occludedCone pre ray curve_in).valid
    have hocc : occluded pre ray curve_in (some f) = some acc.isSome := by
      unfold offered at hrun
      unfold occluded
      simp only
      by_cases hn : avxb_none (occludedCone pre ray curve_in).valid = true
      · rw [if_pos hn] at hrun
        have hacc : acc = none := (Prod.mk.inj (Option.some.inj hrun)).1.symm
        unfold occludedCone at hn
        rw [if_pos hn, hacc]
        rfl
      · rw [if_neg hn] at hrun
        have hn1 := hn
        unfold occludedCone at hn1
        rw [if_neg hn1, occludedLoop_eq_offer]
        unfold occludedCone at hrun
        rw [hrun]
        rfl
    refine ⟨acc, tr, hrun, hord, hocc, ?_⟩
    rw [hocc]
    obtain ⟨_, hval, _, _, hacc, hnone⟩ := hord
    constructor
    · intro h
      cases hc : acc with
      | none => rw [hc] at h; exact Bool.noConfusion (Option.some.inj h)
      | some j =>
        obtain ⟨before, hb, _, hok⟩ := hacc j hc
        exact ⟨j, hval j (by rw [hb]; simp), hok⟩
    · rintro ⟨i, hi, hai⟩
      cases hc : acc with
      | some j => rfl
      | none =>
        obtain ⟨hrej, hall⟩ := hnone hc
        have := hrej i (hall i hi)
        rw [hai] at this
        exact Bool.noConfusion this

/-! ### The recursive intersector on sample inputs -/

/-- The recursive `intersect` is the traversal from the ray-space curve
followed by the final block. -/
lemma intersect_recursive_eq (ray_space : LinearSpace3f) (ray : Ray) (curve_in : Bezier1i) :
    intersect_recursive ray_space ray curve_in =
      match traverse ray 32 32 [curve2D ⟨ray_space⟩ ray curve_in] ⟨0, ray.tfar, false⟩ with
      | Except.error e => Except.error e
      | Except.ok st => Except.ok (commitRecursive ray curve_in st) := by
  unfold intersect_recursive curve2D commitRecursive tangentAt
  simp only
  cases traverse ray 32 32 _ _ with
  | error e => rfl
  | ok st =>
    simp only
    split <;> rfl

/-- The leaf block in terms of its intermediate values: the candidate is
recorded exactly when `d2 <= r2` and `tnear <= t <= ray_tfar`. -/
lemma leafTest_eq (ray : Ray) (curve : BezierCurve3D) (st : HitState) :
    leafTest ray curve st =
      if leafD2 curve ≤ leafR2 curve ∧ ray.tnear ≤ (leafPoint curve).z ∧
          (leafPoint curve).z ≤ st.ray_tfar then
        ⟨curve.t0 + leafU curve * (curve.t1 - curve.t0), (leafPoint curve).z, true⟩
      else st := by
  have e : leafTest ray curve st =
      if leafD2 curve > leafR2 curve then st
      else if (leafPoint curve).z < ray.tnear ∨ (leafPoint curve).z > st.ray_tfar then st
      else ⟨curve.t0 + leafU curve * (curve.t1 - curve.t0), (leafPoint curve).z, true⟩ := rfl
  rw [e]
  by_cases h1 : leafD2 curve > leafR2 curve
  · rw [if_pos h1, if_neg (fun h => absurd h.1 (not_le.2 h1))]
  · rw [if_neg h1]
    by_cases h2 : (leafPoint curve).z < ray.tnear ∨ (leafPoint curve).z > st.ray_tfar
    · rw [if_pos h2, if_neg]
      rintro ⟨_, h3, h4⟩
      rcases h2 with h | h
      · exact absurd h3 (not_le.2 h)
      · exact absurd h4 (not_le.2 h)
    · rw [if_neg h2, if_pos]
      push_neg at h2
      exact ⟨not_lt.1 h1, h2.1, h2.2⟩

/-- C14 (the code at a failing input): on the bent sample curve the recursive
`intersect` commits `u = 3/8` at depth `41/8`, and the normal it commits is the
tangent at the value `ray.u` had before the call (`0`), `(4, 0, 1)`, not the
tangent `(17/8, 0, 1)` at the committed `u`; the batched `intersect` commits
the same `u` and depth with the tangent at `u`. -/
theorem recursive_normal_at_stale_parameter :
    intersect_recursive identitySpace sampleRay bendCurve =
      Except.ok { sampleRay with u := 3 / 8, v := 1, tfar := 41 / 8, Ng := ⟨4, 0, 1, 0⟩,
                                 geomID := 7, primID := 3 } ∧
    tangentAt bendCurve sampleRay.u = ⟨4, 0, 1, 0⟩ ∧
    tangentAt bendCurve (3 / 8) = ⟨17 / 8, 0, 1, 0⟩ ∧
    intersect ⟨identitySpace⟩ sampleRay bendCurve none =
      some { sampleRay with u := 3 / 8, v := 0, tfar := 41 / 8, Ng := ⟨17 / 8, 0, 1, 0⟩,
                            geomID := 7, primID := 3 } := by
  decide!

/-- C15 (the code at a failing input): the guard of the leaf block is
`t < ray.tnear || t > ray_tfar`, closed at both ends. The sample leaf passes the
distance test at depth `5`, equal to the current best `tfar = 5`, and is
recorded; the recursive `intersect` on the ray whose `tfar` is `5` commits a hit
of the straight sample curve at depth `5`, while the batched `intersect`, whose
mask is `tnear < t & t < tfar`, leaves the same ray unchanged. -/
theorem recursive_commits_at_tfar :
    leafD2 sampleLeaf ≤ leafR2 sampleLeaf ∧ (leafPoint sampleLeaf).z = 5 ∧
    leafTest sampleRay sampleLeaf ⟨0, 5, false⟩ = ⟨1 / 2, 5, true⟩ ∧
    shortRay.tfar = 5 ∧
    intersect_recursive identitySpace shortRay straightCurve =
      Except.ok { shortRay with u := 5 / 8, v := 1, tfar := 5, Ng := ⟨2, 0, 0, 0⟩,
                                geomID := 7, primID := 3 } ∧
    intersect ⟨identitySpace⟩ shortRay straightCurve none = some shortRay := by
  decide!

/-- C17 (as stated, refuted): the four control points of the sample curve
share the position `(0, 0, 5)`, radius `1`; the recursive `intersect` commits a
hit at depth `5` with `u = 1` and the zero vector as normal. -/
theorem recursive_commits_on_point_curve :
    (∀ k, (samplePointCurve.p k).x = (samplePointCurve.p 0).x ∧
        (samplePointCurve.p k).y = (samplePointCurve.p 0).y ∧
        (samplePointCurve.p k).z = (samplePointCurve.p 0).z) ∧
    intersect_recursive identitySpace sampleRay samplePointCurve =
      Except.ok { sampleRay with u := 1, v := 1, tfar := 5, Ng := ⟨0, 0, 0, 0⟩,
                                 geomID := 7, primID := 3 } ∧
    intersect_recursive identitySpace sampleRay samplePointCurve ≠ Except.ok sampleRay := by
  decide!

/-! ### The stack traversal -/

/-- Forgetting the log of `descendLog` gives `descend`. -/
lemma descend_eq_log (ray : Ray) :
    ∀ (fuel : ℕ) (curve : BezierCurve3D) (stack : List BezierCurve3D),
      descend ray fuel curve stack =
        match descendLog ray fuel curve stack with
        | Except.error e => Except.error e
        | Except.ok r => Except.ok (r.1, r.2.1) := by
  intro fuel
  induction fuel with
  | zero =>
    intro curve stack
    rw [descend, descendLog]
    by_cases h : curve.depth = 0
    · simp only [h, if_true]
    · simp only [h, if_false]
  | succ n ih =>
    intro curve stack
    rw [descend, descendLog]
    by_cases h : curve.depth = 0
    · simp only [h, if_true]
    · simp only [h, if_false]
      cases h0 : intersect_box curve.subdivide.1.bounds ray <;>
        cases h1 : intersect_box curve.subdivide.2.bounds ray
      · simp
      · simp [ih]
      · simp [ih]
      · by_cases hov : 32 ≤ stack.length
        · simp [hov]
        · simp only [Bool.not_true, Bool.and_self, Bool.false_eq_true, if_false, bne_self_eq_false,
            hov]
          rw [ih]
          cases descendLog ray n curve.subdivide.1 (curve.subdivide.2 :: stack) with
          | error e => rfl
          | ok r => rfl

/-- Forgetting the log of `traverseLog` gives `traverse`. -/
lemma traverse_eq_log (ray : Ray) (inner : ℕ) :
    ∀ (fuel : ℕ) (stack : List BezierCurve3D) (st : HitState),
      traverse ray inner fuel stack st =
        match traverseLog ray inner fuel stack st with
        | Except.error e => Except.error e
        | Except.ok r => Except.ok r.1 := by
  intro fuel
  induction fuel with
  | zero =>
    intro stack st
    cases stack with
    | nil => simp [traverse, traverseLog]
    | cons c rest => simp [traverse, traverseLog]
  | succ n ih =>
    intro stack st
    cases stack with
    | nil => simp [traverse, traverseLog]
    | cons c rest =>
      rw [traverse, traverseLog, descend_eq_log]
      cases hd : descendLog ray inner c rest with
      | error e => rfl
      | ok r =>
        obtain ⟨leaf, stack1, ps⟩ := r
        cases leaf with
        | none =>
          simp only [ih]
          cases traverseLog ray inner n stack1 st with
          | error e => rfl
          | ok r => rfl
        | some l =>
          simp only [ih]
          cases traverseLog ray inner n stack1 (leafTest ray l st) with
          | error e => rfl
          | ok r => rfl

lemma subdivide_nonneg (c : BezierCurve3D) (h : nonnegRadii c) :
    nonnegRadii c.subdivide.1 ∧ nonnegRadii c.subdivide.2 := by
  obtain ⟨h0, h1, h2, h3⟩ := h
  simp only [nonnegRadii, subdivide, Vec3fa.add, Vec3fa.scale]
  refine ⟨⟨?_, ?_, ?_, ?_⟩, ⟨?_, ?_, ?_, ?_⟩⟩ <;> linarith

lemma subdivide_depth (c : BezierCurve3D) :
    c.subdivide.1.depth = c.depth - 1 ∧ c.subdivide.2.depth = c.depth - 1 := ⟨rfl, rfl⟩

/-- A point of the plane whose squared norm is at most `r^2`, `r >= 0`, has
both coordinates in `[-r, r]`. -/
lemma coords_le_of_sq_sum_le {px py r : ℚ} (hr : 0 ≤ r) (hd : px * px + py * py ≤ r * r) :
    (-r ≤ px ∧ px ≤ r) ∧ (-r ≤ py ∧ py ≤ r) := by
  refine ⟨⟨?_, ?_⟩, ⟨?_, ?_⟩⟩ <;> nlinarith [mul_self_nonneg py, mul_self_nonneg px]

/-- A depth-0 segment with non-negative radii that passes the distance test
of the leaf block makes the box test on its own bound succeed. -/
lemma leaf_pass_box_hit (ray : Ray) (c : BezierCurve3D) (hrad : nonnegRadii c)
    (hpass : leafD2 c ≤ leafR2 c) : intersect_box c.bounds ray = true := by
  obtain ⟨hu0, hu1⟩ := clampQuot_bounds ((c.v0.neg).x * (c.v3.sub c.v0).x +
    (c.v0.neg).y * (c.v3.sub c.v0).y) ((c.v3.sub c.v0).x * (c.v3.sub c.v0).x +
    (c.v3.sub c.v0).y * (c.v3.sub c.v0).y)
  obtain ⟨ax, _, _, dx⟩ := min4_le c.v0.x c.v1.x c.v2.x c.v3.x
  obtain ⟨ex, _, _, kx⟩ := le_max4 c.v0.x c.v1.x c.v2.x c.v3.x
  obtain ⟨ay, _, _, dy⟩ := min4_le c.v0.y c.v1.y c.v2.y c.v3.y
  obtain ⟨ey, _, _, ky⟩ := le_max4 c.v0.y c.v1.y c.v2.y c.v3.y
  obtain ⟨ew, _, _, kw⟩ := le_max4 c.v0.w c.v1.w c.v2.w c.v3.w
  have hx := cone_point_between hu0 hu1 ⟨ax, ex⟩ ⟨dx, kx⟩
  have hy := cone_point_between hu0 hu1 ⟨ay, ey⟩ ⟨dy, ky⟩
  have hw := cone_point_between hu0 hu1 ⟨hrad.1, ew⟩ ⟨hrad.2.2.2, kw⟩
  have hd : (leafPoint c).x * (leafPoint c).x + (leafPoint c).y * (leafPoint c).y ≤
      (leafPoint c).w * (leafPoint c).w := hpass
  have epx : (leafPoint c).x = c.v0.x + leafU c * (c.v3.x - c.v0.x) := rfl
  have epy : (leafPoint c).y = c.v0.y + leafU c * (c.v3.y - c.v0.y) := rfl
  have epw : (leafPoint c).w = c.v0.w + leafU c * (c.v3.w - c.v0.w) := rfl
  have hx1 : min (min c.v0.x c.v1.x) (min c.v2.x c.v3.x) ≤ (leafPoint c).x ∧
      (leafPoint c).x ≤ max (max c.v0.x c.v1.x) (max c.v2.x c.v3.x) := by rw [epx]; exact hx
  have hy1 : min (min c.v0.y c.v1.y) (min c.v2.y c.v3.y) ≤ (leafPoint c).y ∧
      (leafPoint c).y ≤ max (max c.v0.y c.v1.y) (max c.v2.y c.v3.y) := by rw [epy]; exact hy
  have hw1 : 0 ≤ (leafPoint c).w ∧
      (leafPoint c).w ≤ max (max c.v0.w c.v1.w) (max c.v2.w c.v3.w) := by rw [epw]; exact hw
  generalize (leafPoint c).x = px at hx1 hd
  generalize (leafPoint c).y = py at hy1 hd
  generalize (leafPoint c).w = r at hw1 hd
  obtain ⟨hxr, hyr⟩ := coords_le_of_sq_sum_le hw1.1 hd
  rw [intersect_box_iff]
  simp only [bounds, BBox3fa.enlarge, BBox3fa.merge4, BBox3fa.merge, BBox3fa.ofPoint,
    Vec3fa.broadcast, Vec3fa.add, Vec3fa.sub, Vec3fa.vmin, Vec3fa.vmax]
  refine ⟨⟨?_, ?_⟩, ?_, ?_⟩ <;>
    linarith [hx1.1, hx1.2, hy1.1, hy1.2, hxr.1, hxr.2, hyr.1, hyr.2, hw1.2]

/-- Pruning is sound: below a segment with non-negative radii whose bound
fails the box test, no depth-0 descendant passes the distance test. -/
lemma prune_sound (ray : Ray) :
    ∀ (n : ℕ) (c : BezierCurve3D), nonnegRadii c → intersect_box c.bounds ray = false →
      ∀ l ∈ leaves n c, leafR2 l < leafD2 l := by
  intro n
  induction n with
  | zero =>
    intro c hrad hbox l hl
    simp only [leaves, List.mem_singleton] at hl
    subst hl
    by_contra hc
    have := leaf_pass_box_hit ray l hrad (not_lt.1 hc)
    rw [hbox] at this
    exact Bool.noConfusion this
  | succ n ih =>
    intro c hrad hbox l hl
    simp only [leaves, List.mem_append] at hl
    obtain ⟨hr0, hr1⟩ := subdivide_nonneg c hrad
    rcases hl with h | h
    · refine ih c.subdivide.1 hr0 ?_ l h
      by_contra hc
      have := (subdivide_box_hit c ray).1 (by simpa using hc)
      rw [hbox] at this
      exact Bool.noConfusion this
    · refine ih c.subdivide.2 hr1 ?_ l h
      by_contra hc
      have := (subdivide_box_hit c ray).2 (by simpa using hc)
      rw [hbox] at this
      exact Bool.noConfusion this

/-- The leaf block leaves the locals alone on every depth-0 descendant of a
pruned segment. -/
lemma pruned_fold_id (ray : Ray) (n : ℕ) (c : BezierCurve3D) (hrad : nonnegRadii c)
    (hbox : intersect_box c.bounds ray = false) (st : HitState) :
    (leaves n c).foldl (fun s l => leafTest ray l s) st = st := by
  have h := prune_sound ray n c hrad hbox
  generalize leaves n c = ls at h
  induction ls generalizing st with
  | nil => rfl
  | cons l ls ih =>
    rw [List.foldl_cons]
    have hl : leafTest ray l st = st := by
      rw [leafTest_eq, if_neg]
      intro hc
      exact absurd hc.1 (not_le.2 (h l (List.mem_cons_self _ _)))
    rw [hl]
    exact ih st (fun l1 h1 => h l1 (List.mem_cons_of_mem _ h1))

lemma stackWeight_append (a b : List BezierCurve3D) :
    stackWeight (a ++ b) = stackWeight a + stackWeight b := by
  simp [stackWeight]

lemma stackFold_append (ray : Ray) (st : HitState) (a b : List BezierCurve3D) :
    stackFold ray st (a ++ b) = stackFold ray (stackFold ray st a) b := by
  simp [stackFold]

/-- The inner loop on a segment of depth `n`, with enough fuel and room on
the stack: it returns; the pushed segments have pairwise different depths
below `n`, increasing from the top; a returned segment has depth `0`; every
push writes an index below `stack.length + n`; and with non-negative radii the
leaf block on the returned segment followed by all depth-0 descendants of the
pushed segments has the effect of the leaf block on all depth-0 descendants
of the segment, left to right. -/
lemma descendLog_spec (ray : Ray) :
    ∀ (n fuel : ℕ) (curve : BezierCurve3D) (stack : List BezierCurve3D),
      curve.depth = (n : Int) → n ≤ fuel → stack.length + n ≤ 32 →
      ∃ leaf pushed ps,
        descendLog ray fuel curve stack = Except.ok (leaf, pushed ++ stack, ps) ∧
        pushed.Pairwise (fun a b => a.depth < b.depth) ∧
        (∀ q ∈ pushed, 0 ≤ q.depth ∧ q.depth < (n : Int)) ∧
        (∀ l, leaf = some l → l.depth = 0) ∧
        (∀ k ∈ ps, k < stack.length + n) ∧
        stackWeight pushed + 1 ≤ 2 ^ n ∧
        (nonnegRadii curve → (∀ q ∈ pushed, nonnegRadii q) ∧
          ∀ st, stackFold ray (optLeafTest ray leaf st) pushed =
            (leaves n curve).foldl (fun s l => leafTest ray l s) st) := by
  intro n
  induction n with
  | zero =>
    intro fuel curve stack hd _ _
    have hd0 : curve.depth = 0 := by simpa using hd
    refine ⟨some curve, [], [], ?_, List.Pairwise.nil, ?_, ?_, ?_, ?_, ?_⟩
    · rw [descendLog.eq_def]; simp only [hd0, if_true]; rfl
    · intro q hq; exact absurd hq (List.not_mem_nil q)
    · intro l hl; rw [← Option.some.inj hl]; exact hd0
    · intro k hk; exact absurd hk (List.not_mem_nil k)
    · simp [stackWeight]
    · intro _; exact ⟨fun q hq => absurd hq (List.not_mem_nil q), fun st => rfl⟩
  | succ n ih =>
    intro fuel curve stack hd hfuel hlen
    have hne : ¬ curve.depth = 0 := by rw [hd]; omega
    obtain ⟨f, rfl⟩ : ∃ f, fuel = f + 1 := ⟨fuel - 1, by omega⟩
    have hd0 : curve.subdivide.1.depth = (n : Int) := by
      rw [(subdivide_depth curve).1, hd]; push_cast; ring
    have hd1 : curve.subdivide.2.depth = (n : Int) := by
      rw [(subdivide_depth curve).2, hd]; push_cast; ring
    have hpow : 2 ^ (n + 1) = 2 ^ n + 2 ^ n := by ring
    have hleaves : ∀ st, (leaves (n + 1) curve).foldl (fun s l => leafTest ray l s) st =
        (leaves n curve.subdivide.2).foldl (fun s l => leafTest ray l s)
          ((leaves n curve.subdivide.1).foldl (fun s l => leafTest ray l s) st) := by
      intro st
      simp only [leaves, List.foldl_append]
    cases h0 : intersect_box curve.subdivide.1.bounds ray <;>
      cases h1 : intersect_box curve.subdivide.2.bounds ray
    · -- both children miss
      have hrun : descendLog ray (f + 1) curve stack = Except.ok (none, stack, []) := by
        rw [descendLog, if_neg hne]; simp [h0, h1]
      refine ⟨none, [], [], by rw [hrun]; rfl, List.Pairwise.nil, ?_, ?_, ?_, ?_, ?_⟩
      · intro q hq; exact absurd hq (List.not_mem_nil q)
      · intro l hl; exact Option.noConfusion hl
      · intro k hk; exact absurd hk (List.not_mem_nil k)
      · have : 1 ≤ 2 ^ (n + 1) := Nat.one_le_two_pow
        simpa [stackWeight] using this
      · intro hrad
        obtain ⟨hr0, hr1⟩ := subdivide_nonneg curve hrad
        refine ⟨fun q hq => absurd hq (List.not_mem_nil q), fun st => ?_⟩
        rw [hleaves, pruned_fold_id ray n _ hr0 h0, pruned_fold_id ray n _ hr1 h1]
        rfl
    · -- only the right child is hit
      have hrun : descendLog ray (f + 1) curve stack =
          descendLog ray f curve.subdivide.2 stack := by
        rw [descendLog, if_neg hne]; simp [h0, h1]
      obtain ⟨leaf, pushed, ps, hres, hpw, hdep, hleaf, hps, hw, heff⟩ :=
        ih f curve.subdivide.2 stack hd1 (by omega) (by omega)
      refine ⟨leaf, pushed, ps, by rw [hrun]; exact hres, hpw, ?_, hleaf, ?_, ?_, ?_⟩
      · intro q hq
        have := hdep q hq
        exact ⟨this.1, by push_cast; linarith [this.2]⟩
      · intro k hk; have := hps k hk; omega
      · omega
      · intro hrad
        obtain ⟨hr0, hr1⟩ := subdivide_nonneg curve hrad
        obtain ⟨hq, hfold⟩ := heff hr1
        refine ⟨hq, fun st => ?_⟩
        rw [hleaves, pruned_fold_id ray n _ hr0 h0, hfold]
    · -- only the left child is hit
      have hrun : descendLog ray (f + 1) curve stack =
          descendLog ray f curve.subdivide.1 stack := by
        rw [descendLog, if_neg hne]; simp [h0, h1]
      obtain ⟨leaf, pushed, ps, hres, hpw, hdep, hleaf, hps, hw, heff⟩ :=
        ih f curve.subdivide.1 stack hd0 (by omega) (by omega)
      refine ⟨leaf, pushed, ps, by rw [hrun]; exact hres, hpw, ?_, hleaf, ?_, ?_, ?_⟩
      · intro q hq
        have := hdep q hq
        exact ⟨this.1, by push_cast; linarith [this.2]⟩
      · intro k hk; have := hps k hk; omega
      · omega
      · intro hrad
        obtain ⟨hr0, hr1⟩ := subdivide_nonneg curve hrad
        obtain ⟨hq, hfold⟩ := heff hr0
        refine ⟨hq, fun st => ?_⟩
        rw [hleaves, pruned_fold_id ray n _ hr1 h1, hfold]
    · -- both children are hit: the right one is pushed
      have hov : ¬ 32 ≤ stack.length := by omega
      obtain ⟨leaf, pushed, ps, hres, hpw, hdep, hleaf, hps, hw, heff⟩ :=
        ih f curve.subdivide.1 (curve.subdivide.2 :: stack) hd0 (by omega)
          (by simp only [List.length_cons]; omega)
      have hrun : descendLog ray (f + 1) curve stack =
          Except.ok (leaf, (pushed ++ [curve.subdivide.2]) ++ stack, stack.length :: ps) := by
        rw [descendLog, if_neg hne]
        simp only [h0, h1, Bool.not_true, Bool.and_self, Bool.false_eq_true, if_false,
          bne_self_eq_false, hov, hres]
        simp
      refine ⟨leaf, pushed ++ [curve.subdivide.2], stack.length :: ps, hrun, ?_, ?_, hleaf,
        ?_, ?_, ?_⟩
      · rw [List.pairwise_append]
        refine ⟨hpw, List.pairwise_singleton _ _, fun a ha b hb => ?_⟩
        rw [List.mem_singleton.1 hb, hd1]
        exact (hdep a ha).2
      · intro q hq
        rcases List.mem_append.1 hq with h | h
        · have := hdep q h
          exact ⟨this.1, by push_cast; linarith [this.2]⟩
        · rw [List.mem_singleton.1 h, hd1]
          exact ⟨by positivity, by push_cast; linarith⟩
      · intro k hk
        rcases List.mem_cons.1 hk with h | h
        · omega
        · have := hps k h
          simp only [List.length_cons] at this
          omega
      · rw [stackWeight_append]
        have : stackWeight [curve.subdivide.2] = 2 ^ n := by
          simp [stackWeight, hd1]
        omega
      · intro hrad
        obtain ⟨hr0, hr1⟩ := subdivide_nonneg curve hrad
        obtain ⟨hq, hfold⟩ := heff hr0
        refine ⟨fun q hq1 => ?_, fun st => ?_⟩
        · rcases List.mem_append.1 hq1 with h | h
          · exact hq q h
          · rw [List.mem_singleton.1 h]; exact hr1
        · rw [hleaves, stackFold_append, hfold]
          simp [stackFold, hd1]

/-- A stack whose depths increase strictly from the top and lie in `(lo, 4]`
has at most `4 - lo` entries. -/
lemma sorted_depth_length :
    ∀ (l : List BezierCurve3D) (lo : Int), lo ≤ 4 →
      l.Pairwise (fun a b => a.depth < b.depth) →
      (∀ q ∈ l, lo < q.depth ∧ q.depth ≤ 4) → (l.length : Int) ≤ 4 - lo := by
  intro l
  induction l with
  | nil =>
    intro lo hlo _ _
    simp only [List.length_nil, Nat.cast_zero]
    linarith
  | cons q l ih =>
    intro lo _ hp hb
    obtain ⟨hq, hl⟩ := List.pairwise_cons.1 hp
    have h1 := hb q (List.mem_cons_self _ _)
    have := ih q.depth h1.2 hl (fun a ha => ⟨hq a ha, (hb a (List.mem_cons_of_mem _ ha)).2⟩)
    simp only [List.length_cons, Nat.cast_add, Nat.cast_one]
    linarith [h1.1]

lemma stackWeight_cons (c : BezierCurve3D) (rest : List BezierCurve3D) :
    stackWeight (c :: rest) = 2 ^ c.depth.toNat + stackWeight rest := by
  simp [stackWeight]

/-- The outer loop on a stack whose depths increase strictly from the top
and lie in `[0, 4]`, with fuel for its weight: it returns; every segment given
to the leaf block has depth `0`; their number is at most the weight of the
stack; every push writes an index of at most `3`; and with non-negative radii
the resulting locals are those of the leaf block applied to all depth-0
descendants of the stack, left to right. -/
lemma traverseLog_spec (ray : Ray) :
    ∀ (fuel : ℕ) (stack : List BezierCurve3D) (st : HitState),
      stack.Pairwise (fun a b => a.depth < b.depth) →
      (∀ q ∈ stack, 0 ≤ q.depth ∧ q.depth ≤ 4) → stackWeight stack ≤ fuel →
      ∃ st1 tested ps,
        traverseLog ray 32 fuel stack st = Except.ok (st1, tested, ps) ∧
        (∀ l ∈ tested, l.depth = 0) ∧ tested.length ≤ stackWeight stack ∧
        (∀ k ∈ ps, k ≤ 3) ∧
        ((∀ q ∈ stack, nonnegRadii q) → st1 = stackFold ray st stack) := by
  intro fuel
  induction fuel with
  | zero =>
    intro stack st _ _ hw
    cases stack with
    | nil =>
      exact ⟨st, [], [], rfl, fun l hl => absurd hl (List.not_mem_nil l), by simp,
        fun k hk => absurd hk (List.not_mem_nil k), fun _ => rfl⟩
    | cons c rest =>
      rw [stackWeight_cons] at hw
      have : 1 ≤ 2 ^ c.depth.toNat := Nat.one_le_two_pow
      omega
  | succ f ih =>
    intro stack st hp hb hw
    cases stack with
    | nil =>
      exact ⟨st, [], [], rfl, fun l hl => absurd hl (List.not_mem_nil l), by simp,
        fun k hk => absurd hk (List.not_mem_nil k), fun _ => rfl⟩
    | cons c rest =>
      obtain ⟨hcr, hrest⟩ := List.pairwise_cons.1 hp
      have hc := hb c (List.mem_cons_self _ _)
      have hcn : c.depth = ((c.depth.toNat : ℕ) : Int) := (Int.toNat_of_nonneg hc.1).symm
      have hn4 : c.depth.toNat ≤ 4 := by omega
      have hlen := sorted_depth_length rest c.depth hc.2 hrest
        (fun q hq => ⟨hcr q hq, (hb q (List.mem_cons_of_mem _ hq)).2⟩)
      have hlen1 : rest.length + c.depth.toNat ≤ 4 := by omega
      obtain ⟨leaf, pushed, ps, hres, hpw, hdep, hleaf, hps, hwt, heff⟩ :=
        descendLog_spec ray c.depth.toNat 32 c rest hcn (by omega) (by omega)
      rw [stackWeight_cons] at hw
      have hp1 : (pushed ++ rest).Pairwise (fun a b => a.depth < b.depth) := by
        rw [List.pairwise_append]
        refine ⟨hpw, hrest, fun a ha b hb1 => ?_⟩
        have h1 := (hdep a ha).2
        have h2 := hcr b hb1
        omega
      have hb1 : ∀ q ∈ pushed ++ rest, 0 ≤ q.depth ∧ q.depth ≤ 4 := by
        intro q hq
        rcases List.mem_append.1 hq with h | h
        · have := hdep q h
          exact ⟨this.1, by omega⟩
        · exact hb q (List.mem_cons_of_mem _ h)
      have hw1 : stackWeight (pushed ++ rest) ≤ f := by
        rw [stackWeight_append]; omega
      obtain ⟨st1, tested, ps1, hrun, hz, hcount, hidx, hfold⟩ :=
        ih (pushed ++ rest) (optLeafTest ray leaf st) hp1 hb1 hw1
      have hidx1 : ∀ k ∈ ps ++ ps1, k ≤ 3 := by
        intro k hk
        rcases List.mem_append.1 hk with h | h
        · have := hps k h; omega
        · exact hidx k h
      have hfold1 : (∀ q ∈ c :: rest, nonnegRadii q) →
          st1 = stackFold ray st (c :: rest) := by
        intro hrad
        obtain ⟨hq, hf⟩ := heff (hrad c (List.mem_cons_self _ _))
        have hall : ∀ q ∈ pushed ++ rest, nonnegRadii q := by
          intro q hq1
          rcases List.mem_append.1 hq1 with h | h
          · exact hq q h
          · exact hrad q (List.mem_cons_of_mem _ h)
        rw [hfold hall, stackFold_append, hf]
        simp [stackFold]
      rw [stackWeight_append] at hcount
      cases leaf with
      | none =>
        refine ⟨st1, tested, ps ++ ps1, ?_, hz, ?_, hidx1, hfold1⟩
        · rw [traverseLog, hres]
          simp only [optLeafTest] at hrun
          simp only [hrun]
        · rw [stackWeight_cons]; omega
      | some l =>
        refine ⟨st1, l :: tested, ps ++ ps1, ?_, ?_, ?_, hidx1, hfold1⟩
        · rw [traverseLog, hres]
          simp only [optLeafTest] at hrun
          simp only [hrun]
        · intro a ha
          rcases List.mem_cons.1 ha with h | h
          · rw [h]; exact hleaf l rfl
          · exact hz a h
        · rw [stackWeight_cons]
          simp only [List.length_cons]
          omega

/-- The traversal started with the ray-space curve alone on the stack. -/
lemma traverse_root (ray_space : LinearSpace3f) (ray : Ray) (curve_in : Bezier1i)
    (st : HitState) :
    ∃ st1 tested ps,
      traverseLog ray 32 32 [curve2D ⟨ray_space⟩ ray curve_in] st =
        Except.ok (st1, tested, ps) ∧
      traverse ray 32 32 [curve2D ⟨ray_space⟩ ray curve_in] st = Except.ok st1 ∧
      (∀ l ∈ tested, l.depth = 0) ∧ tested.length ≤ 16 ∧ (∀ k ∈ ps, k ≤ 3) ∧
      ((∀ k, 0 ≤ (curve_in.p k).w) →
        st1 = (leaves 4 (curve2D ⟨ray_space⟩ ray curve_in)).foldl
          (fun s l => leafTest ray l s) st) := by
  have hd : (curve2D ⟨ray_space⟩ ray curve_in).depth = 4 := rfl
  obtain ⟨st1, tested, ps, hrun, hz, hcount, hidx, hfold⟩ :=
    traverseLog_spec ray 32 [curve2D ⟨ray_space⟩ ray curve_in] st
      (List.pairwise_singleton _ _)
      (fun q hq => by rw [List.mem_singleton.1 hq, hd]; exact ⟨by decide, le_refl _⟩)
      (by rw [stackWeight_cons, hd]; decide)
  have hw : stackWeight [curve2D ⟨ray_space⟩ ray curve_in] = 16 := by
    rw [stackWeight_cons, hd]; rfl
  refine ⟨st1, tested, ps, hrun, ?_, hz, by omega, hidx, fun hrad => ?_⟩
  · rw [traverse_eq_log, hrun]
  · rw [hfold (fun q hq => by
      rw [List.mem_singleton.1 hq]
      exact ⟨hrad 0, hrad 1, hrad 2, hrad 3⟩)]
    simp [stackFold, hd]

/-- C16: in the recursive strategy, started with the whole curve at depth
`4`, every subdivision yields children of depth one less; the traversal
returns (the stack of 32 entries never overflows and the loop ends), every push
writes a stack index of at most `3` (so the stack never holds more than `4`
entries), every segment given to the leaf block has depth `0`, and at most 16
segments are given to the leaf block. -/
theorem recursive_traversal_bounded (ray_space : LinearSpace3f) (ray : Ray)
    (curve_in : Bezier1i) (st : HitState) :
    (∀ c : BezierCurve3D,
      c.subdivide.1.depth = c.depth - 1 ∧ c.subdivide.2.depth = c.depth - 1) ∧
    (curve2D ⟨ray_space⟩ ray curve_in).depth = 4 ∧
    (∃ st1 tested ps,
      traverseLog ray 32 32 [curve2D ⟨ray_space⟩ ray curve_in] st =
        Except.ok (st1, tested, ps) ∧
      traverse ray 32 32 [curve2D ⟨ray_space⟩ ray curve_in] st = Except.ok st1 ∧
      (∀ k ∈ ps, k ≤ 3) ∧ (∀ l ∈ tested, l.depth = 0) ∧ tested.length ≤ 16) ∧
    ∃ ray1, intersect_recursive ray_space ray curve_in = Except.ok ray1 := by
  refine ⟨subdivide_depth, rfl, ?_, ?_⟩
  · obtain ⟨st1, tested, ps, hlog, hrun, hz, hcount, hidx, _⟩ :=
      traverse_root ray_space ray curve_in st
    exact ⟨st1, tested, ps, hlog, hrun, hidx, hz, hcount⟩
  · obtain ⟨st1, _, _, _, hrun, _⟩ :=
      traverse_root ray_space ray curve_in ⟨0, ray.tfar, false⟩
    refine ⟨commitRecursive ray curve_in st1, ?_⟩
    rw [intersect_recursive_eq, hrun]

/-- C17 (amended): for every ray and every curve whose four control points
have the same position, the recursive `intersect` returns, and it either leaves
the ray unchanged or commits a hit whose normal `Ng` is the zero vector in
`x, y, z` (with `v = 1` and the identifiers of the curve; origin, direction and
`tnear` are kept): this strategy has no rejection of zero tangents. -/
theorem recursive_point_curve_zero_normal (ray_space : LinearSpace3f) (ray : Ray)
    (curve_in : Bezier1i)
    (h : ∀ k, (curve_in.p k).x = (curve_in.p 0).x ∧ (curve_in.p k).y = (curve_in.p 0).y ∧
      (curve_in.p k).z = (curve_in.p 0).z) :
    ∃ ray1, intersect_recursive ray_space ray curve_in = Except.ok ray1 ∧
      (ray1 = ray ∨
        (ray1.Ng.eq3 Vec3fa.zero = true ∧ ray1.v = 1 ∧ ray1.geomID = curve_in.geomID ∧
          ray1.primID = curve_in.primID ∧ ray1.org = ray.org ∧ ray1.dir = ray.dir ∧
          ray1.tnear = ray.tnear)) := by
  obtain ⟨st1, _, _, _, hrun, _⟩ :=
    traverse_root ray_space ray curve_in ⟨0, ray.tfar, false⟩
  refine ⟨commitRecursive ray curve_in st1, ?_, ?_⟩
  · rw [intersect_recursive_eq, hrun]
  · unfold commitRecursive
    by_cases hh : st1.hit = true
    · rw [if_pos hh]
      exact Or.inr ⟨tangentAt_coincident curve_in h ray.u, rfl, rfl, rfl, rfl, rfl, rfl⟩
    · rw [if_neg hh]
      exact Or.inl rfl

/-- Witness for C17: the sample ray through the point-like sample curve. -/
theorem recursive_point_curve_zero_normal_witness :
    (∀ k, (samplePointCurve.p k).x = (samplePointCurve.p 0).x ∧
        (samplePointCurve.p k).y = (samplePointCurve.p 0).y ∧
        (samplePointCurve.p k).z = (samplePointCurve.p 0).z) ∧
    ∃ ray1, intersect_recursive identitySpace sampleRay samplePointCurve = Except.ok ray1 ∧
      (ray1 = sampleRay ∨
        (ray1.Ng.eq3 Vec3fa.zero = true ∧ ray1.v = 1 ∧ ray1.geomID = samplePointCurve.geomID ∧
          ray1.primID = samplePointCurve.primID ∧ ray1.org = sampleRay.org ∧
          ray1.dir = sampleRay.dir ∧ ray1.tnear = sampleRay.tnear)) :=
  ⟨by decide!,
    recursive_point_curve_zero_normal identitySpace sampleRay samplePointCurve (by decide!)⟩

/-- C20 (amended, over exact arithmetic): for every ray and every curve with
non-negative control-point radii, the pruning of the recursive strategy is sound: below a segment with
non-negative radii whose bound fails `intersect_box`, no depth-0 descendant
passes the leaf distance test `d2 <= r2`; so the recursive `intersect` returns
exactly the ray of the unpruned traversal, which applies the leaf block to all
16 depth-0 segments from left to right. -/
theorem pruning_sound (ray_space : LinearSpace3f) (ray : Ray) (curve_in : Bezier1i)
    (hrad : ∀ k, 0 ≤ (curve_in.p k).w) :
    (∀ (n : ℕ) (c : BezierCurve3D), nonnegRadii c → intersect_box c.bounds ray = false →
      ∀ l ∈ leaves n c, ¬ leafD2 l ≤ leafR2 l) ∧
    (leaves 4 (curve2D ⟨ray_space⟩ ray curve_in)).length = 16 ∧
    intersect_recursive ray_space ray curve_in =
      Except.ok (intersect_unpruned ray_space ray curve_in) := by
  refine ⟨fun n c hc hbox l hl => not_le.2 (prune_sound ray n c hc hbox l hl), ?_, ?_⟩
  · simp [leaves]
  · obtain ⟨st1, _, _, _, hrun, _, _, _, hfold⟩ :=
      traverse_root ray_space ray curve_in ⟨0, ray.tfar, false⟩
    rw [intersect_recursive_eq, hrun, hfold hrad]
    rfl

/-- Witness for C20: the sample ray against the sloped sample curve. -/
theorem pruning_sound_witness :
    (∀ k, 0 ≤ (slopeCurve.p k).w) ∧
    (∀ (n : ℕ) (c : BezierCurve3D), nonnegRadii c →
      intersect_box c.bounds sampleRay = false →
      ∀ l ∈ leaves n c, ¬ leafD2 l ≤ leafR2 l) ∧
    (leaves 4 (curve2D ⟨identitySpace⟩ sampleRay slopeCurve)).length = 16 ∧
    intersect_recursive identitySpace sampleRay slopeCurve =
      Except.ok (intersect_unpruned identitySpace sampleRay slopeCurve) :=
  ⟨by decide!, pruning_sound identitySpace sampleRay slopeCurve (by decide!)⟩

/-! ### Straight curves -/

lemma dbez_pos (l : Fin 4 → ℚ) (h01 : l 0 < l 1) (h12 : l 1 < l 2) (h23 : l 2 < l 3)
    (t : ℚ) (h0 : 0 ≤ t) (h1 : t ≤ 1) : 0 < dbez l t := by
  unfold dbez
  have a : 0 ≤ (1 - t) ^ 2 * (l 1 - l 0) := mul_nonneg (sq_nonneg _) (by linarith)
  have b : 0 ≤ 2 * (1 - t) * t * (l 2 - l 1) :=
    mul_nonneg (mul_nonneg (by linarith) h0) (by linarith)
  have c : 0 ≤ t ^ 2 * (l 3 - l 2) := mul_nonneg (sq_nonneg _) (by linarith)
  by_cases ht : t ≤ 1 / 2
  · have : 0 < (1 - t) ^ 2 * (l 1 - l 0) := mul_pos (by nlinarith) (by linarith)
    linarith
  · have : 0 < t ^ 2 * (l 3 - l 2) := mul_pos (by nlinarith) (by linarith)
    linarith

lemma bez1_bounds (l : Fin 4 → ℚ) (h01 : l 0 < l 1) (h12 : l 1 < l 2) (h23 : l 2 < l 3)
    (t : ℚ) (h0 : 0 ≤ t) (h1 : t ≤ 1) : l 0 ≤ bez1 l t ∧ bez1 l t ≤ l 3 :=
  ⟨casteljau_ge (le_refl _) (by linarith) (by linarith) (by linarith) h0 h1,
    casteljau_le (by linarith) (by linarith) (by linarith) (le_refl _) h0 h1⟩

/-- Along a curve with ordered control values the lane end values increase. -/
lemma bez1_lane_lt (l : Fin 4 → ℚ) (h01 : l 0 < l 1) (h12 : l 1 < l 2) (h23 : l 2 < l 3)
    (i : Fin 8) : bez1 l ((i.val : ℚ) / 8) < bez1 l (((i.val : ℚ) + 1) / 8) := by
  unfold bez1
  fin_cases i <;> norm_num <;> linarith

/-- A value between the first and the last of `n + 1` numbers lies between
two consecutive ones. -/
lemma exists_bracket (g : ℕ → ℚ) (x : ℚ) :
    ∀ n : ℕ, g 0 ≤ x → x ≤ g n → 0 < n → ∃ i, i < n ∧ g i ≤ x ∧ x ≤ g (i + 1) := by
  intro n
  induction n with
  | zero => intro _ _ h; exact absurd h (lt_irrefl 0)
  | succ n ih =>
    intro h0 hn _
    by_cases hx : x ≤ g n
    · by_cases hn0 : 0 < n
      · obtain ⟨i, hi, h⟩ := ih h0 hx hn0
        exact ⟨i, by omega, h⟩
      · have : n = 0 := by omega
        subst this
        exact ⟨0, by omega, h0, hn⟩
    · exact ⟨n, by omega, le_of_lt (not_le.1 hx), hn⟩

/-- The closest-point parameter of the cone block on a chord of a straight
line that the ray axis meets between the chord ends. -/
lemma clamp_crossing (ax ay dx dy ls L0 L1 : ℚ) (hN : 0 < dx * dx + dy * dy)
    (hcx : ax + ls * dx = 0) (hcy : ay + ls * dy = 0) (hlt : L0 < L1)
    (h0 : L0 ≤ ls) (h1 : ls ≤ L1) :
    clampQuot (-(ax + L0 * dx) * ((ax + L1 * dx) - (ax + L0 * dx)) +
        -(ay + L0 * dy) * ((ay + L1 * dy) - (ay + L0 * dy)))
      (((ax + L1 * dx) - (ax + L0 * dx)) * ((ax + L1 * dx) - (ax + L0 * dx)) +
        ((ay + L1 * dy) - (ay + L0 * dy)) * ((ay + L1 * dy) - (ay + L0 * dy))) =
      (ls - L0) / (L1 - L0) := by
  have hΔ : 0 < L1 - L0 := by linarith
  have eax : ax = -(ls * dx) := by linarith
  have eay : ay = -(ls * dy) := by linarith
  have hnum : -(ax + L0 * dx) * ((ax + L1 * dx) - (ax + L0 * dx)) +
      -(ay + L0 * dy) * ((ay + L1 * dy) - (ay + L0 * dy)) =
      (ls - L0) * ((L1 - L0) * (dx * dx + dy * dy)) := by rw [eax, eay]; ring
  have hden : ((ax + L1 * dx) - (ax + L0 * dx)) * ((ax + L1 * dx) - (ax + L0 * dx)) +
      ((ay + L1 * dy) - (ay + L0 * dy)) * ((ay + L1 * dy) - (ay + L0 * dy)) =
      (L1 - L0) * ((L1 - L0) * (dx * dx + dy * dy)) := by ring
  have hne : (L1 - L0) * (dx * dx + dy * dy) ≠ 0 := ne_of_gt (mul_pos hΔ hN)
  rw [hnum, hden, clampQuot_of_ne _ (mul_ne_zero (ne_of_gt hΔ) hne),
    mul_div_mul_right _ _ hne]
  have q0 : 0 ≤ (ls - L0) / (L1 - L0) := div_nonneg (by linarith) (le_of_lt hΔ)
  have q1 : (ls - L0) / (L1 - L0) ≤ 1 := (div_le_one hΔ).2 (by linarith)
  unfold clamp
  rw [min_eq_left q1, max_eq_right q0]

/-- The point of a curve whose control points lie on a straight line. -/
lemma eval_axis (c : BezierCurve3D) (a d : Vec3fa) (r : ℚ) (l : Fin 4 → ℚ)
    (h0 : c.v0 = axisPoint a d r (l 0)) (h1 : c.v1 = axisPoint a d r (l 1))
    (h2 : c.v2 = axisPoint a d r (l 2)) (h3 : c.v3 = axisPoint a d r (l 3)) (t : ℚ) :
    (c.eval t).1 = axisPoint a d r (bez1 l t) := by
  simp only [eval, h0, h1, h2, h3, axisPoint, Vec3fa.add, Vec3fa.scale, bez1, Vec3fa.mk.injEq]
  refine ⟨?_, ?_, ?_, ?_⟩ <;> ring

/-- The tangent of a curve whose control points lie on a straight line. -/
lemma tangent_axis (c : BezierCurve3D) (a d : Vec3fa) (r : ℚ) (l : Fin 4 → ℚ)
    (h0 : c.v0 = axisPoint a d r (l 0)) (h1 : c.v1 = axisPoint a d r (l 1))
    (h2 : c.v2 = axisPoint a d r (l 2)) (h3 : c.v3 = axisPoint a d r (l 3)) (t : ℚ) :
    (c.eval t).2 = ⟨dbez l t * d.x, dbez l t * d.y, dbez l t * d.z, 0⟩ := by
  simp only [eval, h0, h1, h2, h3, axisPoint, Vec3fa.add, Vec3fa.sub, Vec3fa.scale, dbez,
    Vec3fa.mk.injEq]
  refine ⟨?_, ?_, ?_, ?_⟩ <;> ring

/-- Every lane of the cone block on a straight curve: the closest point lies
on the line, at a line parameter between the first and the last control value. -/
lemma axis_lane_point (ray : Ray) (c : BezierCurve3D) (a d : Vec3fa) (r : ℚ) (l : Fin 4 → ℚ)
    (h0 : c.v0 = axisPoint a d r (l 0)) (h1 : c.v1 = axisPoint a d r (l 1))
    (h2 : c.v2 = axisPoint a d r (l 2)) (h3 : c.v3 = axisPoint a d r (l 3))
    (h01 : l 0 < l 1) (h12 : l 1 < l 2) (h23 : l 2 < l 3) (i : Fin 8) :
    ∃ lam, l 0 ≤ lam ∧ lam ≤ l 3 ∧
      (coneIntersect ray (lanes_p0 c) (lanes_p1 c)).t i = a.z + lam * d.z := by
  obtain ⟨a0, a1, b0, b1⟩ := lane_param_bounds i
  have e0 := lanes_p0_lane c i
  have e1 := lanes_p1_lane c i
  rw [eval_axis c a d r l h0 h1 h2 h3] at e0 e1
  have e0z : (lanes_p0 c).z i = a.z + bez1 l ((i.val : ℚ) / 8) * d.z := congrArg Vec3fa.z e0
  have e1z : (lanes_p1 c).z i = a.z + bez1 l (((i.val : ℚ) + 1) / 8) * d.z :=
    congrArg Vec3fa.z e1
  obtain ⟨hu0, hu1⟩ := coneIntersect_u_bounds ray (lanes_p0 c) (lanes_p1 c) i
  have hB0 := bez1_bounds l h01 h12 h23 _ a0 a1
  have hB1 := bez1_bounds l h01 h12 h23 _ b0 b1
  have hbetween := cone_point_between hu0 hu1 hB0 hB1
  refine ⟨_, hbetween.1, hbetween.2, ?_⟩
  have ht : (coneIntersect ray (lanes_p0 c) (lanes_p1 c)).t i =
      (lanes_p0 c).z i + (coneIntersect ray (lanes_p0 c) (lanes_p1 c)).u i *
        ((lanes_p1 c).z i - (lanes_p0 c).z i) := rfl
  rw [ht, e0z, e1z]
  ring

/-- The lane whose chord the ray axis meets: its closest point is the meeting
point, at distance `0` from the axis, and its depth is the depth of that point. -/
lemma axis_crossing_lane (ray : Ray) (c : BezierCurve3D) (a d : Vec3fa) (r : ℚ)
    (l : Fin 4 → ℚ)
    (h0 : c.v0 = axisPoint a d r (l 0)) (h1 : c.v1 = axisPoint a d r (l 1))
    (h2 : c.v2 = axisPoint a d r (l 2)) (h3 : c.v3 = axisPoint a d r (l 3))
    (ls : ℚ) (hN : 0 < d.x * d.x + d.y * d.y)
    (hcx : a.x + ls * d.x = 0) (hcy : a.y + ls * d.y = 0) (j : Fin 8)
    (hlt : bez1 l ((j.val : ℚ) / 8) < bez1 l (((j.val : ℚ) + 1) / 8))
    (hb0 : bez1 l ((j.val : ℚ) / 8) ≤ ls) (hb1 : ls ≤ bez1 l (((j.val : ℚ) + 1) / 8)) :
    (coneIntersect ray (lanes_p0 c) (lanes_p1 c)).d2 j = 0 ∧
    (coneIntersect ray (lanes_p0 c) (lanes_p1 c)).t j = a.z + ls * d.z := by
  have e0 := lanes_p0_lane c j
  have e1 := lanes_p1_lane c j
  rw [eval_axis c a d r l h0 h1 h2 h3] at e0 e1
  have e0x : (lanes_p0 c).x j = a.x + bez1 l ((j.val : ℚ) / 8) * d.x := congrArg Vec3fa.x e0
  have e0y : (lanes_p0 c).y j = a.y + bez1 l ((j.val : ℚ) / 8) * d.y := congrArg Vec3fa.y e0
  have e0z : (lanes_p0 c).z j = a.z + bez1 l ((j.val : ℚ) / 8) * d.z := congrArg Vec3fa.z e0
  have e1x : (lanes_p1 c).x j = a.x + bez1 l (((j.val : ℚ) + 1) / 8) * d.x :=
    congrArg Vec3fa.x e1
  have e1y : (lanes_p1 c).y j = a.y + bez1 l (((j.val : ℚ) + 1) / 8) * d.y :=
    congrArg Vec3fa.y e1
  have e1z : (lanes_p1 c).z j = a.z + bez1 l (((j.val : ℚ) + 1) / 8) * d.z :=
    congrArg Vec3fa.z e1
  have hu : (coneIntersect ray (lanes_p0 c) (lanes_p1 c)).u j =
      (ls - bez1 l ((j.val : ℚ) / 8)) /
        (bez1 l (((j.val : ℚ) + 1) / 8) - bez1 l ((j.val : ℚ) / 8)) := by
    have hdef : (coneIntersect ray (lanes_p0 c) (lanes_p1 c)).u j =
        clampQuot (-((lanes_p0 c).x j) * ((lanes_p1 c).x j - (lanes_p0 c).x j) +
            -((lanes_p0 c).y j) * ((lanes_p1 c).y j - (lanes_p0 c).y j))
          (((lanes_p1 c).x j - (lanes_p0 c).x j) * ((lanes_p1 c).x j - (lanes_p0 c).x j) +
            ((lanes_p1 c).y j - (lanes_p0 c).y j) * ((lanes_p1 c).y j - (lanes_p0 c).y j)) :=
      rfl
    rw [hdef, e0x, e0y, e1x, e1y]
    exact clamp_crossing a.x a.y d.x d.y ls _ _ hN hcx hcy hlt hb0 hb1
  have hΔ : bez1 l (((j.val : ℚ) + 1) / 8) - bez1 l ((j.val : ℚ) / 8) ≠ 0 :=
    ne_of_gt (by linarith)
  have hpx : (coneIntersect ray (lanes_p0 c) (lanes_p1 c)).p.x j = 0 := by
    have hdef : (coneIntersect ray (lanes_p0 c) (lanes_p1 c)).p.x j =
        (lanes_p0 c).x j + (coneIntersect ray (lanes_p0 c) (lanes_p1 c)).u j *
          ((lanes_p1 c).x j - (lanes_p0 c).x j) := rfl
    rw [hdef, hu, e0x, e1x]
    field_simp
    linear_combination (bez1 l (((j.val : ℚ) + 1) / 8) - bez1 l ((j.val : ℚ) / 8)) * hcx
  have hpy : (coneIntersect ray (lanes_p0 c) (lanes_p1 c)).p.y j = 0 := by
    have hdef : (coneIntersect ray (lanes_p0 c) (lanes_p1 c)).p.y j =
        (lanes_p0 c).y j + (coneIntersect ray (lanes_p0 c) (lanes_p1 c)).u j *
          ((lanes_p1 c).y j - (lanes_p0 c).y j) := rfl
    rw [hdef, hu, e0y, e1y]
    field_simp
    linear_combination (bez1 l (((j.val : ℚ) + 1) / 8) - bez1 l ((j.val : ℚ) / 8)) * hcy
  constructor
  · have hdef : (coneIntersect ray (lanes_p0 c) (lanes_p1 c)).d2 j =
        (coneIntersect ray (lanes_p0 c) (lanes_p1 c)).p.x j *
          (coneIntersect ray (lanes_p0 c) (lanes_p1 c)).p.x j +
        (coneIntersect ray (lanes_p0 c) (lanes_p1 c)).p.y j *
          (coneIntersect ray (lanes_p0 c) (lanes_p1 c)).p.y j := rfl
    rw [hdef, hpx, hpy]; ring
  · have hdef : (coneIntersect ray (lanes_p0 c) (lanes_p1 c)).t j =
        (lanes_p0 c).z j + (coneIntersect ray (lanes_p0 c) (lanes_p1 c)).u j *
          ((lanes_p1 c).z j - (lanes_p0 c).z j) := rfl
    rw [hdef, hu, e0z, e1z]
    field_simp
    ring

/-- Moving a point of a straight line into ray space gives a point of a
straight line again, with the same line parameter and radius. -/
lemma toRaySpace_axis (M : LinearSpace3f) (ray : Ray) (A D : Vec3fa) (r lam : ℚ) :
    toRaySpace M ray (axisPoint A D r lam) =
      axisPoint (toRaySpace M ray (axisPoint A D r 0))
        ⟨(xfmVector M D).x, (xfmVector M D).y, (xfmVector M D).z, 0⟩ r lam := by
  simp only [toRaySpace, xfmVector, axisPoint, Vec3fa.sub, Vec3fa.mk.injEq]
  refine ⟨?_, ?_, ?_, trivial⟩ <;> ring

lemma cone_valid_iff (ray : Ray) (p0 p1 : avx4f) (i : Fin 8) :
    (coneIntersect ray p0 p1).valid i = true ↔
      (coneIntersect ray p0 p1).d2 i ≤
          (coneIntersect ray p0 p1).r i * (coneIntersect ray p0 p1).r i ∧
        ray.tnear < (coneIntersect ray p0 p1).t i ∧ (coneIntersect ray p0 p1).t i < ray.tfar := by
  simp only [coneIntersect, Bool.and_eq_true, decide_eq_true_eq, and_assoc]

/-- C13 (as stated, refuted): the straight sample curve (control points
`(-3,0,5) .. (3,0,5)`, radius `1`) and the sample ray (`tnear = 0`, no
footprint, `tfar = 100`), which meets the axis at `(0,0,5)`: the batched
`intersect` commits `tfar = 5`, the depth of the axis, while the ray enters the
tube of radius `1` around the axis at distance `4`; the two differ by far more
than the relative tolerance `1e-4`. -/
theorem straight_tube_entry_counterexample :
    (intersect ⟨identitySpace⟩ sampleRay straightCurve none).map Ray.tfar = some 5 ∧
    IsLeast {s : ℚ | sampleRay.tnear ≤ s ∧
      inTube (straightCurve.p 0) ((straightCurve.p 3).sub (straightCurve.p 0)) 1
        (rayPoint sampleRay s)} 4 ∧
    ¬ |(5 : ℚ) - 4| ≤ 1 / 10000 * 4 := by
  refine ⟨by decide!, ⟨?_, ?_⟩, by norm_num⟩
  · simp only [Set.mem_setOf_eq, inTube, rayPoint, sampleRay, straightCurve, Vec3fa.add,
      Vec3fa.sub, Vec3fa.lscale]
    norm_num
  · intro s hs
    simp only [Set.mem_setOf_eq, inTube, rayPoint, sampleRay, straightCurve, Vec3fa.add,
      Vec3fa.sub, Vec3fa.lscale] at hs
    obtain ⟨_, h⟩ := hs
    nlinarith

/-- C13 (amended, over exact arithmetic): for a straight curve whose four
control points lie in order along an axis (direction `D`) that is not parallel
to the ray, with one radius for all control points, and a ray that meets the
axis within the extent of the curve at a depth strictly between `tnear` and
`tfar` (whatever its footprint): the batched `intersect` commits a hit whose
normal `Ng` is a positive multiple of `D` and whose `tfar` is the depth of a
point of the axis itself within the extent of the curve, at most the depth at
which the ray meets the axis and equal to it when the axis is perpendicular to
the ray. -/
theorem straight_curve_hit_on_axis (pre : Precalculations) (ray : Ray) (curve_in : Bezier1i)
    (A D : Vec3fa) (r : ℚ) (lam : Fin 4 → ℚ) (ls : ℚ)
    (hline : ∀ k, curve_in.p k = axisPoint A D r (lam k))
    (h01 : lam 0 < lam 1) (h12 : lam 1 < lam 2) (h23 : lam 2 < lam 3)
    (hs0 : lam 0 ≤ ls) (hs1 : ls ≤ lam 3)
    (hcx : (toRaySpace pre.ray_space ray (axisPoint A D r ls)).x = 0)
    (hcy : (toRaySpace pre.ray_space ray (axisPoint A D r ls)).y = 0)
    (hnp : (xfmVector pre.ray_space D).x ≠ 0 ∨ (xfmVector pre.ray_space D).y ≠ 0)
    (hnear : ray.tnear < (toRaySpace pre.ray_space ray (axisPoint A D r ls)).z)
    (hfar : (toRaySpace pre.ray_space ray (axisPoint A D r ls)).z < ray.tfar) :
    ∃ ray1, intersect pre ray curve_in none = some ray1 ∧ ray1 ≠ ray ∧
      ray1.tfar ≤ (toRaySpace pre.ray_space ray (axisPoint A D r ls)).z ∧
      (∃ lam1, lam 0 ≤ lam1 ∧ lam1 ≤ lam 3 ∧
        ray1.tfar = (toRaySpace pre.ray_space ray (axisPoint A D r lam1)).z) ∧
      (∃ mu, 0 < mu ∧ ray1.Ng = ⟨mu * D.x, mu * D.y, mu * D.z, 0⟩) ∧
      ((xfmVector pre.ray_space D).z = 0 →
        ray1.tfar = (toRaySpace pre.ray_space ray (axisPoint A D r ls)).z) := by
  -- the ray-space curve is a straight curve again
  have hv : ∀ k, toRaySpace pre.ray_space ray (curve_in.p k) =
      axisPoint (toRaySpace pre.ray_space ray (axisPoint A D r 0))
        ⟨(xfmVector pre.ray_space D).x, (xfmVector pre.ray_space D).y,
          (xfmVector pre.ray_space D).z, 0⟩ r (lam k) := by
    intro k
    rw [hline k, toRaySpace_axis]
  have hzs : ∀ x, (toRaySpace pre.ray_space ray (axisPoint A D r x)).z =
      (toRaySpace pre.ray_space ray (axisPoint A D r 0)).z +
        x * (xfmVector pre.ray_space D).z := by
    intro x
    rw [toRaySpace_axis]
    rfl
  rw [toRaySpace_axis] at hcx hcy
  have hcx1 : (toRaySpace pre.ray_space ray (axisPoint A D r 0)).x +
      ls * (xfmVector pre.ray_space D).x = 0 := hcx
  have hcy1 : (toRaySpace pre.ray_space ray (axisPoint A D r 0)).y +
      ls * (xfmVector pre.ray_space D).y = 0 := hcy
  have hN : 0 < (xfmVector pre.ray_space D).x * (xfmVector pre.ray_space D).x +
      (xfmVector pre.ray_space D).y * (xfmVector pre.ray_space D).y := by
    rcases hnp with h | h
    · have := mul_self_pos.2 h
      nlinarith [mul_self_nonneg (xfmVector pre.ray_space D).y]
    · have := mul_self_pos.2 h
      nlinarith [mul_self_nonneg (xfmVector pre.ray_space D).x]
  have hD : ¬ (D.x = 0 ∧ D.y = 0 ∧ D.z = 0) := by
    rintro ⟨hx, hy, hz⟩
    rcases hnp with h | h
    · exact h (by simp [xfmVector, hx, hy, hz])
    · exact h (by simp [xfmVector, hx, hy, hz])
  -- the tangent of the untransformed curve
  have htan : ∀ uu, tangentAt curve_in uu =
      ⟨dbez lam uu * D.x, dbez lam uu * D.y, dbez lam uu * D.z, 0⟩ := fun uu =>
    tangent_axis _ A D r lam (hline 0) (hline 1) (hline 2) (hline 3) uu
  have hgoodT : ∀ i : Fin 8,
      (tangentAt curve_in (hitParam (intersectCone pre ray curve_in).u i)).eq3 Vec3fa.zero
        = false := by
    intro i
    obtain ⟨hu0, hu1⟩ := coneIntersect_u_bounds ray (lanes_p0 (curve2D pre ray curve_in))
      (lanes_p1 (curve2D pre ray curve_in)) i
    obtain ⟨_, _, _, c0, c1⟩ := hitParam_bounds (intersectCone pre ray curve_in).u i hu0 hu1
    have hpos := dbez_pos lam h01 h12 h23 _ c0 c1
    rw [htan]
    by_contra hc
    have hc1 : (Vec3fa.eq3 ⟨dbez lam (hitParam (intersectCone pre ray curve_in).u i) * D.x,
        dbez lam (hitParam (intersectCone pre ray curve_in).u i) * D.y,
        dbez lam (hitParam (intersectCone pre ray curve_in).u i) * D.z, 0⟩ Vec3fa.zero)
        = true := by simpa using hc
    simp only [Vec3fa.eq3, Vec3fa.zero, Vec3fa.broadcast, Bool.and_eq_true,
      decide_eq_true_eq, mul_eq_zero] at hc1
    have hne := ne_of_gt hpos
    exact hD ⟨hc1.1.1.resolve_left hne, hc1.1.2.resolve_left hne, hc1.2.resolve_left hne⟩
  -- the lane whose chord the ray meets
  obtain ⟨i, hi, hg0, hg1⟩ := exists_bracket (fun n => bez1 lam ((n : ℚ) / 8)) ls 8
    (by simpa [bez1] using hs0) (by simpa [bez1] using hs1) (by decide)
  have hg1c : ls ≤ bez1 lam ((((⟨i, hi⟩ : Fin 8).val : ℚ) + 1) / 8) := by
    have : ((i + 1 : ℕ) : ℚ) = (i : ℚ) + 1 := by push_cast; ring
    simpa [this] using hg1
  have hcross := axis_crossing_lane ray (curve2D pre ray curve_in)
    (toRaySpace pre.ray_space ray (axisPoint A D r 0))
    ⟨(xfmVector pre.ray_space D).x, (xfmVector pre.ray_space D).y,
      (xfmVector pre.ray_space D).z, 0⟩ r lam (hv 0) (hv 1) (hv 2) (hv 3) ls hN hcx1 hcy1
    ⟨i, hi⟩ (bez1_lane_lt lam h01 h12 h23 ⟨i, hi⟩) hg0 hg1c
  have htj : (intersectCone pre ray curve_in).t ⟨i, hi⟩ =
      (toRaySpace pre.ray_space ray (axisPoint A D r ls)).z := by
    rw [hzs]; exact hcross.2
  have hvalid : (intersectCone pre ray curve_in).valid ⟨i, hi⟩ = true := by
    unfold intersectCone
    rw [cone_valid_iff]
    refine ⟨?_, ?_, ?_⟩
    · rw [hcross.1]; exact mul_self_nonneg _
    · have := htj; unfold intersectCone at this; rw [this]; exact hnear
    · have := htj; unfold intersectCone at this; rw [this]; exact hfar
  have hgoodj : goodLane curve_in (intersectCone pre ray curve_in).u
      (intersectCone pre ray curve_in).valid ⟨i, hi⟩ := ⟨hvalid, hgoodT _⟩
  rcases intersect_spec pre ray curve_in with ⟨hno, _⟩ | ⟨i0, hgood, hmin, hres⟩
  · exact absurd ⟨_, hgoodj⟩ hno
  · obtain ⟨lam1, hl0, hl1, ht1⟩ := axis_lane_point ray (curve2D pre ray curve_in)
      (toRaySpace pre.ray_space ray (axisPoint A D r 0))
      ⟨(xfmVector pre.ray_space D).x, (xfmVector pre.ray_space D).y,
        (xfmVector pre.ray_space D).z, 0⟩ r lam (hv 0) (hv 1) (hv 2) (hv 3) h01 h12 h23 i0
    have ht0 : (intersectCone pre ray curve_in).t i0 =
        (toRaySpace pre.ray_space ray (axisPoint A D r lam1)).z := by
      rw [hzs]; exact ht1
    have hle := hmin _ hgoodj
    rw [htj] at hle
    obtain ⟨hu0, hu1⟩ := coneIntersect_u_bounds ray (lanes_p0 (curve2D pre ray curve_in))
      (lanes_p1 (curve2D pre ray curve_in)) i0
    obtain ⟨_, _, _, c0, c1⟩ := hitParam_bounds (intersectCone pre ray curve_in).u i0 hu0 hu1
    refine ⟨_, hres, ?_, hle, ⟨lam1, hl0, hl1, ht0⟩,
      ⟨dbez lam (hitParam (intersectCone pre ray curve_in).u i0),
        dbez_pos lam h01 h12 h23 _ c0 c1, htan _⟩, fun hz => ?_⟩
    · intro he
      have := congrArg Ray.tfar he
      simp only [commitHit] at this
      exact absurd this (ne_of_lt (coneIntersect_valid_depth hgood.1).2)
    · show (intersectCone pre ray curve_in).t i0 = _
      rw [ht0, hzs lam1, hzs ls, hz]
      ring

/-- Witness for C13: the sample ray and the sloped sample curve, whose axis
`(-3,0,4) + lam * (2,0,1)` the ray meets at `lam = 3/2`, depth `11/2`. -/
theorem straight_curve_hit_on_axis_witness :
    (∀ k, slopeCurve.p k = axisPoint ⟨-3, 0, 4, 0⟩ ⟨2, 0, 1, 0⟩ 1 ((k.val : ℚ))) ∧
    ∃ ray1, intersect ⟨identitySpace⟩ sampleRay slopeCurve none = some ray1 ∧
      ray1 ≠ sampleRay ∧
      ray1.tfar ≤ (toRaySpace identitySpace sampleRay
        (axisPoint ⟨-3, 0, 4, 0⟩ ⟨2, 0, 1, 0⟩ 1 (3 / 2))).z ∧
      (∃ lam1, ((0 : Fin 4).val : ℚ) ≤ lam1 ∧ lam1 ≤ ((3 : Fin 4).val : ℚ) ∧
        ray1.tfar = (toRaySpace identitySpace sampleRay
          (axisPoint ⟨-3, 0, 4, 0⟩ ⟨2, 0, 1, 0⟩ 1 lam1)).z) ∧
      (∃ mu, 0 < mu ∧ ray1.Ng = ⟨mu * 2, mu * 0, mu * 1, 0⟩) ∧
      ((xfmVector identitySpace ⟨2, 0, 1, 0⟩).z = 0 →
        ray1.tfar = (toRaySpace identitySpace sampleRay
          (axisPoint ⟨-3, 0, 4, 0⟩ ⟨2, 0, 1, 0⟩ 1 (3 / 2))).z) :=
  ⟨by decide!,
    straight_curve_hit_on_axis ⟨identitySpace⟩ sampleRay slopeCurve ⟨-3, 0, 4, 0⟩ ⟨2, 0, 1, 0⟩ 1
      (fun k => (k.val : ℚ)) (3 / 2) (by decide!) (by decide!) (by decide!) (by decide!)
      (by decide!) (by decide!) (by decide!) (by decide!) (by decide!) (by decide!) (by decide!)⟩

/-! ### Binary32 evaluation -/

/-- C2 (as stated, refuted): in binary32 every operation of `eval` rounds. For
the sample tube, whose `x` lanes are `0, 1, 2, 3`, and `t = float(1/3)`, `eval`
returns a point with `x = 8388607/8388608` and a tangent with
`x = 8388607/8388608`, while the two polynomials of the claim have the values
`33554433/33554432` and `1` at this `t`. -/
theorem eval_binary32_counterexample :
    fl (1 / 3) = 11184811 / 33554432 ∧
    (sampleTube.eval32 (fl (1 / 3))).1.get 0 = 8388607 / 8388608 ∧
    (1 - fl (1 / 3)) ^ 3 * sampleTube.v0.get 0
        + 3 * (1 - fl (1 / 3)) ^ 2 * fl (1 / 3) * sampleTube.v1.get 0
        + 3 * (1 - fl (1 / 3)) * fl (1 / 3) ^ 2 * sampleTube.v2.get 0
        + fl (1 / 3) ^ 3 * sampleTube.v3.get 0 = 33554433 / 33554432 ∧
    (sampleTube.eval32 (fl (1 / 3))).2.get 0 = 8388607 / 8388608 ∧
    (1 - fl (1 / 3)) ^ 2 * (sampleTube.v1.get 0 - sampleTube.v0.get 0)
        + 2 * (1 - fl (1 / 3)) * fl (1 / 3) * (sampleTube.v2.get 0 - sampleTube.v1.get 0)
        + fl (1 / 3) ^ 2 * (sampleTube.v3.get 0 - sampleTube.v2.get 0) = 1 := by
  decide!

/-- C3 (as stated, refuted): in binary32 the batched `eval` and three
subdivisions round differently. For the segment with `x = 0.1f, 0.2f, 0.3f, 0.7f`
lane 4 of `eval(coeff0)` has `x = 2411725/8388608` while the first control point
of the fifth leaf has `x = 9646899/33554432`, and lane 4 of `eval(coeff1)` has
`x = 12104499/33554432` while the last control point of that leaf has
`x = 3026125/8388608`. -/
theorem eval_avx_binary32_counterexample :
    (lanes_p0_32 sampleTenths).x 4 = 2411725 / 8388608 ∧
    ((leaves32 3 sampleTenths).map (fun s => s.v0.x))[4]? = some (9646899 / 33554432) ∧
    (lanes_p1_32 sampleTenths).x 4 = 12104499 / 33554432 ∧
    ((leaves32 3 sampleTenths).map (fun s => s.v3.x))[4]? = some (3026125 / 8388608) ∧
    (leaves32 3 sampleTenths).map (fun s => s.v0) ≠
      List.ofFn (fun i => (lanes_p0_32 sampleTenths).lane i) ∧
    (leaves32 3 sampleTenths).map (fun s => s.v3) ≠
      List.ofFn (fun i => (lanes_p1_32 sampleTenths).lane i) := by
  decide!

/-- C5 (as stated, refuted): in binary32 the point of the cone block is not
`p0 + u (p1 - p0)` and the mask is not the stated condition on that point. For
the grazing sample curve lane 7 has the end points `p0.x = 4713/512` and
`p1.x = 1 + 2^-23` at radius `1`; `u = 1`, the difference `p1 - p0` and the sum
`p0 + u*v` round, the code gets `p.x = 1` and marks the lane valid, while
`p0 + u (p1 - p0)` has `x = 1 + 2^-23`, outside the radius: the cone block in
exact arithmetic on the same end points marks the lane invalid. -/
theorem cone_binary32_counterexample :
    (lanes_p0_32 (curve2D32 ⟨identitySpace⟩ sampleRay grazeCurve)).lane 7 =
      ⟨4713 / 512, 0, 5, 1⟩ ∧
    (lanes_p1_32 (curve2D32 ⟨identitySpace⟩ sampleRay grazeCurve)).lane 7 =
      ⟨1 + 1 / 8388608, 0, 5, 1⟩ ∧
    (coneIntersect32 sampleRay (lanes_p0_32 (curve2D32 ⟨identitySpace⟩ sampleRay grazeCurve))
      (lanes_p1_32 (curve2D32 ⟨identitySpace⟩ sampleRay grazeCurve))).u 7 = 1 ∧
    (coneIntersect32 sampleRay (lanes_p0_32 (curve2D32 ⟨identitySpace⟩ sampleRay grazeCurve))
      (lanes_p1_32 (curve2D32 ⟨identitySpace⟩ sampleRay grazeCurve))).p.lane 7 = ⟨1, 0, 5, 1⟩ ∧
    (coneIntersect32 sampleRay (lanes_p0_32 (curve2D32 ⟨identitySpace⟩ sampleRay grazeCurve))
      (lanes_p1_32 (curve2D32 ⟨identitySpace⟩ sampleRay grazeCurve))).valid 7 = true ∧
    (coneIntersect sampleRay (lanes_p0_32 (curve2D32 ⟨identitySpace⟩ sampleRay grazeCurve))
      (lanes_p1_32 (curve2D32 ⟨identitySpace⟩ sampleRay grazeCurve))).p.lane 7 =
      ⟨1 + 1 / 8388608, 0, 5, 1⟩ ∧
    (coneIntersect sampleRay (lanes_p0_32 (curve2D32 ⟨identitySpace⟩ sampleRay grazeCurve))
      (lanes_p1_32 (curve2D32 ⟨identitySpace⟩ sampleRay grazeCurve))).valid 7 = false := by
  decide!

/-- Witness for C5: lane 3 of the straight sample curve, from `(-3/4, 0, 5)` to
`(0, 0, 5)`, compared with the middle of its chord. -/
theorem cone_test_lane_witness :
    ((0 : ℚ) ≠ -3 / 4 ∨ (0 : ℚ) ≠ 0) ∧
    (0 : ℚ) ≤ 1 / 2 ∧ (1 / 2 : ℚ) ≤ 1 ∧
    (intersectCone ⟨identitySpace⟩ sampleRay straightCurve).u 3 =
      max 0 (min (((-(-3 / 4 : ℚ)) * (0 - (-3 / 4)) + (-(0 : ℚ)) * (0 - 0)) /
        (((0 : ℚ) - (-3 / 4)) * (0 - (-3 / 4)) + ((0 : ℚ) - 0) * (0 - 0))) 1) ∧
    ((intersectCone ⟨identitySpace⟩ sampleRay straightCurve).p.x 3) ^ 2 +
        ((intersectCone ⟨identitySpace⟩ sampleRay straightCurve).p.y 3) ^ 2 ≤
      ((-3 / 4 : ℚ) + 1 / 2 * (0 - (-3 / 4))) ^ 2 + ((0 : ℚ) + 1 / 2 * (0 - 0)) ^ 2 :=
  ⟨by decide!, by decide!, by decide!,
   ((cone_test_lane ⟨identitySpace⟩ sampleRay straightCurve 3).2.2.1
      ⟨-3 / 4, 0, 5, 1⟩ ⟨0, 0, 5, 1⟩ (by decide!) (by decide!)).1 (by decide!),
   ((cone_test_lane ⟨identitySpace⟩ sampleRay straightCurve 3).2.2.1
      ⟨-3 / 4, 0, 5, 1⟩ ⟨0, 0, 5, 1⟩ (by decide!) (by decide!)).2.2.2 (1 / 2)
      (by decide!) (by decide!)⟩

/-- C20 (as stated, refuted): in binary32 the pruning loses a hit. For the
grazing sample curve (radius `1`, last control point at `x = 1 + 2^-23`) both
children of the root fail the box test, so the recursive `intersect` applies the
leaf block to no segment and returns the ray unchanged; the traversal that
applies the leaf block to all 16 depth-0 segments records the last one (its
point rounds to `x = 1`) and commits `u = 1`, `tfar = 5`. -/
theorem pruning_binary32_counterexample :
    (∀ k, 0 ≤ (grazeCurve.p k).w) ∧
    intersect_box (curve2D32 ⟨identitySpace⟩ sampleRay grazeCurve).subdivide32.1.bounds32
      sampleRay = false ∧
    intersect_box (curve2D32 ⟨identitySpace⟩ sampleRay grazeCurve).subdivide32.2.bounds32
      sampleRay = false ∧
    intersect_recursive32 identitySpace sampleRay grazeCurve = Except.ok sampleRay ∧
    (leaves32 4 (curve2D32 ⟨identitySpace⟩ sampleRay grazeCurve)).length = 16 ∧
    intersect_unpruned32 identitySpace sampleRay grazeCurve =
      { sampleRay with u := 1, v := 1, tfar := 5, Ng := ⟨-21, 0, 0, 0⟩,
                       geomID := 7, primID := 3 } := by
  decide!

end embree
